import Mathlib

/-!
Galileo: pseudospectral collocation segment.

Shallow embedding of `galileo/variables/src/PseudospectralSegment.cpp` and of the method
`CreateFunction` of `galileo/legged-model/ContactConstraintBuilder.h`.

Conventions of the embedding.
* A C++ `double` is an element of a linearly ordered field `K` (exact arithmetic, no rounding,
  no NaN); concrete evaluations take `K = ℚ`, and `K = ℝ` for the Gauss-Legendre points
  themselves, which are irrational.
* A `casadi::Polynomial` is its dense coefficient vector `p_`, lowest degree first.
* An `SX` expression that only takes part in arithmetic is represented by its value under an
  arbitrary assignment of the symbols (a `Valuation`): states in a type `X`, deviations and
  controls in `K`-modules `V` and `U`, with `K` itself for scalars. An `SX` that is stored as a
  decision variable is a syntactic symbol. The shapes that casadi checks when the expression
  graph is built are computed separately, on `Function` records and pairs `(rows, columns)`.
* `assert` is enabled; a failed assertion, a casadi exception and an out-of-range read of a
  `std::vector` are the three ways a call can end without a result.
-/

set_option autoImplicit false

namespace casadi

/-- Modelled from the spec: `casadi::Polynomial` is a class of the casadi library, whose source
is not part of the repository. It is the closed-form polynomial algebra the basis builder uses:
a dense coefficient vector `p_`, lowest degree first. -/
structure Polynomial (K : Type) where
  p_ : List K

namespace Polynomial

variable {K : Type} [Field K]

/-- Modelled from the spec: the library constructor `Polynomial(scalar)`, a constant. -/
def const (scalar : K) : Polynomial K := ⟨[scalar]⟩

/-- Modelled from the spec: the library constructor `Polynomial(p0, p1)`, the polynomial
`p0 + p1 x`. -/
def linear (p0 p1 : K) : Polynomial K := ⟨[p0, p1]⟩

/-- Modelled from the spec: the inner loop of the library `operator*`,
`p_ret[d + d_a] += p_[d] * a.p_[d_a]` for every `d_a`. -/
def mul_row (pd : K) (a : List K) (d : Nat) (p_ret : List K) : List K :=
  (List.range a.length).foldl
    (fun ret d_a => ret.set (d + d_a) (ret.getD (d + d_a) 0 + pd * a.getD d_a 0)) p_ret

/-- Modelled from the spec: the library product `operator*`, a zero vector of size
`|p| + |a| - 1` filled by the double loop over the coefficients. -/
def mul (p a : Polynomial K) : Polynomial K :=
  ⟨(List.range p.p_.length).foldl
    (fun ret d => mul_row (p.p_.getD d 0) a.p_ d ret)
    (List.replicate (p.p_.length + a.p_.length - 1) 0)⟩

/-- Modelled from the spec: the library quotient by a scalar, `operator/`; every coefficient is
divided. -/
def div (p : Polynomial K) (d : K) : Polynomial K := ⟨p.p_.map (fun e => e / d)⟩

/-- Modelled from the spec: the library evaluation `operator()`, Horner from the highest
coefficient down (the polynomial value at a point). -/
def eval (p : Polynomial K) (x : K) : K :=
  match p.p_.reverse with
  | [] => 0
  | c :: cs => cs.foldl (fun ret e => ret * x + e) c

/-- Modelled from the spec: the library method `derivative`, `ret_p[k-1] = k * p_[k]` for
`k = 1 .. |p|-1`. -/
def derivative (p : Polynomial K) : Polynomial K :=
  ⟨(List.range (p.p_.length - 1)).map (fun i => ((i + 1 : Nat) : K) * p.p_.getD (i + 1) 0)⟩

/-- Modelled from the spec: the library method `anti_derivative`, the analytic antiderivative
with `ret_p[0] = 0`, `ret_p[k+1] = p_[k] / (k+1)`. -/
def anti_derivative (p : Polynomial K) : Polynomial K :=
  ⟨0 :: (List.range p.p_.length).map (fun k => p.p_.getD k 0 / ((k + 1 : Nat) : K))⟩

end Polynomial

end casadi

namespace galileo

variable {K : Type}

/-- The ways a call ends without a result: a failed `assert`, an exception thrown by casadi, a
read past the end of a `std::vector`. -/
inductive Failure where
  | assertion (msg : String)
  | casadi_error (msg : String)
  | out_of_range
  deriving DecidableEq, Repr

/-- The class `LagrangePolynomial`: degree `d`, the `d + 1` roots `tau_root` and the three
coefficient tables. Reads `tau_root(r)` with `r < d + 1` are within range by construction and
are written `tau_root.getD r 0`. -/
structure LagrangePolynomial (K : Type) where
  d : Nat
  tau_root : List K
  B : List K
  C : List (List K)
  D : List K

namespace LagrangePolynomial

/-- The Lagrange polynomial `p` built by the inner loop of the constructor for basis index `j`:
`p = 1`, then `p *= Polynomial(-tau_root(r), 1) / (tau_root(j) - tau_root(r))` for `r ≠ j`. -/
def basis_p [Field K] (d : Nat) (tau_root : List K) (j : Nat) : casadi.Polynomial K :=
  (List.range (d + 1)).foldl
    (fun p r =>
      if r ≠ j then
        p.mul ((casadi.Polynomial.linear (-(tau_root.getD r 0)) 1).div
          (tau_root.getD j 0 - tau_root.getD r 0))
      else p)
    (casadi.Polynomial.const 1)

/-- The constructor `LagrangePolynomial(d_, scheme)`, given the `d_` points `troot` returned by
`collocation_points(d_, scheme)`: root `0` is prepended and `D`, `C`, `B` are filled per `j`. -/
def build [Field K] (d_ : Nat) (troot : List K) : LagrangePolynomial K :=
  let tau_root := 0 :: troot
  { d := d_
    tau_root := tau_root
    D := (List.range (d_ + 1)).map (fun j => (basis_p d_ tau_root j).eval 1)
    C := (List.range (d_ + 1)).map (fun j =>
      (List.range (d_ + 1)).map (fun r =>
        (basis_p d_ tau_root j).derivative.eval (tau_root.getD r 0)))
    B := (List.range (d_ + 1)).map (fun j => (basis_p d_ tau_root j).anti_derivative.eval 1) }

/-- The method `lagrange_interpolation(t, terms)`: the assertion on `t`, then for `j < d` the term
`terms[j]` multiplied by `(t - tau_root(r)) / (tau_root(j) - tau_root(r))` for every `r < d + 1`
with `r ≠ j`, all terms added up. Reading `terms[j]` past the end of `terms` yields no result.
The terms are `SX` column vectors: their values lie in a `K`-module `V` (`V = K` for scalars) and
`term *= c` scales the vector by the number `c`. -/
def lagrange_interpolation [LinearOrderedField K] {V : Type} [AddCommGroup V] [Module K V]
    (self : LagrangePolynomial K) (t : K) (terms : List V) : Except Failure V :=
  if 0 ≤ t ∧ t ≤ 1 then
    (List.range self.d).foldlM
      (fun result j =>
        match terms[j]? with
        | none => Except.error Failure.out_of_range
        | some term0 =>
          Except.ok (result + (List.range (self.d + 1)).foldl
            (fun term r =>
              if r ≠ j then
                ((t - self.tau_root.getD r 0)
                  / (self.tau_root.getD j 0 - self.tau_root.getD r 0)) • term
              else term)
            term0))
      0
  else Except.error (Failure.assertion "t must be in the range [0,1]")

/-- The closed form of the value that `lagrange_interpolation(t, terms)` returns: the sum over
`j < d` of `terms[j]` times the product over `r < d + 1`, `r ≠ j`, of
`(t - tau_root(r)) / (tau_root(j) - tau_root(r))`. -/
def interpolant [Field K] {V : Type} [AddCommGroup V] [Module K V]
    (self : LagrangePolynomial K) (t : K) (terms : List V) : V :=
  ∑ j in Finset.range self.d,
    (∏ r in (Finset.range (self.d + 1)).erase j,
      (t - self.tau_root.getD r 0) / (self.tau_root.getD j 0 - self.tau_root.getD r 0))
      • terms.getD j 0

end LagrangePolynomial

/-- The check `assert(c && msg)`. -/
def assert (c : Prop) [Decidable c] (msg : String) : Except Failure Unit :=
  if c then Except.ok () else Except.error (Failure.assertion msg)

/-- The state dimensions held by `States`: `nx`, `ndx`, `nu`. -/
structure States where
  nx : Nat
  ndx : Nat
  nu : Nat
  deriving DecidableEq, Repr

/-- Modelled from the spec: a `casadi::Function` (library class) as far as the segment inspects
it, its name and the shapes `(rows, columns)` of its inputs and outputs. -/
structure Function where
  name : String
  size_in : List (Nat × Nat)
  size_out : List (Nat × Nat)
  deriving DecidableEq, Repr

namespace Function

/-- The number of inputs, `n_in()`. -/
def n_in (f : Function) : Nat := f.size_in.length

/-- The number of outputs, `n_out()`. -/
def n_out (f : Function) : Nat := f.size_out.length

/-- Modelled from the spec: the library check `assert_size_in(i, nrow, ncol)`, which reports a
precondition error on a different shape. -/
def assert_size_in (f : Function) (i nrow ncol : Nat) : Except Failure Unit :=
  if f.size_in[i]? = some (nrow, ncol) then Except.ok ()
  else Except.error (Failure.casadi_error "Incorrect shape for input")

/-- Modelled from the spec: the library check `assert_size_out(i, nrow, ncol)`, which reports a
precondition error on a different shape. -/
def assert_size_out (f : Function) (i nrow ncol : Nat) : Except Failure Unit :=
  if f.size_out[i]? = some (nrow, ncol) then Except.ok ()
  else Except.error (Failure.casadi_error "Incorrect shape for output")

end Function

/-- Modelled from the spec: a symbolic `SX` expression (library class) as stored in the segment,
that is a named symbol of a given shape (`SX::sym`), a numeric literal, or output `i` of a
function applied to arguments. -/
inductive SX (K : Type) where
  | sym (name : String) (nrow ncol : Nat) : SX K
  | num (c : K) : SX K
  | call (f : Function) (args : List (SX K)) (i : Nat) : SX K

namespace SX

/-- The shape `(size1(), size2())` of an expression. -/
def size : SX K → Nat × Nat
  | sym _ nrow ncol => (nrow, ncol)
  | num _ => (1, 1)
  | call f _ i => f.size_out.getD i (0, 0)

end SX

/-- The index pair `tuple_size_t`. -/
abbrev tuple_size_t := Nat × Nat

/-- The result of running `f` on every element of a list in turn, or the first failure. -/
def map_each {α β : Type} (f : α → Except Failure β) : List α → Except Failure (List β)
  | [] => Except.ok []
  | a :: as =>
    match f a with
    | Except.error e => Except.error e
    | Except.ok b =>
      match map_each f as with
      | Except.error e => Except.error e
      | Except.ok bs => Except.ok (b :: bs)

/-- The read `vec[i]` of a `std::vector`; past the end of the vector there is no result. -/
def at_index {α : Type} (vec : List α) (i : Nat) : Except Failure α :=
  match vec[i]? with
  | some a => Except.ok a
  | none => Except.error Failure.out_of_range

/-- Modelled from the spec: the shape of an elementwise operation of casadi on two column
vectors (library code outside src/): equal shapes, or one operand a `1×1` scalar that is
broadcast; anything else is reported as a dimension mismatch. -/
def binary_size (a b : Nat × Nat) : Except Failure (Nat × Nat) :=
  if a = b then Except.ok a
  else if a = (1, 1) then Except.ok b
  else if b = (1, 1) then Except.ok a
  else Except.error (Failure.casadi_error "Dimension mismatch")

/-- Modelled from the spec: the shape of `vertcat` in casadi (library code outside src/): the
rows add up, the operands must agree on the number of columns, and the empty list gives
`0×1`. -/
def vertcat_size : List (Nat × Nat) → Except Failure (Nat × Nat)
  | [] => Except.ok (0, 1)
  | s :: rest =>
    if rest.all (fun r => r.2 == s.2) then
      Except.ok (s.1 + (rest.map Prod.fst).sum, s.2)
    else Except.error (Failure.casadi_error "vertcat: dimension mismatch")

namespace Function

/-- Modelled from the spec: `Function::map(n, parallelization)` of casadi (library code outside
src/): `n` must be positive, and every input and output gets `n` times the columns. The name
that casadi gives the mapped function is not modelled: the name of `f` is kept. -/
def map (f : Function) (n : Int) : Except Failure Function :=
  if 0 < n then
    Except.ok { name := f.name
                size_in := f.size_in.map (fun s => (s.1, s.2 * n.toNat))
                size_out := f.size_out.map (fun s => (s.1, s.2 * n.toNat)) }
  else Except.error (Failure.casadi_error "Degenerate map operation")

/-- Modelled from the spec: `Function::fold(n)` of casadi (library code outside src/): `n` must
be positive; the first input is the accumulator and keeps its shape, as does the output, and
every other input gets `n` times the columns. The name of `f` is kept. -/
def fold (f : Function) (n : Int) : Except Failure Function :=
  if 0 < n then
    Except.ok { name := f.name
                size_in := f.size_in.take 1 ++ (f.size_in.drop 1).map
                  (fun s => (s.1, s.2 * n.toNat))
                size_out := f.size_out }
  else Except.error (Failure.casadi_error "mapaccum: N must be positive")

/-- Modelled from the spec: the shape test of casadi for one call argument (library code
outside src/). The argument `arg` is accepted for an input of shape `inp` with the number of
parallel evaluations returned: equal shapes, an empty or scalar argument, a vector that is the
transpose of the input, an argument that repeats horizontally into the input (`1` evaluation
each), or an argument that is a horizontal multiple of the input (that many evaluations). -/
def npar (arg inp : Nat × Nat) : Option Nat :=
  if arg = inp then some 1
  else if arg.1 = 0 ∨ arg.2 = 0 then some 1
  else if arg = (1, 1) then some 1
  else if (arg.1 = 1 ∨ arg.2 = 1) ∧ inp = (arg.2, arg.1) then some 1
  else if arg.1 = inp.1 ∧ 0 < inp.2 ∧ inp.2 % arg.2 = 0 then some 1
  else if arg.1 = inp.1 ∧ 0 < inp.2 ∧ arg.2 % inp.2 = 0 then some (arg.2 / inp.2)
  else none

/-- Modelled from the spec: a call of a casadi function on arguments of the given shapes
(library code outside src/): the number of arguments must be `n_in()` and every argument must
pass the shape test; the result is the shapes of the outputs. -/
def call (f : Function) (args : List (Nat × Nat)) : Except Failure (List (Nat × Nat)) :=
  if args.length = f.n_in then
    match map_each
        (fun p : (Nat × Nat) × (Nat × Nat) =>
          match npar p.1 p.2 with
          | some n => Except.ok n
          | none => Except.error (Failure.casadi_error "Incorrect matrix shape for input"))
        (List.zip args f.size_in) with
    | Except.error e => Except.error e
    | Except.ok ns => Except.ok (f.size_out.map (fun s => (s.1, s.2 * ns.foldl max 1)))
  else Except.error (Failure.casadi_error "Incorrect number of inputs")

end Function

/-- Modelled from the spec: the assignment `v(Slice(a, b)) = m` to a column `DM` of casadi
(library code outside src/): the slice must lie within `v`, and `m` has as many entries as the
slice or is a single entry that is repeated. -/
def slice_assign {K : Type} (v : List K) (a b : Nat) (m : List K) : Except Failure (List K) :=
  if a ≤ b ∧ b ≤ v.length then
    if m.length = b - a then Except.ok (v.take a ++ m ++ v.drop b)
    else
      match m with
      | [c] => Except.ok (v.take a ++ List.replicate (b - a) c ++ v.drop b)
      | _ => Except.error (Failure.casadi_error "Dimension mismatch")
  else Except.error (Failure.casadi_error "Slice out of bounds")

/-- Modelled from the spec: the record `ConstraintData` of an external constraint contribution
as `initialize_expression_graph` reads it: the flag `global`, the number of rows of the mask
`apply_at`, the constraint function `G` and the two bound functions. The members `global` and
`apply_at` are declared in a header outside src/ (the record of `Constraint.h` has the three
functions only). The numbers that the
mapped bound functions return on the time grid are the parameters `lower_bound_values` and
`upper_bound_values`. -/
structure ConstraintData (K : Type) where
  global : Bool
  apply_at_rows : Nat
  G : Function
  lower_bound : Function
  upper_bound : Function
  lower_bound_values : List K → List K
  upper_bound_values : List K → List K

/-- The members of `PseudospectralSegment` set by the constructor, by
`initialize_knot_segments`, by `initialize_expression_graph` and by the `fill_` and
`evaluate_` methods. A `casadi::Function` member that has not been assigned is `none`. -/
structure PseudospectralSegment (K : Type) where
  knot_num : Int
  Fint : Function
  h : K
  st_m : States
  T : K
  dX_poly : LagrangePolynomial K
  U_poly : LagrangePolynomial K
  dXc : List (SX K)
  Uc : List (SX K)
  dX0 : SX K
  X0 : SX K
  Lc : SX K
  times : List K
  dXc_var_vec : List (SX K)
  U_var_vec : List (SX K)
  dX0_var_vec : List (SX K)
  X0_var_vec : List (SX K)
  w_range : tuple_size_t
  collocation_constraint_map : Option Function := none
  xf_constraint_map : Option Function := none
  q_cost_fold : Option Function := none
  general_constraint_maps : List Function := []
  general_lbg : List K := []
  general_ubg : List K := []
  g_range : tuple_size_t := (0, 0)
  lbg_ubg_range : tuple_size_t := (0, 0)

namespace LagrangePolynomial

/-- The constructor `LagrangePolynomial(d_, scheme)` on top of `collocation_points`, the routine
of casadi that returns the `d_` collocation points of the scheme or throws. -/
def new [Field K] (collocation_points : Nat → Except Failure (List K)) (d_ : Nat) :
    Except Failure (LagrangePolynomial K) :=
  (collocation_points d_).map (build d_)

end LagrangePolynomial

namespace PseudospectralSegment

/-- The loop of `initialize_expression_variables` for `dXc`: `d` symbols `dXc_j` of shape
`ndx × 1`. -/
def new_dXc (d : Nat) (st_m : States) : List (SX K) :=
  (List.range d).map (fun j => SX.sym ("dXc_" ++ toString j) st_m.ndx 1)

/-- The loop of `initialize_expression_variables` for `Uc`: a symbol `Uc_j` of shape `nu × 1`
for every `j < d` with `j < d - 1`. -/
def new_Uc (d : Nat) (st_m : States) : List (SX K) :=
  ((List.range d).filter (fun j => decide (j < d - 1))).map
    (fun j => SX.sym ("Uc_" ++ toString j) st_m.nu 1)

/-- The inner loop of `initialize_time_vector` for knot `k`:
`times(k * (d + 1) + j) = tau_root[j] * h + k * h` for `j < d + 1`. -/
def time_vector_row [Field K] (d : Nat) (tau_root : List K) (h : K) (k : Nat)
    (times : List K) : List K :=
  (List.range (d + 1)).foldl
    (fun ts j => ts.set (k * (d + 1) + j) (tau_root.getD j 0 * h + (k : K) * h)) times

/-- The method `initialize_time_vector`: `knot_num * (d + 1) + 1` zeros (casadi rejects a
negative size), the last entry set to `T`, then one row per knot. -/
def initialize_time_vector [Field K] (knot_num : Int) (dX_poly : LagrangePolynomial K)
    (h T : K) : Except Failure (List K) :=
  if knot_num * ((dX_poly.d : Int) + 1) + 1 < 0 then
    Except.error (Failure.casadi_error "negative dimension")
  else
    let times := List.replicate (knot_num.toNat * (dX_poly.d + 1) + 1) (0 : K)
    let times := times.set (knot_num.toNat * (dX_poly.d + 1)) T
    Except.ok ((List.range knot_num.toNat).foldl
      (fun ts k => time_vector_row dX_poly.d dX_poly.tau_root h k ts) times)

/-- The constructor `PseudospectralSegment(d, knot_num_, h_, st_m_, Fint_)`: the four assertions,
the four shape checks of `Fint_`, then the members, `initialize_expression_variables(d)` and
`initialize_time_vector()`. -/
def new [LinearOrderedField K] (collocation_points : Nat → Except Failure (List K))
    (d : Int) (knot_num_ : Int) (h_ : K) (st_m_ : States) (Fint_ : Function) :
    Except Failure (PseudospectralSegment K) := do
  assert (0 < d ∧ d < 10) "d must be greater than 0 and less than 10"
  assert (0 < h_) "h must be a positive duration"
  assert (Fint_.n_in = 3) "Fint must have 3 inputs"
  assert (Fint_.n_out = 1) "Fint must have 1 output"
  Fint_.assert_size_in 0 st_m_.nx 1
  Fint_.assert_size_in 1 st_m_.ndx 1
  Fint_.assert_size_in 2 1 1
  Fint_.assert_size_out 0 st_m_.nx 1
  let T := ((knot_num_ + 1 : Int) : K) * h_
  let dX_poly ← LagrangePolynomial.new collocation_points d.toNat
  let U_poly ← LagrangePolynomial.new collocation_points (d.toNat - 1)
  let times ← initialize_time_vector knot_num_ dX_poly h_ T
  pure
    { knot_num := knot_num_
      Fint := Fint_
      h := h_
      st_m := st_m_
      T := T
      dX_poly := dX_poly
      U_poly := U_poly
      dXc := new_dXc d.toNat st_m_
      Uc := new_Uc d.toNat st_m_
      dX0 := SX.sym "dX0" st_m_.ndx 1
      X0 := SX.sym "X0" st_m_.nx 1
      Lc := SX.sym "Lc" 1 1
      times := times
      dXc_var_vec := []
      U_var_vec := []
      dX0_var_vec := []
      X0_var_vec := []
      w_range := (0, 0) }

/-- The method `initialize_knot_segments(x0)`: the shape assertion on `x0`, then per knot the
symbols `dXc_k` and `U_k`, and per knot boundary the symbol `dX0_k` together with the state
`Fint(x0, dX0_k, 1.0)`. -/
def initialize_knot_segments [One K] (self : PseudospectralSegment K) (x0 : SX K) :
    Except Failure (PseudospectralSegment K) := do
  assert (x0.size.1 = self.st_m.nx ∧ x0.size.2 = 1) "x0 must be a column vector of size nx"
  let dXc_var_vec := (List.range self.knot_num.toNat).map
    (fun k => SX.sym ("dXc_" ++ toString k) (self.st_m.ndx * self.dX_poly.d) 1)
  let U_var_vec := (List.range self.knot_num.toNat).map
    (fun k => SX.sym ("U_" ++ toString k) (self.st_m.nu * self.U_poly.d) 1)
  let dX0_var_vec := (List.range (self.knot_num + 1).toNat).map
    (fun k => SX.sym ("dX0_" ++ toString k) self.st_m.ndx 1)
  let X0_var_vec := (List.range (self.knot_num + 1).toNat).map
    (fun k => SX.call self.Fint
      [x0, SX.sym ("dX0_" ++ toString k) self.st_m.ndx 1, SX.num 1] 0)
  pure { self with
    dXc_var_vec := dXc_var_vec
    U_var_vec := U_var_vec
    dX0_var_vec := dX0_var_vec
    X0_var_vec := X0_var_vec }

/-- The method `fill_w(w)`: the iterator `w.end() + 1` is taken before the three insertions at
the end of `w`; the recorded range is `(tmp_it - w.begin(), w.end() - w.begin())`. An iterator
is its position in the vector. -/
def fill_w (self : PseudospectralSegment K) (w : List (SX K)) :
    PseudospectralSegment K × List (SX K) :=
  let tmp_it := w.length + 1
  let w := w ++ self.dXc_var_vec
  let w := w ++ self.dX0_var_vec
  let w := w ++ self.U_var_vec
  ({ self with w_range := (tmp_it, w.length) }, w)

/-- The method `get_range_idx_decision_variables`. -/
def get_range_idx_decision_variables (self : PseudospectralSegment K) : tuple_size_t :=
  self.w_range

end PseudospectralSegment

/-- The shapes of the local expressions of `initialize_expression_graph`: the entries of `eq`,
`dXf`, `Qf`, and the entries of `x_at_c` and `u_at_c`. -/
structure GraphSizes where
  eq : List (Nat × Nat)
  dXf : Nat × Nat
  Qf : Nat × Nat
  x_at_c : List (Nat × Nat)
  u_at_c : List (Nat × Nat)

/-- The meaning of the functions a segment is built from, on values: the integration map
`Fint(x, dx, dt)`, the dynamics `F(x, u)` and the running cost `L(x, u)`. States have values in
`X`, state deviations and state derivatives in the `K`-module `V`, controls in the `K`-module
`U`. The external constraint functions are not interpreted: `general i` is the flattened value
of `general_constraint_maps[i]` on the four arguments of its call. -/
structure Dynamics (K X V U : Type) where
  Fint : X → V → K → X
  F : X → U → V
  L : X → U → K
  general : Nat → List X → List (List V) → List V → List (List U) → List V

/-- The values of the local expressions of `initialize_expression_graph` under an assignment
of the symbols `X0`, `dXc`, `dX0`, `Uc`: the entries of `eq`, `dXf`, `Qf`, and the entries of
`x_at_c` and `u_at_c`. -/
structure CollocationGraph (K X V U : Type) where
  eq : List V
  dXf : V
  Qf : K
  x_at_c : List X
  u_at_c : List U

/-- An assignment of values to the symbols that `initialize_knot_segments` creates: the
reference state `x0`, the boundary deviation `dX0_k`, block `j` of `dXc_k` and block `j` of
`U_k`. -/
structure Valuation (X V U : Type) where
  x0 : X
  dX0 : Nat → V
  dXc : Nat → Nat → V
  U : Nat → Nat → U

/-- The matrices that `evaluate_expression_graph` builds with `horzcat`, one column per knot,
as lists of column values. -/
structure KnotColumns (X V U : Type) where
  xs_offset : List X
  dxs_offset : List V
  xs : List X
  dxs : List V
  dxcs : List (List V)
  us : List (List U)

namespace LagrangePolynomial

/-- The entry `C(a, b)` of the matrix `C`. -/
def C_at [Zero K] (self : LagrangePolynomial K) (a b : Nat) : K := (self.C.getD a []).getD b 0

end LagrangePolynomial

namespace PseudospectralSegment

/-- One pass of the loop over `j` in `initialize_expression_graph` (lines 181 to 206), on the
shapes of the expressions: the sum `dxp`, the calls of `Fint`, of `lagrange_interpolation` (whose
checks do not depend on the symbols, so it is run on zeros), of `F` and of `L`, and the updates
of `eq`, `Qf` and `dXf`. -/
def collocation_point_size [LinearOrderedField K] (self : PseudospectralSegment K)
    (F L : Function) (acc : GraphSizes) (j : Nat) : Except Failure GraphSizes := do
  let dxp ← (List.range self.dX_poly.d).foldlM
    (fun s r => do
      let dXc_r ← at_index self.dXc r
      binary_size s dXc_r.size)
    self.dX0.size
  let dXc_j ← at_index self.dXc (j - 1)
  let x_c ← (← self.Fint.call [self.X0.size, dXc_j.size, (1, 1)])[0]?.elim
    (Except.error Failure.out_of_range) Except.ok
  let _ ← self.U_poly.lagrange_interpolation (self.dX_poly.tau_root.getD (j - 1) 0)
    (self.Uc.map (fun _ => (0 : K)))
  let u_c ← (self.Uc.take self.U_poly.d).foldlM (fun s t => binary_size s t.size) (1, 1)
  let F_out ← (← F.call [x_c, u_c])[0]?.elim (Except.error Failure.out_of_range) Except.ok
  let eq_j ← binary_size F_out dxp
  let L_out ← (← L.call [x_c, u_c])[0]?.elim (Except.error Failure.out_of_range) Except.ok
  let Qf ← binary_size acc.Qf L_out
  let dXf ← binary_size acc.dXf dXc_j.size
  pure
    { eq := acc.eq ++ [eq_j]
      dXf := dXf
      Qf := Qf
      x_at_c := acc.x_at_c ++ [x_c]
      u_at_c := acc.u_at_c ++ [u_c] }

/-- The loop over `j = 1 .. d` in `initialize_expression_graph`, on the shapes. -/
def collocation_loop_size [LinearOrderedField K] (self : PseudospectralSegment K)
    (F L : Function) : Except Failure GraphSizes :=
  (List.range' 1 self.dX_poly.d).foldlM (collocation_point_size self F L)
    { eq := [], dXf := self.dX0.size, Qf := (1, 1), x_at_c := [], u_at_c := [] }

/-- One pass of the first loop over `G` in `initialize_expression_graph` (lines 236 to 258):
the checks on `G`, and for a global contribution the mapped call of `G`, the function `fg`, its
range and the new `N`. The state is `(general_constraint_maps, ranges, N)`. -/
def constraint_map_step (self : PseudospectralSegment K) (sizes : GraphSizes)
    (acc : List Function × List tuple_size_t × Nat) (g_data : ConstraintData K) :
    Except Failure (List Function × List tuple_size_t × Nat) := do
  assert (g_data.G.n_in = 2) "G must have 2 inputs"
  g_data.G.assert_size_in 0 self.st_m.nx 1
  g_data.G.assert_size_in 1 self.st_m.nu 1
  if g_data.global then do
    let tmp_x ← vertcat_size (sizes.x_at_c ++ [self.X0.size])
    let u_at_c ← vertcat_size sizes.u_at_c
    let tmp_map ← (← g_data.G.map (self.dX_poly.d : Int)).call [tmp_x, u_at_c]
    let out ← vertcat_size tmp_map
    let tmp_dx ← vertcat_size ((self.dXc ++ [self.dX0]).map SX.size)
    let Uc ← vertcat_size (self.Uc.map SX.size)
    let tmap : Function :=
      { name := "fg", size_in := [self.X0.size, tmp_dx, Uc], size_out := [out] }
    pure (acc.1 ++ [tmap], acc.2.1 ++ [(acc.2.2, acc.2.2 + out.1 * out.2)],
      acc.2.2 + out.1 * out.2)
  else pure acc

/-- One pass of the second loop over `G` in `initialize_expression_graph` (lines 266 to 279),
for index `i`: for a global contribution the slices `ranges[i]` of `general_lbg` and
`general_ubg` are assigned the mapped bound functions evaluated on `times`. The state is
`(general_lbg, general_ubg)`. -/
def constraint_bound_step (self : PseudospectralSegment K) (G : List (ConstraintData K))
    (ranges : List tuple_size_t) (acc : List K × List K) (i : Nat) :
    Except Failure (List K × List K) := do
  let g_data ← at_index G i
  if g_data.global then do
    let r ← at_index ranges i
    let _ ← vertcat_size
      (← (← g_data.lower_bound.map self.knot_num).call [(self.times.length, 1)])
    let lbg ← slice_assign acc.1 r.1 r.2 (g_data.lower_bound_values self.times)
    let r ← at_index ranges i
    let _ ← vertcat_size
      (← (← g_data.upper_bound.map self.knot_num).call [(self.times.length, 1)])
    let ubg ← slice_assign acc.2 r.1 r.2 (g_data.upper_bound_values self.times)
    pure (lbg, ubg)
  else pure acc

/-- The method `initialize_expression_graph(F, L, G)`, on the shapes of the functions and
expressions and on the numbers of the bound vectors: the assertions and shape checks of `F`
and `L`, the loop over the collocation points, the three mapped functions, the loop over `G`
and the bound vectors `general_lbg`, `general_ubg`. -/
def initialize_expression_graph [LinearOrderedField K] (self : PseudospectralSegment K)
    (F L : Function) (G : List (ConstraintData K)) :
    Except Failure (PseudospectralSegment K) := do
  assert (F.n_in = 2) "F must have 2 inputs"
  assert (F.n_out = 1) "F must have 1 output"
  assert (L.n_in = 2) "L must have 2 inputs"
  assert (L.n_out = 1) "L must have 1 output"
  F.assert_size_in 0 self.st_m.nx 1
  F.assert_size_in 1 self.st_m.nu 1
  F.assert_size_out 0 self.st_m.nx 1
  L.assert_size_in 0 self.st_m.nx 1
  L.assert_size_in 1 self.st_m.nu 1
  L.assert_size_out 0 1 1
  let sizes ← collocation_loop_size self F L
  let dXc ← vertcat_size (self.dXc.map SX.size)
  let Uc ← vertcat_size (self.Uc.map SX.size)
  let eq ← vertcat_size sizes.eq
  let collocation_constraint_map ← Function.map
    { name := "feq", size_in := [self.X0.size, dXc, self.dX0.size, Uc], size_out := [eq] }
    self.knot_num
  let xf_constraint_map ← Function.map
    { name := "fxf", size_in := [self.X0.size, dXc, self.dX0.size, Uc],
      size_out := [sizes.dXf] }
    self.knot_num
  let Lc_Qf ← binary_size self.Lc.size sizes.Qf
  let q_cost_fold ← Function.fold
    { name := "fxq", size_in := [self.Lc.size, self.X0.size, dXc, self.dX0.size, Uc],
      size_out := [Lc_Qf] }
    self.knot_num
  let col_out := collocation_constraint_map.size_out.getD 0 (0, 0)
  let xf_out := xf_constraint_map.size_out.getD 0 (0, 0)
  let N := col_out.1 * col_out.2 + xf_out.1 * xf_out.2
  let tmp := N
  let (general_constraint_maps, ranges, N) ←
    G.foldlM (constraint_map_step self sizes) (self.general_constraint_maps, [], N)
  let general_lbg := (self.general_lbg ++ List.replicate N 0).take N
  let general_ubg := (self.general_ubg ++ List.replicate N 0).take N
  let general_lbg ← slice_assign general_lbg 0 tmp (List.replicate tmp 0)
  let general_ubg ← slice_assign general_ubg 0 tmp (List.replicate tmp 0)
  let (general_lbg, general_ubg) ←
    (List.range G.length).foldlM (constraint_bound_step self G ranges)
      (general_lbg, general_ubg)
  pure { self with
    collocation_constraint_map := some collocation_constraint_map
    xf_constraint_map := some xf_constraint_map
    q_cost_fold := some q_cost_fold
    general_constraint_maps := general_constraint_maps
    general_lbg := general_lbg
    general_ubg := general_ubg }

section Values

variable {X V U : Type} [LinearOrderedField K] [AddCommGroup V] [Module K V]
  [AddCommGroup U] [Module K U]

/-- The expression `dxp` for collocation point `j` (lines 185 to 189), on values: it starts
from `C(0, j) * dX0` and adds `C(r + 1, j) * dXc[r]` for `r < d`. -/
def dxp (self : PseudospectralSegment K) (dXc : List V) (dX0 : V) (j : Nat) : V :=
  (List.range self.dX_poly.d).foldl
    (fun dxp r => dxp + self.dX_poly.C_at (r + 1) j • dXc.getD r 0)
    (self.dX_poly.C_at 0 j • dX0)

/-- The duration `dt_j` for collocation point `j` (line 183). -/
def dt (self : PseudospectralSegment K) (j : Nat) : K :=
  self.dX_poly.tau_root.getD j 0 - self.dX_poly.tau_root.getD (j - 1) 0 * self.h

/-- One pass of the loop over `j` in `initialize_expression_graph` (lines 181 to 206), on the
values of the expressions under an assignment of `X0`, `dXc`, `dX0` and `Uc`: `dt_j`, the sum
`dxp`, the state `x_c`, the control `u_c`, the new entry of `eq` and the updates of `Qf` and
`dXf`. The lists `dXc` and `Uc` hold the values of the members `dXc` and `Uc`, which the loop
reads within range. -/
def collocation_point (self : PseudospectralSegment K) (I : Dynamics K X V U) (X0 : X)
    (dXc : List V) (dX0 : V) (Uc : List U) (acc : CollocationGraph K X V U) (j : Nat) :
    Except Failure (CollocationGraph K X V U) := do
  let dt_j := dt self j
  let dxp := dxp self dXc dX0 j
  let x_c := I.Fint X0 (dXc.getD (j - 1) 0) dt_j
  let u_c ← self.U_poly.lagrange_interpolation (self.dX_poly.tau_root.getD (j - 1) 0) Uc
  pure
    { eq := acc.eq ++ [self.h • I.F x_c u_c - dxp]
      dXf := acc.dXf + self.dX_poly.D.getD j 0 • dXc.getD (j - 1) 0
      Qf := acc.Qf + self.dX_poly.B.getD j 0 * I.L x_c u_c * self.h
      x_at_c := acc.x_at_c ++ [x_c]
      u_at_c := acc.u_at_c ++ [u_c] }

/-- The loop over `j = 1 .. d` in `initialize_expression_graph`, on the values: it starts from
`dXf = D(0) * dX0`, `Qf = 0` and empty `eq`, `x_at_c`, `u_at_c`. -/
def collocation_loop (self : PseudospectralSegment K) (I : Dynamics K X V U) (X0 : X)
    (dXc : List V) (dX0 : V) (Uc : List U) : Except Failure (CollocationGraph K X V U) :=
  (List.range' 1 self.dX_poly.d).foldlM (collocation_point self I X0 dXc dX0 Uc)
    { eq := [], dXf := self.dX_poly.D.getD 0 0 • dX0, Qf := 0, x_at_c := [], u_at_c := [] }

/-- The value of the function `feq` (inputs `X0`, `vertcat(dXc)`, `dX0`, `vertcat(Uc)`, output
`vertcat(eq)`) on one knot. -/
def feq (self : PseudospectralSegment K) (I : Dynamics K X V U)
    (arg : X × List V × V × List U) : Except Failure (List V) :=
  (collocation_loop self I arg.1 arg.2.1 arg.2.2.1 arg.2.2.2).map (fun graph => graph.eq)

/-- The value of the function `fxf` (same inputs, output `dXf`) on one knot. -/
def fxf (self : PseudospectralSegment K) (I : Dynamics K X V U)
    (arg : X × List V × V × List U) : Except Failure V :=
  (collocation_loop self I arg.1 arg.2.1 arg.2.2.1 arg.2.2.2).map (fun graph => graph.dXf)

/-- The value of the function `fxq` (inputs `Lc` and the same four, output `Lc + Qf`) on one
knot. -/
def fxq (self : PseudospectralSegment K) (I : Dynamics K X V U) (Lc : K)
    (arg : X × List V × V × List U) : Except Failure K :=
  (collocation_loop self I arg.1 arg.2.1 arg.2.2.1 arg.2.2.2).map (fun graph => Lc + graph.Qf)

/-- The closed form of the result of `collocation_loop` (lemma `collocation_loop_eq`): entry
`i` of `eq` is `h * F(x_c, u_c) - dxp` for collocation point `i + 1`, with
`x_c = Fint(X0, dXc[i], dt)` and `u_c` the interpolant of `Uc` at `tau_root(i)`. -/
def collocation_graph (self : PseudospectralSegment K) (I : Dynamics K X V U) (X0 : X)
    (dXc : List V) (dX0 : V) (Uc : List U) : CollocationGraph K X V U :=
  { eq := (List.range self.dX_poly.d).map (fun i =>
      self.h • I.F (I.Fint X0 (dXc.getD i 0) (dt self (i + 1)))
          (self.U_poly.interpolant (self.dX_poly.tau_root.getD i 0) Uc)
        - dxp self dXc dX0 (i + 1))
    dXf := self.dX_poly.D.getD 0 0 • dX0
      + ∑ i in Finset.range self.dX_poly.d, self.dX_poly.D.getD (i + 1) 0 • dXc.getD i 0
    Qf := ∑ i in Finset.range self.dX_poly.d, self.dX_poly.B.getD (i + 1) 0
      * I.L (I.Fint X0 (dXc.getD i 0) (dt self (i + 1)))
          (self.U_poly.interpolant (self.dX_poly.tau_root.getD i 0) Uc) * self.h
    x_at_c := (List.range self.dX_poly.d).map
      (fun i => I.Fint X0 (dXc.getD i 0) (dt self (i + 1)))
    u_at_c := (List.range self.dX_poly.d).map (fun i =>
      self.U_poly.interpolant (self.dX_poly.tau_root.getD i 0) Uc) }

/-- The value of `X0_var_vec[k]`, the expression `Fint(x0, dX0_k, 1.0)` that
`initialize_knot_segments` stores. -/
def X0_value (I : Dynamics K X V U) (val : Valuation X V U) (k : Nat) : X :=
  I.Fint val.x0 (val.dX0 k) 1

/-- The value of `dXc_var_vec[k]`, split into the blocks of `vertcat(dXc)`. -/
def dXc_value (self : PseudospectralSegment K) (val : Valuation X V U) (k : Nat) : List V :=
  (List.range self.dXc.length).map (val.dXc k)

/-- The value of `U_var_vec[k]`, split into the blocks of `vertcat(Uc)`. -/
def U_value (self : PseudospectralSegment K) (val : Valuation X V U) (k : Nat) : List U :=
  (List.range self.Uc.length).map (val.U k)

/-- The closed form of the result of `collocation_loop` on the values of knot `k`. -/
def knot_graph (self : PseudospectralSegment K) (I : Dynamics K X V U)
    (val : Valuation X V U) (k : Nat) : CollocationGraph K X V U :=
  collocation_graph self I (X0_value I val k) (dXc_value self val k) (val.dX0 k)
    (U_value self val k)

/-- One pass of the loop over `k` in `evaluate_expression_graph` (lines 293 to 301): the six
reads, which must be within the stored vectors, and the six `horzcat`. -/
def knot_column (self : PseudospectralSegment K) (I : Dynamics K X V U)
    (val : Valuation X V U) (cols : KnotColumns X V U) (k : Nat) :
    Except Failure (KnotColumns X V U) := do
  let _ ← at_index self.X0_var_vec (k + 1)
  let _ ← at_index self.dX0_var_vec (k + 1)
  let _ ← at_index self.X0_var_vec k
  let _ ← at_index self.dX0_var_vec k
  let _ ← at_index self.dXc_var_vec k
  let _ ← at_index self.U_var_vec k
  pure
    { xs_offset := cols.xs_offset ++ [X0_value I val (k + 1)]
      dxs_offset := cols.dxs_offset ++ [val.dX0 (k + 1)]
      xs := cols.xs ++ [X0_value I val k]
      dxs := cols.dxs ++ [val.dX0 k]
      dxcs := cols.dxcs ++ [dXc_value self val k]
      us := cols.us ++ [U_value self val k] }

/-- One pass of the loop over `general_constraint_maps` in `evaluate_expression_graph` (lines
310 to 314): the call with four arguments, which casadi refuses for a function that does not
have four inputs, and the new entry of `result`. The call arguments have the shapes the maps
are built for, so of the checks of a call only the number of arguments is modelled here and
for the three mapped functions. -/
def general_constraint_block (I : Dynamics K X V U) (cols : KnotColumns X V U)
    (acc : List (List V) × Nat) (f : Function) : Except Failure (List (List V) × Nat) :=
  if f.n_in = 4 then
    Except.ok (acc.1 ++ [I.general acc.2 cols.xs cols.dxcs cols.dxs cols.us], acc.2 + 1)
  else Except.error (Failure.casadi_error "Incorrect number of inputs")

/-- The method `evaluate_expression_graph(J0, g)` under an assignment `val` of the knot
symbols: the reads of the stored vectors, the columns per knot, the calls of the three mapped
functions (an unassigned function cannot be called), the entries of `result`, the new cost,
and the range recorded for `g` from the iterator `g.end() + 1` taken before the insertion. An
entry of `g` is a column vector, given as the list of its blocks; `J0` is a scalar. The result
is the segment, the new `J0` and the new `g`. -/
def evaluate_expression_graph (self : PseudospectralSegment K) (I : Dynamics K X V U)
    (val : Valuation X V U) (J0 : K) (g : List (List V)) :
    Except Failure (PseudospectralSegment K × K × List (List V)) := do
  let _ ← at_index self.X0_var_vec 1
  let _ ← at_index self.dX0_var_vec 1
  let _ ← at_index self.X0_var_vec 0
  let _ ← at_index self.dX0_var_vec 0
  let _ ← at_index self.U_var_vec 0
  let _ ← at_index self.dXc_var_vec 0
  let cols ← (List.range' 1 (self.knot_num.toNat - 1)).foldlM (knot_column self I val)
    { xs_offset := [X0_value I val 1]
      dxs_offset := [val.dX0 1]
      xs := [X0_value I val 0]
      dxs := [val.dX0 0]
      dxcs := [dXc_value self val 0]
      us := [U_value self val 0] }
  let args := List.zip cols.xs (List.zip cols.dxcs (List.zip cols.dxs cols.us))
  let _ ← self.collocation_constraint_map.elim
    (Except.error (Failure.casadi_error "call of a null function")) Except.ok
  let col_con_mat ← map_each (feq self I) args
  let _ ← self.xf_constraint_map.elim
    (Except.error (Failure.casadi_error "call of a null function")) Except.ok
  let xf_con_mat ← map_each (fxf self I) args
  let result := [col_con_mat.flatten, List.zipWith (fun a b => a - b) xf_con_mat cols.dxs_offset]
  let (result, _) ← self.general_constraint_maps.foldlM (general_constraint_block I cols)
    (result, 0)
  let _ ← self.q_cost_fold.elim
    (Except.error (Failure.casadi_error "call of a null function")) Except.ok
  let cost ← args.foldlM (fxq self I) J0
  let tmp_it := g.length + 1
  let g := g ++ result
  pure ({ self with g_range := (tmp_it, g.length) }, cost, g)

end Values

/-- The method `get_range_idx_constraint_expressions`. -/
def get_range_idx_constraint_expressions (self : PseudospectralSegment K) : tuple_size_t :=
  self.g_range

/-- The method `get_initial_state_deviant`: `dX0_var_vec.front()`, which an empty vector does
not have. -/
def get_initial_state_deviant (self : PseudospectralSegment K) : Except Failure (SX K) :=
  at_index self.dX0_var_vec 0

/-- The method `get_initial_state`: `X0_var_vec.front()`. -/
def get_initial_state (self : PseudospectralSegment K) : Except Failure (SX K) :=
  at_index self.X0_var_vec 0

/-- The method `get_final_state_deviant`: `dX0_var_vec.back()`, which an empty vector does not
have. -/
def get_final_state_deviant (self : PseudospectralSegment K) : Except Failure (SX K) :=
  at_index self.dX0_var_vec (self.dX0_var_vec.length - 1)

/-- The method `get_final_state`: `X0_var_vec.back()`. -/
def get_final_state (self : PseudospectralSegment K) : Except Failure (SX K) :=
  at_index self.X0_var_vec (self.X0_var_vec.length - 1)

/-- The method `fill_lbg_ubg(lbg, ubg)`: the iterator `lbg.end() + 1` is taken before the
elements of `general_lbg` and `general_ubg` are inserted at the ends of `lbg` and `ubg`; the
recorded range is `(tmp_it - lbg.begin(), lbg.end() - lbg.begin())`. -/
def fill_lbg_ubg (self : PseudospectralSegment K) (lbg ubg : List K) :
    PseudospectralSegment K × List K × List K :=
  let tmp_it := lbg.length + 1
  let lbg := lbg ++ self.general_lbg
  let ubg := ubg ++ self.general_ubg
  ({ self with lbg_ubg_range := (tmp_it, lbg.length) }, lbg, ubg)

/-- The method `get_range_idx_bg`. -/
def get_range_idx_bg (self : PseudospectralSegment K) : tuple_size_t :=
  self.lbg_ubg_range

end PseudospectralSegment

/-- The facts about a segment and the functions `F`, `L` under which
`initialize_expression_graph` returns (lemma `initialize_expression_graph_ok`): the degrees,
the number of knots, and the shapes of the symbols and functions, as the constructor leaves them
on arguments that pass its checks; equal state and deviation dimensions; interpolation
abscissae `tau_root(0) .. tau_root(d - 1)` in `[0,1]`; no map or bound left by an earlier
call. -/
structure GraphReady {K : Type} [LinearOrderedField K] (seg : PseudospectralSegment K)
    (F L : Function) (d kn : Nat) : Prop where
  d_eq : seg.dX_poly.d = d
  Ud_eq : seg.U_poly.d = d - 1
  kn_eq : seg.knot_num = (kn : Int)
  kn_pos : 1 ≤ kn
  dXc_sizes : seg.dXc.map SX.size = List.replicate d (seg.st_m.ndx, 1)
  Uc_sizes : seg.Uc.map SX.size = List.replicate (d - 1) (seg.st_m.nu, 1)
  X0_size : seg.X0.size = (seg.st_m.nx, 1)
  dX0_size : seg.dX0.size = (seg.st_m.ndx, 1)
  Lc_size : seg.Lc.size = (1, 1)
  Fint_in : seg.Fint.size_in = [(seg.st_m.nx, 1), (seg.st_m.ndx, 1), (1, 1)]
  Fint_out : seg.Fint.size_out = [(seg.st_m.nx, 1)]
  F_in : F.size_in = [(seg.st_m.nx, 1), (seg.st_m.nu, 1)]
  F_out : F.size_out = [(seg.st_m.nx, 1)]
  L_in : L.size_in = [(seg.st_m.nx, 1), (seg.st_m.nu, 1)]
  L_out : L.size_out = [(1, 1)]
  nx_eq : seg.st_m.nx = seg.st_m.ndx
  roots : ∀ i, i < d →
    0 ≤ seg.dX_poly.tau_root.getD i 0 ∧ seg.dX_poly.tau_root.getD i 0 ≤ 1
  no_maps : seg.general_constraint_maps = []
  lbg_nil : seg.general_lbg = []
  ubg_nil : seg.general_ubg = []

/-- The facts about the arguments of the constructor, of `initialize_knot_segments` and of
`initialize_expression_graph` under which the three calls return (lemma `assemble_ok`): the
constructor's checks pass, the collocation scheme returns the points `troot` for degree `d` and
`troot2` for degree `d - 1`, all of them in `[0,1]`, there is at least one knot, the state and
deviation dimensions agree, `x0`, `F` and `L` have the asserted shapes, and no member of `G` is
a global constraint. -/
structure ValidSetup {K : Type} [LinearOrderedField K]
    (collocation_points : Nat → Except Failure (List K)) (d kn : Nat) (h : K) (st : States)
    (Fint F L : Function) (G : List (ConstraintData K)) (troot troot2 : List K) (x0 : SX K) :
    Prop where
  d_pos : 0 < d
  d_lt : d < 10
  kn_pos : 1 ≤ kn
  h_pos : 0 < h
  nx_eq : st.nx = st.ndx
  Fint_in : Fint.size_in = [(st.nx, 1), (st.ndx, 1), (1, 1)]
  Fint_out : Fint.size_out = [(st.nx, 1)]
  F_in : F.size_in = [(st.nx, 1), (st.nu, 1)]
  F_out : F.size_out = [(st.nx, 1)]
  L_in : L.size_in = [(st.nx, 1), (st.nu, 1)]
  L_out : L.size_out = [(1, 1)]
  points : collocation_points d = Except.ok troot
  points2 : collocation_points (d - 1) = Except.ok troot2
  roots : ∀ t, t ∈ troot → 0 ≤ t ∧ t ≤ 1
  x0_size : x0.size = (st.nx, 1)
  no_global : ∀ c, c ∈ G → c.global = false ∧ c.G.size_in = [(st.nx, 1), (st.nu, 1)]

/-- The members of a segment after the constructor, `initialize_knot_segments(x0)` and
`initialize_expression_graph` have returned on arguments as in `ValidSetup` (lemma
`assemble_ok`). -/
structure Assembled {K : Type} [LinearOrderedField K] (seg : PseudospectralSegment K)
    (d kn : Nat) (h : K) (st : States) (Fint : Function) (troot troot2 : List K) (x0 : SX K) :
    Prop where
  knot_num_eq : seg.knot_num = (kn : Int)
  kn_pos : 1 ≤ kn
  h_eq : seg.h = h
  st_eq : seg.st_m = st
  dX_poly_eq : seg.dX_poly = LagrangePolynomial.build d troot
  U_poly_eq : seg.U_poly = LagrangePolynomial.build (d - 1) troot2
  dXc_length : seg.dXc.length = d
  Uc_length : seg.Uc.length = d - 1
  roots : ∀ i, i < seg.dX_poly.d →
    0 ≤ seg.dX_poly.tau_root.getD i 0 ∧ seg.dX_poly.tau_root.getD i 0 ≤ 1
  X0_var_vec_eq : seg.X0_var_vec = (List.range (kn + 1)).map
    (fun k => SX.call Fint [x0, SX.sym ("dX0_" ++ toString k) st.ndx 1, SX.num 1] 0)
  dX0_var_vec_eq : seg.dX0_var_vec = (List.range (kn + 1)).map
    (fun k => SX.sym ("dX0_" ++ toString k) st.ndx 1)
  dXc_var_vec_eq : seg.dXc_var_vec = (List.range kn).map
    (fun k => SX.sym ("dXc_" ++ toString k) (st.ndx * d) 1)
  U_var_vec_eq : seg.U_var_vec = (List.range kn).map
    (fun k => SX.sym ("U_" ++ toString k) (st.nu * (d - 1)) 1)
  feq_eq : seg.collocation_constraint_map = some
    { name := "feq"
      size_in := [(st.ndx, kn), (d * st.ndx, kn), (st.ndx, kn), ((d - 1) * st.nu, kn)]
      size_out := [(d * st.ndx, kn)] }
  fxf_eq : seg.xf_constraint_map = some
    { name := "fxf"
      size_in := [(st.ndx, kn), (d * st.ndx, kn), (st.ndx, kn), ((d - 1) * st.nu, kn)]
      size_out := [(st.ndx, kn)] }
  fxq_eq : seg.q_cost_fold = some
    { name := "fxq"
      size_in := [(1, 1), (st.ndx, kn), (d * st.ndx, kn), (st.ndx, kn), ((d - 1) * st.nu, kn)]
      size_out := [(1, 1)] }
  maps_eq : seg.general_constraint_maps = []
  lbg_eq : seg.general_lbg = List.replicate (d * st.ndx * kn + st.ndx * kn) 0
  ubg_eq : seg.general_ubg = List.replicate (d * st.ndx * kn + st.ndx * kn) 0

/-- The facts of `GraphReady` without the equality of the state and deviation dimensions:
instead, `res` is the outcome of the elementwise operation `h * F(x_c, u_c) - dxp` on an
operand of shape `nx × 1` and one of shape `ndx × 1`. When it is a shape of `r` rows (equal
shapes, or a scalar that casadi broadcasts), `initialize_expression_graph` returns if there is
no external constraint contribution (lemma `initialize_expression_graph_rows`); when it is an
exception, `initialize_expression_graph` ends in it (lemma
`initialize_expression_graph_mismatch`). -/
structure BroadcastReady {K : Type} [LinearOrderedField K] (seg : PseudospectralSegment K)
    (F L : Function) (d kn : Nat) (res : Except Failure (Nat × Nat)) : Prop where
  d_eq : seg.dX_poly.d = d
  Ud_eq : seg.U_poly.d = d - 1
  kn_eq : seg.knot_num = (kn : Int)
  kn_pos : 1 ≤ kn
  dXc_sizes : seg.dXc.map SX.size = List.replicate d (seg.st_m.ndx, 1)
  Uc_sizes : seg.Uc.map SX.size = List.replicate (d - 1) (seg.st_m.nu, 1)
  X0_size : seg.X0.size = (seg.st_m.nx, 1)
  dX0_size : seg.dX0.size = (seg.st_m.ndx, 1)
  Lc_size : seg.Lc.size = (1, 1)
  Fint_in : seg.Fint.size_in = [(seg.st_m.nx, 1), (seg.st_m.ndx, 1), (1, 1)]
  Fint_out : seg.Fint.size_out = [(seg.st_m.nx, 1)]
  F_in : F.size_in = [(seg.st_m.nx, 1), (seg.st_m.nu, 1)]
  F_out : F.size_out = [(seg.st_m.nx, 1)]
  L_in : L.size_in = [(seg.st_m.nx, 1), (seg.st_m.nu, 1)]
  L_out : L.size_out = [(1, 1)]
  rows : binary_size (seg.st_m.nx, 1) (seg.st_m.ndx, 1) = res
  roots : ∀ i, i < d →
    0 ≤ seg.dX_poly.tau_root.getD i 0 ∧ seg.dX_poly.tau_root.getD i 0 ≤ 1
  no_maps : seg.general_constraint_maps = []
  lbg_nil : seg.general_lbg = []
  ubg_nil : seg.general_ubg = []

/-- The number of rows of one collocation-defect equation `h * F(x_c, u_c) - dxp` (line 194)
when the output of `F` has `nx` rows and `dxp` has `ndx` rows and the two agree or one of them
is `1` (lemma `binary_size_dims`): `ndx` when `nx = 1`, and `nx` otherwise. -/
def defect_rows (st : States) : Nat := if st.nx = 1 then st.ndx else st.nx

/-- The facts about the arguments of the constructor, of `initialize_knot_segments` and of
`initialize_expression_graph` as in `ValidSetup`, without a constraint list and without the
equality of the state and deviation dimensions. When the dimensions agree or one of them is
`1` the three calls return (lemma `broadcast_assemble_ok`); otherwise
`initialize_expression_graph` ends in an exception (lemma `dimension_mismatch_refused`). -/
structure BroadcastSetup {K : Type} [LinearOrderedField K]
    (collocation_points : Nat → Except Failure (List K)) (d kn : Nat) (h : K) (st : States)
    (Fint F L : Function) (troot troot2 : List K) (x0 : SX K) : Prop where
  d_pos : 0 < d
  d_lt : d < 10
  kn_pos : 1 ≤ kn
  h_pos : 0 < h
  Fint_in : Fint.size_in = [(st.nx, 1), (st.ndx, 1), (1, 1)]
  Fint_out : Fint.size_out = [(st.nx, 1)]
  F_in : F.size_in = [(st.nx, 1), (st.nu, 1)]
  F_out : F.size_out = [(st.nx, 1)]
  L_in : L.size_in = [(st.nx, 1), (st.nu, 1)]
  L_out : L.size_out = [(1, 1)]
  points : collocation_points d = Except.ok troot
  points2 : collocation_points (d - 1) = Except.ok troot2
  roots : ∀ t, t ∈ troot → 0 ≤ t ∧ t ≤ 1
  x0_size : x0.size = (st.nx, 1)

/-- A sample collocation scheme for concrete evaluations, with the order check of casadi: the
`n` equispaced points `1/n, 2/n, …, n/n` for `0 < n < 10`. The tables of casadi are not part
of the repository and enter the model as the parameter `collocation_points`. -/
def equispaced_points (n : Nat) : Except Failure (List ℚ) :=
  if 0 < n ∧ n < 10 then
    Except.ok ((List.range n).map (fun i => ((i + 1 : Nat) : ℚ) / (n : ℚ)))
  else Except.error (Failure.casadi_error "only order up to 9 supported")

/-- Modelled from the spec: the default collocation scheme of the constructor is declared in
the header, which is not among the sources; the end-to-end scenario names it as the Legendre
scheme. These are the entries of casadi's Legendre table for orders 3 and 2, the two that the
scenario reads, as decimal fractions; the other orders are not listed here. -/
def legendre_points (K : Type) [Field K] (n : Nat) : Except Failure (List K) :=
  if n = 3 then
    Except.ok [11270166537925831148 / 10 ^ 20, 1 / 2, 88729833462074168852 / 10 ^ 20]
  else if n = 2 then
    Except.ok [21132486540518711775 / 10 ^ 20, 78867513459481288225 / 10 ^ 20]
  else Except.error (Failure.casadi_error "order not listed")

/-- An integration map with the shapes of the scalar scenario: inputs `1×1`, `1×1`, `1×1` and
one output `1×1`. -/
def scalar_Fint : Function :=
  { name := "Fint", size_in := [(1, 1), (1, 1), (1, 1)], size_out := [(1, 1)] }

/-- An integration map for a scalar state with a deviation of three rows (`nx = 1`,
`ndx = 3`): inputs `1×1`, `3×1`, `1×1` and one output `1×1`. -/
def wide_Fint : Function :=
  { name := "Fint", size_in := [(1, 1), (3, 1), (1, 1)], size_out := [(1, 1)] }

/-- A dynamics function with the shapes of the scalar scenario: inputs `1×1`, `1×1` and one
output `1×1`. -/
def scalar_F : Function :=
  { name := "F", size_in := [(1, 1), (1, 1)], size_out := [(1, 1)] }

/-- A running cost with the shapes of the scalar scenario: inputs `1×1`, `1×1` and one output
`1×1`. -/
def scalar_L : Function :=
  { name := "L", size_in := [(1, 1), (1, 1)], size_out := [(1, 1)] }

/-- The functions of the end-to-end scenario on values: `Fint(x, dx, dt) = x + dx`,
`F(x, u) = u`, `L(x, u) = u²`, scalar state and control, no external constraint. -/
def scenario_dynamics (K : Type) [Field K] : Dynamics K K K K :=
  { Fint := fun x dx _ => x + dx
    F := fun _ u => u
    L := fun _ u => u ^ 2
    general := fun _ _ _ _ _ => [] }

namespace opt

/-- A `casadi::Function` without inputs that returns a column of constants, by its name and
the constants; an entry is a `double`, which may be `-infinity` (`⊥`). -/
structure BoundFunction (K : Type) where
  name : String
  value : List (WithBot K)

/-- A constraint function, by its name and the number of its residual rows. -/
structure ResidualFunction where
  name : String
  rows : Nat

/-- The record `ConstraintData` of `Constraint.h`: the bound functions `upper_bound`,
`lower_bound` and the constraint function `G`. A default-constructed `casadi::Function` is
`none`. -/
structure ConstraintData (K : Type) where
  upper_bound : Option (BoundFunction K) := none
  lower_bound : Option (BoundFunction K) := none
  G : Option ResidualFunction := none

end opt

namespace legged

/-- Modelled from the spec: the data of an environment surface (declared in a header outside
src/) that `CreateFunction` reads: the number of rows of the half-space matrix `A`, the vector
`b` and the `height`. -/
structure SurfaceData (K : Type) where
  A_rows : Nat
  b : List K
  height : K

/-- Modelled from the spec: a contact mode (declared in a header outside src/) as
`CreateFunction` reads it: `mode[ee]`, whether the end effector is in contact, and
`getSurfaceID(ee)`. An end effector is identified by its frame name. -/
structure ContactMode where
  active : String → Bool
  getSurfaceID : String → Nat

/-- Modelled from the spec: the members of the problem data that `CreateFunction` reads:
`environment_surfaces`, `contact_sequence` (`none` for a null pointer; `getPhaseAtKnot` gives
the mode of the phase at a knot, or `none` for a status other than `OK`) and
`robot_end_effectors` in the order of iteration. -/
structure ContactConstraintProblemData (K : Type) where
  environment_surfaces : List (SurfaceData K)
  contact_sequence : Option (Int → Option ContactMode)
  robot_end_effectors : List String

/-- The method `getModeAtKnot`: the two assertions and the mode of the phase at the knot. -/
def getModeAtKnot (problem_data : ContactConstraintProblemData K) (knot_index : Int) :
    Except Failure ContactMode :=
  match problem_data.contact_sequence with
  | none => Except.error (Failure.assertion "problem_data.contact_sequence != nullptr")
  | some getPhaseAtKnot =>
    match getPhaseAtKnot knot_index with
    | none => Except.error
        (Failure.assertion "status == contact::ContactSequence::CONTACT_SEQUENCE_ERROR::OK")
    | some mode => Except.ok mode

/-- One pass of the loop over the end effectors in `CreateFunction` (lines 43 to 89): for an
end effector in contact, the surface data, the residual of `A.rows() + 1` rows (the expression
of the residual is not modelled), the bound
`lower_bound = (-infinity, …, -infinity, height)` with `b.rows()` infinite entries and the
bound `upper_bound = (b, height)`, pushed onto `G_vec`, `lower_bound_vec` and
`upper_bound_vec`. The state is `(G_vec, lower_bound_vec, upper_bound_vec)`, with a residual
given by its number of rows. -/
def contact_bounds_step (problem_data : ContactConstraintProblemData K) (mode : ContactMode)
    (acc : List Nat × List (List (WithBot K)) × List (List (WithBot K))) (ee : String) :
    Except Failure (List Nat × List (List (WithBot K)) × List (List (WithBot K))) :=
  if mode.active ee then do
    let surface_data ← at_index problem_data.environment_surfaces (mode.getSurfaceID ee)
    let lower_bound_region_constraint : List (WithBot K) :=
      List.replicate surface_data.b.length ⊥
    let upper_bound : List (WithBot K) :=
      surface_data.b.map (fun x => (x : WithBot K)) ++ [(surface_data.height : WithBot K)]
    let lower_bound : List (WithBot K) :=
      lower_bound_region_constraint ++ [(surface_data.height : WithBot K)]
    pure (acc.1 ++ [surface_data.A_rows + 1], acc.2.1 ++ [lower_bound],
      acc.2.2 ++ [upper_bound])
  else pure acc

/-- The method `ContactConstraintBuilder::CreateFunction(problem_data, knot_index,
constraint_data)`: the mode at the knot, the loop over the end effectors, then the three
assignments of lines 92 to 101, to `constraint_data.G`, to `constraint_data.lower_bound` (the
function `lower_bound_Contact`) and again to `constraint_data.lower_bound` (the function
`upper_bound_Contact`). The result is the new `constraint_data`. -/
def CreateFunction (problem_data : ContactConstraintProblemData K) (knot_index : Int)
    (constraint_data : opt.ConstraintData K) : Except Failure (opt.ConstraintData K) := do
  let mode ← getModeAtKnot problem_data knot_index
  let (G_vec, lower_bound_vec, upper_bound_vec) ←
    problem_data.robot_end_effectors.foldlM (contact_bounds_step problem_data mode)
      ([], [], [])
  let constraint_data := { constraint_data with
    G := some { name := "G_Contact", rows := G_vec.sum } }
  let constraint_data := { constraint_data with
    lower_bound := some { name := "lower_bound_Contact", value := lower_bound_vec.flatten } }
  let constraint_data := { constraint_data with
    lower_bound := some { name := "upper_bound_Contact", value := upper_bound_vec.flatten } }
  pure constraint_data

/-- A sample problem for concrete evaluations: one surface with two half-space rows,
`b = (1, 2)` and height `0`, and one end effector, in contact with that surface at every
knot. -/
def sample_contact_problem : ContactConstraintProblemData ℚ :=
  { environment_surfaces := [{ A_rows := 2, b := [1, 2], height := 0 }]
    contact_sequence := some
      (fun _ => some { active := fun _ => true, getSurfaceID := fun _ => 0 })
    robot_end_effectors := ["left_foot"] }

end legged

/-- A sample constraint contribution marked global, for concrete evaluations: `G` with the
inputs `1×1`, `1×1` and one residual, and bound functions of the time with one output that
return zeros. -/
def sample_global_constraint : ConstraintData ℚ :=
  { global := true
    apply_at_rows := 2
    G := { name := "G", size_in := [(1, 1), (1, 1)], size_out := [(1, 1)] }
    lower_bound := { name := "lower_bound", size_in := [(1, 1)], size_out := [(1, 1)] }
    upper_bound := { name := "upper_bound", size_in := [(1, 1)], size_out := [(1, 1)] }
    lower_bound_values := fun times => times.map (fun _ => 0)
    upper_bound_values := fun times => times.map (fun _ => 0) }

/-- A sample assignment of the knot symbols for concrete evaluations: reference state `0`,
`dX0_k = k`, block `j` of `dXc_k` equal to `k + j`, every control block equal to `1`. -/
def sample_valuation : Valuation ℚ ℚ ℚ :=
  { x0 := 0
    dX0 := fun k => (k : ℚ)
    dXc := fun k j => (k : ℚ) + (j : ℚ)
    U := fun _ _ => 1 }

/-- The functions of a sample problem with a scalar state and a deviation of three rows
(`nx = 1`, `ndx = 3`), on values: `Fint(x, dx, dt) = x + dx₀`, `F(x, u) = (u, u, u)`, the one
row of `F` as casadi broadcasts it in `h * F(x_c, u_c) - dxp`, and `L(x, u) = u²`. -/
def wide_dynamics : Dynamics ℚ ℚ (Fin 3 → ℚ) ℚ :=
  { Fint := fun x dx _ => x + dx 0
    F := fun _ u _ => u
    L := fun _ u => u ^ 2
    general := fun _ _ _ _ _ => [] }

/-- A sample assignment of the knot symbols for a deviation of three rows: reference state
`0`, every row of `dX0_k` equal to `k`, every row of block `j` of `dXc_k` equal to `k + j`,
every control block equal to `1`. -/
def wide_valuation : Valuation ℚ (Fin 3 → ℚ) ℚ :=
  { x0 := 0
    dX0 := fun k _ => (k : ℚ)
    dXc := fun k j _ => (k : ℚ) + (j : ℚ)
    U := fun _ _ => 1 }

end galileo

namespace galileo

open Polynomial in
/-- Abstraction function: the mathematical polynomial denoted by a coefficient vector. -/
noncomputable def listPoly {K : Type} [Field K] (l : List K) : Polynomial K :=
  l.foldr (fun c q => C c + X * q) 0

/-- The linear functional `P ↦ ∫₀¹ P` on polynomials, coefficientwise `Σ_k coeff_k / (k+1)`. -/
noncomputable def unitIntegral {K : Type} [Field K] : Polynomial K →ₗ[K] K :=
  Polynomial.lsum (fun k => (((k + 1 : Nat) : K)⁻¹) • LinearMap.id)

open Polynomial in
/-- Modelled from the spec: the Legendre collocation scheme. This is the shifted Legendre
polynomial of degree `d` up to the factor `1 / d!`, by the formula of Rodrigues: the `d`-th
derivative of `(t² - t)^d`. The Gauss-Legendre collocation points of order `d` on `[0,1]`,
which casadi tabulates, are its `d` roots. -/
noncomputable def shifted_legendre (K : Type) [Field K] (d : Nat) : Polynomial K :=
  derivative^[d] ((X ^ 2 - X) ^ d)

section PolynomialBridge

open Polynomial

variable {K : Type} [Field K]

theorem listPoly_nil : listPoly ([] : List K) = 0 := rfl

theorem listPoly_cons (c : K) (l : List K) : listPoly (c :: l) = C c + X * listPoly l := rfl

theorem coeff_listPoly (l : List K) (k : Nat) : (listPoly l).coeff k = l.getD k 0 := by
  induction l generalizing k with
  | nil => simp [listPoly_nil]
  | cons c l ih =>
    cases k with
    | zero => simp [listPoly_cons]
    | succ k => simp [listPoly_cons, ih, Polynomial.coeff_C]

theorem listPoly_eq_sum (l : List K) :
    listPoly l = ∑ k in Finset.range l.length, monomial k (l.getD k 0) := by
  ext n
  rw [coeff_listPoly, Polynomial.finset_sum_coeff]
  simp only [Polynomial.coeff_monomial]
  by_cases h : n < l.length
  · rw [Finset.sum_eq_single n]
    · simp
    · intro b _ hb; simp [hb]
    · intro hn; exact absurd (Finset.mem_range.mpr h) hn
  · rw [Finset.sum_eq_zero]
    · rw [List.getD_eq_default _ _ (not_lt.mp h)]
    · intro b hb
      have : b ≠ n := by
        have := Finset.mem_range.mp hb
        omega
      simp [this]

theorem listPoly_replicate_zero (n : Nat) : listPoly (List.replicate n (0 : K)) = 0 := by
  ext k
  rw [coeff_listPoly]
  simp [List.getD_eq_getElem?_getD, List.getElem?_replicate]
  split <;> simp

theorem listPoly_set_add (l : List K) (i : Nat) (c : K) (hi : i < l.length) :
    listPoly (l.set i (l.getD i 0 + c)) = listPoly l + monomial i c := by
  ext k
  rw [Polynomial.coeff_add, coeff_listPoly, coeff_listPoly, Polynomial.coeff_monomial]
  simp only [List.getD_eq_getElem?_getD, List.getElem?_set]
  by_cases h : i = k
  · subst h; simp [hi]
  · simp [h]

theorem mul_row_upto (pd : K) (a : List K) (d m : Nat) (ret : List K)
    (hm : d + m ≤ ret.length) :
    ((List.range m).foldl
        (fun ret d_a => ret.set (d + d_a) (ret.getD (d + d_a) 0 + pd * a.getD d_a 0)) ret).length
        = ret.length ∧
      listPoly ((List.range m).foldl
        (fun ret d_a => ret.set (d + d_a) (ret.getD (d + d_a) 0 + pd * a.getD d_a 0)) ret)
        = listPoly ret + ∑ k in Finset.range m, monomial (d + k) (pd * a.getD k 0) := by
  induction m with
  | zero => simp
  | succ m ih =>
    obtain ⟨hlen, hpoly⟩ := ih (by omega)
    rw [List.range_succ, List.foldl_append]
    simp only [List.foldl_cons, List.foldl_nil]
    refine ⟨by rw [List.length_set, hlen], ?_⟩
    rw [listPoly_set_add _ _ _ (by omega), hpoly, Finset.sum_range_succ, add_assoc]

theorem listPoly_mul_row (pd : K) (a : List K) (d : Nat) (ret : List K)
    (h : d + a.length ≤ ret.length) :
    (casadi.Polynomial.mul_row pd a d ret).length = ret.length ∧
      listPoly (casadi.Polynomial.mul_row pd a d ret)
        = listPoly ret + monomial d pd * listPoly a := by
  obtain ⟨hlen, hpoly⟩ := mul_row_upto pd a d a.length ret h
  refine ⟨hlen, ?_⟩
  unfold casadi.Polynomial.mul_row
  rw [hpoly, listPoly_eq_sum a, Finset.mul_sum]
  congr 1
  apply Finset.sum_congr rfl
  intro k _
  rw [Polynomial.monomial_mul_monomial]

theorem mul_upto (p a : List K) (m : Nat) (hm : m ≤ p.length) :
    ((List.range m).foldl (fun ret d => casadi.Polynomial.mul_row (p.getD d 0) a d ret)
        (List.replicate (p.length + a.length - 1) 0)).length = p.length + a.length - 1 ∧
      listPoly ((List.range m).foldl
        (fun ret d => casadi.Polynomial.mul_row (p.getD d 0) a d ret)
        (List.replicate (p.length + a.length - 1) 0))
        = (∑ d in Finset.range m, monomial d (p.getD d 0)) * listPoly a := by
  induction m with
  | zero => simp [listPoly_replicate_zero]
  | succ m ih =>
    obtain ⟨hlen, hpoly⟩ := ih (by omega)
    rw [List.range_succ, List.foldl_append]
    simp only [List.foldl_cons, List.foldl_nil]
    obtain ⟨hlen2, hpoly2⟩ := listPoly_mul_row (p.getD m 0) a m _
      (by rw [hlen]; omega)
    refine ⟨by rw [hlen2, hlen], ?_⟩
    rw [hpoly2, hpoly, Finset.sum_range_succ, add_mul]

/-- The product of casadi denotes the product of polynomials. -/
theorem listPoly_mul (p a : casadi.Polynomial K) :
    listPoly (p.mul a).p_ = listPoly p.p_ * listPoly a.p_ := by
  unfold casadi.Polynomial.mul
  rw [(mul_upto p.p_ a.p_ p.p_.length le_rfl).2, ← listPoly_eq_sum]

/-- Division by a scalar denotes multiplication by the constant inverse. -/
theorem listPoly_div (p : casadi.Polynomial K) (c : K) :
    listPoly (p.div c).p_ = C c⁻¹ * listPoly p.p_ := by
  have key : ∀ l : List K, listPoly (l.map (fun e => e / c)) = C c⁻¹ * listPoly l := by
    intro l
    induction l with
    | nil => simp [listPoly_nil]
    | cons e l ih =>
      rw [List.map_cons, listPoly_cons, listPoly_cons, ih, div_eq_mul_inv, C_mul]
      ring
  exact key p.p_

theorem listPoly_const (c : K) : listPoly (casadi.Polynomial.const c).p_ = C c := by
  simp [casadi.Polynomial.const, listPoly_cons, listPoly_nil]

theorem listPoly_linear (p0 p1 : K) :
    listPoly (casadi.Polynomial.linear p0 p1).p_ = C p0 + C p1 * X := by
  simp only [casadi.Polynomial.linear, listPoly_cons, listPoly_nil, mul_zero, add_zero]
  rw [mul_comm]

theorem horner_foldr (l : List K) (x : K) :
    eval x (listPoly l) = l.foldr (fun c acc => acc * x + c) 0 := by
  induction l with
  | nil => simp [listPoly_nil]
  | cons c l ih => simp [listPoly_cons, ih]; ring

/-- Horner evaluation of casadi computes the value of the denoted polynomial. -/
theorem eval_eq (p : casadi.Polynomial K) (x : K) : p.eval x = eval x (listPoly p.p_) := by
  unfold casadi.Polynomial.eval
  rw [horner_foldr]
  rcases List.eq_nil_or_concat p.p_ with h | ⟨l, c, h⟩
  · rw [h]; rfl
  · rw [h]
    simp [List.foldl_reverse]

theorem eval_one_listPoly (l : List K) : eval 1 (listPoly l) = l.sum := by
  induction l with
  | nil => simp [listPoly_nil]
  | cons c l ih => simp [listPoly_cons, ih]

theorem list_sum_map_range (f : Nat → K) (n : Nat) :
    ((List.range n).map f).sum = ∑ k in Finset.range n, f k := by
  induction n with
  | zero => simp
  | succ n ih => rw [List.range_succ, List.map_append, List.sum_append, ih,
      Finset.sum_range_succ]; simp

theorem unitIntegral_monomial (k : Nat) (a : K) :
    unitIntegral (monomial k a) = a / ((k + 1 : Nat) : K) := by
  unfold unitIntegral
  rw [Polynomial.lsum_apply, Polynomial.sum_monomial_index]
  · simp [div_eq_inv_mul]
  · simp

theorem unitIntegral_listPoly (l : List K) :
    unitIntegral (listPoly l) = ∑ k in Finset.range l.length, l.getD k 0 / ((k + 1 : Nat) : K) := by
  rw [listPoly_eq_sum, map_sum]
  exact Finset.sum_congr rfl (fun k _ => unitIntegral_monomial k _)

theorem unitIntegral_one : unitIntegral (1 : Polynomial K) = 1 := by
  have h : (1 : Polynomial K) = monomial 0 1 := by simp
  rw [h, unitIntegral_monomial]
  simp

/-- The value at `1` of the antiderivative built by casadi is the integral over `[0,1]`. -/
theorem eval_anti_derivative_one (p : casadi.Polynomial K) :
    p.anti_derivative.eval 1 = unitIntegral (listPoly p.p_) := by
  rw [eval_eq, eval_one_listPoly, unitIntegral_listPoly]
  unfold casadi.Polynomial.anti_derivative
  rw [List.sum_cons, zero_add, list_sum_map_range]

/-- The polynomial built by the constructor's inner loop is the Lagrange basis polynomial. -/
theorem listPoly_basis_upto (tau_root : List K) (j n : Nat) :
    listPoly ((List.range n).foldl
      (fun p r =>
        if r ≠ j then
          p.mul ((casadi.Polynomial.linear (-(tau_root.getD r 0)) 1).div
            (tau_root.getD j 0 - tau_root.getD r 0))
        else p)
      (casadi.Polynomial.const 1)).p_
      = ∏ r in (Finset.range n).erase j,
          Lagrange.basisDivisor (tau_root.getD j 0) (tau_root.getD r 0) := by
  induction n with
  | zero => simp [listPoly_const]
  | succ n ih =>
    rw [List.range_succ, List.foldl_append]
    simp only [List.foldl_cons, List.foldl_nil]
    by_cases h : n = j
    · subst h
      rw [if_neg (by simp), ih, Finset.range_succ,
        Finset.erase_insert (by simp), Finset.erase_eq_of_not_mem (by simp)]
    · rw [if_pos h, listPoly_mul, ih, listPoly_div, listPoly_linear, Finset.range_succ,
        Finset.erase_insert_of_ne h, Finset.prod_insert (by simp), mul_comm]
      congr 1
      unfold Lagrange.basisDivisor
      simp only [map_neg, map_one, one_mul]
      ring

theorem listPoly_basis_p (d : Nat) (tau_root : List K) (j : Nat) :
    listPoly (LagrangePolynomial.basis_p d tau_root j).p_
      = Lagrange.basis (Finset.range (d + 1)) (fun i => tau_root.getD i 0) j := by
  unfold LagrangePolynomial.basis_p Lagrange.basis
  exact listPoly_basis_upto tau_root j (d + 1)

theorem injOn_roots (tau_root : List K) (n : Nat) (hn : n ≤ tau_root.length)
    (hnd : tau_root.Nodup) :
    Set.InjOn (fun i => tau_root.getD i 0) (Finset.range n : Finset Nat) := by
  intro a ha b hb hab
  have ha2 : a < tau_root.length := lt_of_lt_of_le (Finset.mem_range.mp (Finset.mem_coe.mp ha)) hn
  have hb2 : b < tau_root.length := lt_of_lt_of_le (Finset.mem_range.mp (Finset.mem_coe.mp hb)) hn
  simp only [List.getD_eq_getElem _ _ ha2, List.getD_eq_getElem _ _ hb2] at hab
  exact (hnd.getElem_inj_iff).mp hab

end PolynomialBridge

end galileo

namespace galileo

section LagrangeClaims

variable {K : Type} [Field K]

theorem build_B (d : Nat) (troot : List K) :
    (LagrangePolynomial.build d troot).B = (List.range (d + 1)).map
      (fun j => (LagrangePolynomial.basis_p d (0 :: troot) j).anti_derivative.eval 1) := rfl

theorem build_D (d : Nat) (troot : List K) :
    (LagrangePolynomial.build d troot).D = (List.range (d + 1)).map
      (fun j => (LagrangePolynomial.basis_p d (0 :: troot) j).eval 1) := rfl

theorem build_tau_root (d : Nat) (troot : List K) :
    (LagrangePolynomial.build d troot).tau_root = 0 :: troot := rfl

theorem build_d (d : Nat) (troot : List K) : (LagrangePolynomial.build d troot).d = d := rfl

/-- C1: for every degree `d ≥ 1` and every root vector `0, τ_1, …, τ_d` of pairwise distinct
values, the quadrature weights `B` stored by the constructor (there are `d + 1` of them, `B[j]`
being the antiderivative of basis polynomial `j` evaluated at `1`) sum to `1`. -/
theorem C1_quadrature_weights_sum_one (d : Nat) (troot : List K) (_hd : 1 ≤ d)
    (hlen : troot.length = d) (hnd : (0 :: troot).Nodup) :
    (LagrangePolynomial.build d troot).B.length = d + 1 ∧
      (LagrangePolynomial.build d troot).B.sum = 1 := by
  refine ⟨by simp [build_B], ?_⟩
  have hinj := injOn_roots (0 :: troot) (d + 1) (by simp [hlen]) hnd
  rw [build_B, list_sum_map_range]
  simp only [eval_anti_derivative_one, listPoly_basis_p]
  rw [← map_sum, Lagrange.sum_basis hinj ⟨0, by simp⟩, unitIntegral_one]

/-- C4: for every degree `d` and every vector of `d + 1` pairwise distinct roots, the polynomial
`p` built for basis index `j` evaluates to `1` at `τ_j` and to `0` at every other root `τ_r`. -/
theorem C4_basis_polynomial_at_roots (d : Nat) (tau_root : List K)
    (hlen : tau_root.length = d + 1) (hnd : tau_root.Nodup) (j r : Nat) (hj : j ≤ d)
    (hr : r ≤ d) :
    (LagrangePolynomial.basis_p d tau_root j).eval (tau_root.getD r 0)
      = if r = j then 1 else 0 := by
  have hinj := injOn_roots tau_root (d + 1) (by omega) hnd
  have hjm : j ∈ Finset.range (d + 1) := Finset.mem_range.mpr (by omega)
  have hrm : r ∈ Finset.range (d + 1) := Finset.mem_range.mpr (by omega)
  rw [eval_eq, listPoly_basis_p]
  by_cases h : r = j
  · subst h
    rw [if_pos rfl]
    exact Lagrange.eval_basis_self (v := fun i => tau_root.getD i 0) hinj hrm
  · rw [if_neg h]
    exact Lagrange.eval_basis_of_ne (v := fun i => tau_root.getD i 0) (Ne.symm h) hrm

/-- C5: for every degree `d` and every root vector `0, τ_1, …, τ_d` of pairwise distinct values,
the continuity weight `D[j]` stored by the constructor is the product over `r ≠ j` of
`(1 - τ_r) / (τ_j - τ_r)`, the product form of basis polynomial `j` at `t = 1`. -/
theorem C5_continuity_weight_product_form (d : Nat) (troot : List K)
    (_hlen : troot.length = d) (_hnd : (0 :: troot).Nodup) (j : Nat) (hj : j ≤ d) :
    (LagrangePolynomial.build d troot).D[j]? = some
      (∏ r in (Finset.range (d + 1)).erase j,
        (1 - (0 :: troot).getD r 0) / ((0 :: troot).getD j 0 - (0 :: troot).getD r 0)) := by
  rw [build_D, List.getElem?_map, List.getElem?_range (by omega)]
  simp only [Option.map_some', eval_eq, listPoly_basis_p]
  unfold Lagrange.basis Lagrange.basisDivisor
  rw [Polynomial.eval_prod]
  congr 1
  apply Finset.prod_congr rfl
  intro r _
  simp only [Polynomial.eval_mul, Polynomial.eval_C, Polynomial.eval_sub, Polynomial.eval_X]
  rw [div_eq_inv_mul]

theorem C1_quadrature_weights_sum_one_witness :
    (LagrangePolynomial.build 2 [(1 / 3 : ℚ), 1]).B.length = 2 + 1 ∧
      (LagrangePolynomial.build 2 [(1 / 3 : ℚ), 1]).B.sum = 1 :=
  C1_quadrature_weights_sum_one 2 [(1 / 3 : ℚ), 1] (by decide) rfl (by norm_num)

theorem C4_basis_polynomial_at_roots_witness :
    (LagrangePolynomial.basis_p 2 [(0 : ℚ), 1 / 3, 1] 1).eval ([(0 : ℚ), 1 / 3, 1].getD 2 0)
      = if 2 = 1 then 1 else 0 :=
  C4_basis_polynomial_at_roots 2 [(0 : ℚ), 1 / 3, 1] rfl (by norm_num) 1 2 (by decide)
    (by decide)

theorem C5_continuity_weight_product_form_witness :
    (LagrangePolynomial.build 2 [(1 / 3 : ℚ), 1]).D[1]? = some
      (∏ r in (Finset.range (2 + 1)).erase 1,
        (1 - ((0 : ℚ) :: [1 / 3, 1]).getD r 0)
          / (((0 : ℚ) :: [1 / 3, 1]).getD 1 0 - ((0 : ℚ) :: [1 / 3, 1]).getD r 0)) :=
  C5_continuity_weight_product_form 2 [(1 / 3 : ℚ), 1] rfl (by norm_num) 1 (by decide)

end LagrangeClaims

end galileo

namespace galileo

section InterpolationClaims

variable {K : Type} [LinearOrderedField K] {V : Type} [AddCommGroup V] [Module K V]

theorem interpolation_term_upto (tau_root : List K) (t : K) (term0 : V) (j n : Nat) :
    (List.range n).foldl
      (fun term r =>
        if r ≠ j then
          ((t - tau_root.getD r 0) / (tau_root.getD j 0 - tau_root.getD r 0)) • term
        else term)
      term0
      = (∏ r in (Finset.range n).erase j,
          (t - tau_root.getD r 0) / (tau_root.getD j 0 - tau_root.getD r 0)) • term0 := by
  induction n with
  | zero => simp
  | succ n ih =>
    rw [List.range_succ, List.foldl_append]
    simp only [List.foldl_cons, List.foldl_nil]
    by_cases h : n = j
    · subst h
      rw [if_neg (by simp), ih, Finset.range_succ,
        Finset.erase_insert (by simp), Finset.erase_eq_of_not_mem (by simp)]
    · rw [if_pos h, ih, Finset.range_succ,
        Finset.erase_insert_of_ne h, Finset.prod_insert (by simp), smul_smul]

/-- Closed form of the loop of `lagrange_interpolation` over the first `n` terms. -/
theorem interpolation_loop_upto (d : Nat) (tau_root : List K) (t : K) (terms : List V)
    (n : Nat) (hn : n ≤ terms.length) :
    (List.range n).foldlM
      (fun result j =>
        match terms[j]? with
        | none => (Except.error Failure.out_of_range : Except Failure V)
        | some term0 =>
          Except.ok (result + (List.range (d + 1)).foldl
            (fun term r =>
              if r ≠ j then
                ((t - tau_root.getD r 0) / (tau_root.getD j 0 - tau_root.getD r 0)) • term
              else term)
            term0))
      0
      = Except.ok (∑ j in Finset.range n,
          (∏ r in (Finset.range (d + 1)).erase j,
            (t - tau_root.getD r 0) / (tau_root.getD j 0 - tau_root.getD r 0))
            • terms.getD j 0) := by
  induction n with
  | zero => rfl
  | succ n ih =>
    have hlt : n < terms.length := by omega
    rw [List.range_succ n, List.foldlM_append, ih (by omega)]
    simp only [List.foldlM_cons, List.foldlM_nil, List.getElem?_eq_getElem hlt,
      interpolation_term_upto, Finset.sum_range_succ, List.getD_eq_getElem _ _ hlt]
    rfl

/-- Closed form of `lagrange_interpolation` on a call that passes the assertion and reads `terms`
within range. -/
theorem lagrange_interpolation_eq (P : LagrangePolynomial K) (t : K) (terms : List V)
    (h0 : 0 ≤ t) (h1 : t ≤ 1) (hlen : P.d ≤ terms.length) :
    P.lagrange_interpolation t terms
      = Except.ok (∑ j in Finset.range P.d,
          (∏ r in (Finset.range (P.d + 1)).erase j,
            (t - P.tau_root.getD r 0) / (P.tau_root.getD j 0 - P.tau_root.getD r 0))
            • terms.getD j 0) := by
  unfold LagrangePolynomial.lagrange_interpolation
  rw [if_pos ⟨h0, h1⟩]
  exact interpolation_loop_upto P.d P.tau_root t terms P.d hlen

theorem interpolation_loop_not_assertion (d : Nat) (tau_root : List K) (t : K)
    (terms : List V) (l : List Nat) (init : V) (msg : String) :
    l.foldlM
      (fun result j =>
        match terms[j]? with
        | none => (Except.error Failure.out_of_range : Except Failure V)
        | some term0 =>
          Except.ok (result + (List.range (d + 1)).foldl
            (fun term r =>
              if r ≠ j then
                ((t - tau_root.getD r 0) / (tau_root.getD j 0 - tau_root.getD r 0)) • term
              else term)
            term0))
      init
      ≠ Except.error (Failure.assertion msg) := by
  induction l generalizing init with
  | nil => intro h; cases h
  | cons j l ih =>
    rw [List.foldlM_cons]
    cases hj : terms[j]? with
    | none => intro h; cases h
    | some term0 => exact ih _

/-- C3: for every degree `d ≥ 1`, every root vector `0, τ_1, …, τ_d` of pairwise distinct values
and every list of at least `d` values, `lagrange_interpolation(0, values)` returns
`values[0]`. -/
theorem C3_interpolation_at_zero (d : Nat) (troot terms : List K) (hd : 1 ≤ d)
    (hlen : troot.length = d) (hnd : (0 :: troot).Nodup) (hterms : d ≤ terms.length) :
    ∃ v, terms[0]? = some v ∧
      (LagrangePolynomial.build d troot).lagrange_interpolation 0 terms = Except.ok v := by
  have h0 : 0 < terms.length := by omega
  refine ⟨terms[0], List.getElem?_eq_getElem h0, ?_⟩
  rw [lagrange_interpolation_eq _ _ _ le_rfl zero_le_one (by rw [build_d]; exact hterms)]
  simp only [build_d, build_tau_root]
  have hinj := injOn_roots (0 :: troot) (d + 1) (by simp [hlen]) hnd
  congr 1
  rw [Finset.sum_eq_single 0]
  · rw [List.getD_eq_getElem _ _ h0, Finset.prod_eq_one, one_smul]
    intro r hr
    have hr0 : r ≠ 0 := Finset.ne_of_mem_erase hr
    have hrm : r ∈ Finset.range (d + 1) := Finset.mem_of_mem_erase hr
    have hne : (0 :: troot).getD r 0 ≠ (0 :: troot).getD 0 0 := by
      intro heq
      exact hr0 (hinj (Finset.mem_coe.mpr hrm)
        (Finset.mem_coe.mpr (Finset.mem_range.mpr (Nat.succ_pos d))) heq)
    have hne2 : (0 : K) - (0 :: troot).getD r 0 ≠ 0 := by
      intro h
      apply hne
      have h3 : (0 :: troot).getD 0 0 = (0 : K) := rfl
      rw [h3]
      linarith
    have h3 : (0 :: troot).getD 0 0 = (0 : K) := rfl
    rw [h3]
    exact div_self hne2
  · intro j _ hj0
    rw [Finset.prod_eq_zero (i := 0), zero_smul]
    · exact Finset.mem_erase.mpr ⟨Ne.symm hj0, Finset.mem_range.mpr (Nat.succ_pos d)⟩
    · have h3 : (0 :: troot).getD 0 0 = (0 : K) := rfl
      rw [h3, sub_zero, zero_div]
  · intro h
    exact absurd (Finset.mem_range.mpr hd) h

theorem C3_interpolation_at_zero_witness :
    ∃ v, [(5 : ℚ), 7][0]? = some v ∧
      (LagrangePolynomial.build 2 [(1 / 3 : ℚ), 1]).lagrange_interpolation 0 [(5 : ℚ), 7]
        = Except.ok v :=
  C3_interpolation_at_zero 2 [(1 / 3 : ℚ), 1] [5, 7] (by decide) rfl (by norm_num)
    (by decide)

/-- C6 (amended): `lagrange_interpolation(t, values)` fails on its assertion if and only if
`t < 0` or `t > 1`; for every `t` in `[0,1]` and every list of at least `d` values it returns a
value. -/
theorem C6_interpolation_domain (P : LagrangePolynomial K) (t : K) (terms : List K) :
    ((∃ msg, P.lagrange_interpolation t terms = Except.error (Failure.assertion msg))
        ↔ (t < 0 ∨ 1 < t)) ∧
      (0 ≤ t → t ≤ 1 → P.d ≤ terms.length →
        ∃ v, P.lagrange_interpolation t terms = Except.ok v) := by
  refine ⟨⟨?_, ?_⟩, ?_⟩
  · rintro ⟨msg, hmsg⟩
    by_contra hcon
    push_neg at hcon
    unfold LagrangePolynomial.lagrange_interpolation at hmsg
    rw [if_pos hcon] at hmsg
    exact interpolation_loop_not_assertion P.d P.tau_root t terms _ 0 msg hmsg
  · intro h
    refine ⟨"t must be in the range [0,1]", ?_⟩
    unfold LagrangePolynomial.lagrange_interpolation
    rw [if_neg]
    rintro ⟨h0, h1⟩
    rcases h with h | h
    · exact absurd h0 (not_le.mpr h)
    · exact absurd h1 (not_le.mpr h)
  · intro h0 h1 hlen
    exact ⟨_, lagrange_interpolation_eq P t terms h0 h1 hlen⟩

theorem C6_interpolation_domain_witness :
    ∃ v, (LagrangePolynomial.build 2 [(1 / 3 : ℚ), 1]).lagrange_interpolation (1 / 2)
      [(5 : ℚ), 7] = Except.ok v :=
  (C6_interpolation_domain (LagrangePolynomial.build 2 [(1 / 3 : ℚ), 1]) (1 / 2) [(5 : ℚ), 7]).2
    (by norm_num) (by norm_num) (by decide)

/-- C6 (as stated) fails: with `t = 0` in `[0,1]`, degree `1` and an empty list of values the
read `terms[0]` is past the end of the list and no value is returned. -/
theorem C6_short_value_list_counterexample :
    (0 : ℚ) ≤ 0 ∧ (0 : ℚ) ≤ 1 ∧
      ¬ ∃ v, (LagrangePolynomial.build 1 [(1 : ℚ)]).lagrange_interpolation 0 ([] : List ℚ)
        = Except.ok v := by
  refine ⟨le_rfl, zero_le_one, ?_⟩
  rintro ⟨v, hv⟩
  simp [LagrangePolynomial.lagrange_interpolation, LagrangePolynomial.build, List.range_succ,
    List.foldlM] at hv

/-- C2 (failing input): degree `1`, roots `0, 1`, the constant data `1, 1` and `t = 1/2`: the
loop runs over `j = 0` only and returns `1/2`, not the constant `1`. -/
theorem C2_constant_data_not_reproduced :
    (LagrangePolynomial.build 1 [(1 : ℚ)]).lagrange_interpolation (1 / 2) [(1 : ℚ), 1]
      = Except.ok (1 / 2) := by
  rw [lagrange_interpolation_eq _ _ _ (by norm_num) (by norm_num) (by decide)]
  simp only [build_d, build_tau_root]
  congr 1
  rw [Finset.sum_range_one, Finset.range_succ, Finset.range_one,
    Finset.erase_insert_of_ne (by decide), Finset.erase_singleton]
  norm_num

end InterpolationClaims

end galileo

namespace galileo

section SegmentClaims

variable {K : Type} [LinearOrderedField K]

omit [LinearOrderedField K] in
theorem set_row_upto (v : Nat → K) (b m : Nat) (ts : List K) :
    ((List.range m).foldl (fun ts j => ts.set (b + j) (v j)) ts).length = ts.length ∧
      ∀ i, ((List.range m).foldl (fun ts j => ts.set (b + j) (v j)) ts)[i]?
        = if b ≤ i ∧ i < b + m ∧ i < ts.length then some (v (i - b)) else ts[i]? := by
  induction m with
  | zero =>
    refine ⟨rfl, fun i => ?_⟩
    rw [if_neg (by omega)]
    rfl
  | succ m ih =>
    obtain ⟨hlen, hget⟩ := ih
    rw [List.range_succ, List.foldl_append]
    simp only [List.foldl_cons, List.foldl_nil]
    refine ⟨by rw [List.length_set, hlen], fun i => ?_⟩
    rw [List.getElem?_set, hget i, hlen]
    by_cases hi : b + m = i
    · subst hi
      by_cases hl : b + m < ts.length
      · rw [if_pos rfl, if_pos hl, if_pos ⟨by omega, by omega, hl⟩]
        congr 2
        omega
      · rw [if_pos rfl, if_neg hl, if_neg (by omega)]
        exact (List.getElem?_eq_none (by omega)).symm
    · rw [if_neg hi]
      by_cases hc : b ≤ i ∧ i < b + m ∧ i < ts.length
      · rw [if_pos hc, if_pos ⟨hc.1, by omega, hc.2.2⟩]
      · rw [if_neg hc, if_neg (by omega)]

theorem time_vector_row_spec (d : Nat) (tau_root : List K) (h : K) (k : Nat) (ts : List K) :
    (PseudospectralSegment.time_vector_row d tau_root h k ts).length = ts.length ∧
      ∀ i, (PseudospectralSegment.time_vector_row d tau_root h k ts)[i]?
        = if k * (d + 1) ≤ i ∧ i < k * (d + 1) + (d + 1) ∧ i < ts.length then
            some (tau_root.getD (i - k * (d + 1)) 0 * h + (k : K) * h)
          else ts[i]? :=
  set_row_upto (fun j => tau_root.getD j 0 * h + (k : K) * h) (k * (d + 1)) (d + 1) ts

/-- The state of the time grid after the rows of the first `m` knots have been written. -/
theorem time_grid_upto (d : Nat) (tau_root : List K) (h : K) (m : Nat) (ts : List K) :
    ((List.range m).foldl
        (fun ts k => PseudospectralSegment.time_vector_row d tau_root h k ts) ts).length
        = ts.length ∧
      (∀ k j, k < m → j ≤ d → k * (d + 1) + j < ts.length →
        ((List.range m).foldl
          (fun ts k => PseudospectralSegment.time_vector_row d tau_root h k ts) ts)[k * (d + 1) + j]?
          = some (tau_root.getD j 0 * h + (k : K) * h)) ∧
      (∀ i, m * (d + 1) ≤ i →
        ((List.range m).foldl
          (fun ts k => PseudospectralSegment.time_vector_row d tau_root h k ts) ts)[i]?
          = ts[i]?) := by
  induction m with
  | zero =>
    refine ⟨rfl, ?_, fun i _ => rfl⟩
    intro k j hk
    omega
  | succ m ih =>
    obtain ⟨hlen, hin, hout⟩ := ih
    rw [List.range_succ, List.foldl_append]
    simp only [List.foldl_cons, List.foldl_nil]
    obtain ⟨hlen2, hrow⟩ := time_vector_row_spec d tau_root h m
      ((List.range m).foldl
        (fun ts k => PseudospectralSegment.time_vector_row d tau_root h k ts) ts)
    refine ⟨by rw [hlen2, hlen], ?_, ?_⟩
    · intro k j hk hj hlt
      rw [hrow, hlen]
      by_cases hkm : k = m
      · subst hkm
        rw [if_pos ⟨by omega, by omega, hlt⟩, Nat.add_sub_cancel_left]
      · have hk2 : k + 1 ≤ m := by omega
        have hmul := Nat.mul_le_mul_right (d + 1) hk2
        rw [Nat.add_mul, Nat.one_mul] at hmul
        rw [if_neg (by omega)]
        exact hin k j (by omega) hj hlt
    · intro i hi
      rw [Nat.add_mul, Nat.one_mul] at hi
      rw [hrow, if_neg (by omega)]
      exact hout i (by omega)

/-- On valid arguments the constructor returns a segment, with these members. -/
theorem new_ok (collocation_points : Nat → Except Failure (List K)) (d kn : Nat) (h : K)
    (st : States) (Fint : Function) (troot troot2 : List K)
    (hd : 0 < d) (hd10 : d < 10) (hh : 0 < h)
    (hin : Fint.size_in = [(st.nx, 1), (st.ndx, 1), (1, 1)])
    (hout : Fint.size_out = [(st.nx, 1)])
    (hcp : collocation_points d = Except.ok troot)
    (hcp2 : collocation_points (d - 1) = Except.ok troot2) :
    ∃ seg, PseudospectralSegment.new collocation_points (d : Int) (kn : Int) h st Fint
        = Except.ok seg ∧
      seg.knot_num = (kn : Int) ∧ seg.h = h ∧ seg.st_m = st ∧ seg.Fint = Fint ∧
      seg.T = ((kn : K) + 1) * h ∧
      seg.dX_poly = LagrangePolynomial.build d troot ∧
      seg.U_poly = LagrangePolynomial.build (d - 1) troot2 ∧
      seg.times = (List.range kn).foldl
        (fun ts k => PseudospectralSegment.time_vector_row d (0 :: troot) h k ts)
        ((List.replicate (kn * (d + 1) + 1) (0 : K)).set (kn * (d + 1)) (((kn : K) + 1) * h)) := by
  have hd1 : (0 : Int) < (d : Int) ∧ (d : Int) < 10 := by omega
  have hneg : ¬ ((kn : Int) * ((d : Int) + 1) + 1 < 0) := by
    have : (0 : Int) ≤ (kn : Int) * ((d : Int) + 1) := by positivity
    omega
  simp only [PseudospectralSegment.new, assert, Function.n_in, Function.n_out,
    Function.assert_size_in, Function.assert_size_out, hin, hout, hd1, hh,
    LagrangePolynomial.new, hcp, hcp2, Int.toNat_ofNat,
    PseudospectralSegment.initialize_time_vector, build_d, hneg, and_self, if_true,
    List.length_cons, List.length_nil, List.getElem?_cons_zero, List.getElem?_cons_succ,
    bind, Except.bind, Except.map, pure, Except.pure, if_false]
  refine ⟨_, rfl, ?_⟩
  simp [build_tau_root, build_d]

/-- C7: constructing a `PseudospectralSegment` fails on an assertion whenever `d ≤ 0`,
`d ≥ 10`, `h ≤ 0`, `Fint` does not have exactly 3 inputs, or `Fint` does not have exactly 1
output; no segment is produced. -/
theorem C7_constructor_rejects (collocation_points : Nat → Except Failure (List K))
    (d knot_num : Int) (h : K) (st : States) (Fint : Function)
    (hbad : d ≤ 0 ∨ 10 ≤ d ∨ h ≤ 0 ∨ Fint.n_in ≠ 3 ∨ Fint.n_out ≠ 1) :
    ∃ msg, PseudospectralSegment.new collocation_points d knot_num h st Fint
      = Except.error (Failure.assertion msg) := by
  by_cases h1 : 0 < d ∧ d < 10
  · by_cases h2 : 0 < h
    · by_cases h3 : Fint.n_in = 3
      · have h4 : ¬ Fint.n_out = 1 := by
          rcases hbad with hb | hb | hb | hb | hb
          · omega
          · omega
          · exact absurd h2 (not_lt.mpr hb)
          · exact absurd h3 hb
          · exact hb
        refine ⟨"Fint must have 1 output", ?_⟩
        simp [PseudospectralSegment.new, assert, h1, h2, h3, h4, bind, Except.bind]
      · refine ⟨"Fint must have 3 inputs", ?_⟩
        simp [PseudospectralSegment.new, assert, h1, h2, h3, bind, Except.bind]
    · refine ⟨"h must be a positive duration", ?_⟩
      simp [PseudospectralSegment.new, assert, h1, h2, bind, Except.bind]
  · refine ⟨"d must be greater than 0 and less than 10", ?_⟩
    simp [PseudospectralSegment.new, assert, h1, bind, Except.bind]

theorem C7_constructor_rejects_witness :
    ∃ msg, PseudospectralSegment.new equispaced_points 10 2 (1 / 10 : ℚ) ⟨1, 1, 1⟩ scalar_Fint
      = Except.error (Failure.assertion msg) :=
  C7_constructor_rejects equispaced_points 10 2 (1 / 10 : ℚ) ⟨1, 1, 1⟩ scalar_Fint
    (Or.inr (Or.inl (by decide)))

/-- C8: for valid constructor arguments (degree `0 < d < 10`, `knot_num ≥ 0`, width `h > 0`,
an integration map of the right shapes, collocation points `τ_1 … τ_d` with `τ_0 = 0`
prepended) the constructor returns a segment whose time grid has exactly
`knot_num * (d + 1) + 1` entries, entry `k * (d + 1) + j` equal to `(k + τ_j) * h` for
`k < knot_num`, `j ≤ d`, and final entry the terminal instant `T = (knot_num + 1) * h`. -/
theorem C8_time_grid (collocation_points : Nat → Except Failure (List K)) (d kn : Nat) (h : K)
    (st : States) (Fint : Function) (troot troot2 : List K)
    (hd : 0 < d) (hd10 : d < 10) (hh : 0 < h)
    (hin : Fint.size_in = [(st.nx, 1), (st.ndx, 1), (1, 1)])
    (hout : Fint.size_out = [(st.nx, 1)])
    (hcp : collocation_points d = Except.ok troot) (_hlen : troot.length = d)
    (hcp2 : collocation_points (d - 1) = Except.ok troot2) :
    ∃ seg, PseudospectralSegment.new collocation_points (d : Int) (kn : Int) h st Fint
        = Except.ok seg ∧
      seg.dX_poly.tau_root = 0 :: troot ∧
      seg.times.length = kn * (d + 1) + 1 ∧
      (∀ k j, k < kn → j ≤ d →
        seg.times[k * (d + 1) + j]? = some (((k : K) + (0 :: troot).getD j 0) * h)) ∧
      seg.times[kn * (d + 1)]? = some seg.T ∧
      seg.T = ((kn : K) + 1) * h := by
  obtain ⟨seg, hseg, -, -, -, -, hT, hpoly, -, htimes⟩ :=
    new_ok collocation_points d kn h st Fint troot troot2 hd hd10 hh hin hout hcp hcp2
  obtain ⟨hlen, hin2, hout2⟩ := time_grid_upto d (0 :: troot) h kn
    ((List.replicate (kn * (d + 1) + 1) (0 : K)).set (kn * (d + 1)) (((kn : K) + 1) * h))
  rw [← htimes] at hlen hin2 hout2
  rw [List.length_set, List.length_replicate] at hlen hin2
  refine ⟨seg, hseg, by rw [hpoly, build_tau_root], hlen, ?_, ?_, hT⟩
  · intro k j hk hj
    have hk2 : k + 1 ≤ kn := hk
    have hmul := Nat.mul_le_mul_right (d + 1) hk2
    rw [Nat.add_mul, Nat.one_mul] at hmul
    rw [hin2 k j hk hj (by omega)]
    congr 1
    ring
  · rw [hout2 _ le_rfl, hT, List.getElem?_set]
    simp

theorem C8_time_grid_witness :
    ∃ seg, PseudospectralSegment.new equispaced_points ((3 : Nat) : Int) ((2 : Nat) : Int)
        (1 / 10 : ℚ) ⟨1, 1, 1⟩ scalar_Fint = Except.ok seg ∧
      seg.dX_poly.tau_root = 0 :: [1 / 3, 2 / 3, 1] ∧
      seg.times.length = 2 * (3 + 1) + 1 ∧
      (∀ k j : Nat, k < 2 → j ≤ 3 →
        seg.times[k * (3 + 1) + j]?
          = some (((k : ℚ) + ((0 : ℚ) :: [1 / 3, 2 / 3, 1]).getD j 0) * (1 / 10))) ∧
      seg.times[2 * (3 + 1)]? = some seg.T ∧
      seg.T = (((2 : Nat) : ℚ) + 1) * (1 / 10) :=
  C8_time_grid equispaced_points 3 2 (1 / 10 : ℚ) ⟨1, 1, 1⟩ scalar_Fint [1 / 3, 2 / 3, 1]
    [1 / 2, 1] (by decide) (by decide) (by norm_num) rfl rfl
    (by norm_num [equispaced_points, List.range_succ])
    rfl (by norm_num [equispaced_points, List.range_succ])

/-- The time grid of the scenario `d = 3`, `knot_num = 2`, as the loops leave it. -/
theorem scenario_times (collocation_points : Nat → Except Failure (List K)) (h τ1 τ2 τ3 : K)
    (troot2 : List K) (hh : 0 < h)
    (hcp : collocation_points 3 = Except.ok [τ1, τ2, τ3])
    (hcp2 : collocation_points 2 = Except.ok troot2) :
    ∃ seg, PseudospectralSegment.new collocation_points 3 2 h ⟨1, 1, 1⟩ scalar_Fint
        = Except.ok seg ∧
      seg.times = [0 * h + 0 * h, τ1 * h + 0 * h, τ2 * h + 0 * h, τ3 * h + 0 * h,
        0 * h + 1 * h, τ1 * h + 1 * h, τ2 * h + 1 * h, τ3 * h + 1 * h, (2 + 1) * h] := by
  obtain ⟨seg, hseg, -, -, -, -, -, -, -, htimes⟩ :=
    new_ok collocation_points 3 2 h ⟨1, 1, 1⟩ scalar_Fint [τ1, τ2, τ3] troot2 (by decide)
      (by decide) hh rfl rfl hcp hcp2
  refine ⟨seg, by exact_mod_cast hseg, ?_⟩
  rw [htimes]
  simp [PseudospectralSegment.time_vector_row, List.range_succ, List.replicate]

/-- C9 (amended): in the scenario `d = 3`, `knot_num = 2`, `h = 0.1` with collocation roots
`τ1, τ2, τ3`, the time grid consists of exactly 9 sample times equal, in order, to
`0, τ1·0.1, τ2·0.1, τ3·0.1, 0.1, 0.1 + τ1·0.1, 0.1 + τ2·0.1, 0.1 + τ3·0.1, 0.3`; its last entry
is `0.3 = (knot_num + 1)·h`. -/
theorem C9_scenario_time_grid (collocation_points : Nat → Except Failure (List K))
    (τ1 τ2 τ3 : K) (troot2 : List K)
    (hcp : collocation_points 3 = Except.ok [τ1, τ2, τ3])
    (hcp2 : collocation_points 2 = Except.ok troot2) :
    ∃ seg, PseudospectralSegment.new collocation_points 3 2 (1 / 10) ⟨1, 1, 1⟩ scalar_Fint
        = Except.ok seg ∧
      seg.times = [0, τ1 * (1 / 10), τ2 * (1 / 10), τ3 * (1 / 10), 1 / 10,
        1 / 10 + τ1 * (1 / 10), 1 / 10 + τ2 * (1 / 10), 1 / 10 + τ3 * (1 / 10), 3 / 10] ∧
      seg.times.length = 9 ∧
      seg.times.getLast? = some (((2 : K) + 1) * (1 / 10)) := by
  obtain ⟨seg, hseg, htimes⟩ :=
    scenario_times collocation_points (1 / 10) τ1 τ2 τ3 troot2 (by norm_num) hcp hcp2
  have key : seg.times = [0, τ1 * (1 / 10), τ2 * (1 / 10), τ3 * (1 / 10), 1 / 10,
      1 / 10 + τ1 * (1 / 10), 1 / 10 + τ2 * (1 / 10), 1 / 10 + τ3 * (1 / 10), 3 / 10] := by
    rw [htimes]
    simp only [List.cons.injEq, and_true]
    refine ⟨?_, ?_, ?_, ?_, ?_, ?_, ?_, ?_, ?_⟩ <;> ring
  refine ⟨seg, hseg, key, by rw [key]; rfl, ?_⟩
  rw [key]
  norm_num

theorem C9_scenario_time_grid_witness :
    ∃ seg, PseudospectralSegment.new equispaced_points 3 2 (1 / 10 : ℚ) ⟨1, 1, 1⟩ scalar_Fint
        = Except.ok seg ∧
      seg.times = [0, (1 / 3) * (1 / 10), (2 / 3) * (1 / 10), 1 * (1 / 10), 1 / 10,
        1 / 10 + (1 / 3) * (1 / 10), 1 / 10 + (2 / 3) * (1 / 10), 1 / 10 + 1 * (1 / 10),
        3 / 10] ∧
      seg.times.length = 9 ∧
      seg.times.getLast? = some (((2 : ℚ) + 1) * (1 / 10)) :=
  C9_scenario_time_grid equispaced_points (1 / 3) (2 / 3) 1 [1 / 2, 1]
    (by norm_num [equispaced_points, List.range_succ])
    (by norm_num [equispaced_points, List.range_succ])

/-- C9 (as stated) fails: with the roots `1/3, 2/3, 1` the grid of the scenario is not the
claimed list, whose last entry is `0.2 = knot_num·h`; the last entry built is `0.3`. -/
theorem C9_last_entry_counterexample :
    ∃ seg, PseudospectralSegment.new equispaced_points 3 2 (1 / 10 : ℚ) ⟨1, 1, 1⟩ scalar_Fint
        = Except.ok seg ∧
      seg.times.getLast? = some (3 / 10) ∧
      seg.times ≠ [0, (1 / 3) * (1 / 10), (2 / 3) * (1 / 10), 1 * (1 / 10), 1 / 10,
        1 / 10 + (1 / 3) * (1 / 10), 1 / 10 + (2 / 3) * (1 / 10), 1 / 10 + 1 * (1 / 10),
        2 / 10] := by
  obtain ⟨seg, hseg, htimes⟩ :=
    scenario_times equispaced_points (1 / 10 : ℚ) (1 / 3) (2 / 3) 1 [1 / 2, 1] (by norm_num)
      (by norm_num [equispaced_points, List.range_succ])
      (by norm_num [equispaced_points, List.range_succ])
  refine ⟨seg, hseg, ?_, ?_⟩
  · rw [htimes]
    norm_num
  · rw [htimes]
    norm_num

omit [LinearOrderedField K] in
/-- The range recorded by `fill_w` starts one past the first appended symbol: its width is one
less than the number of symbols appended. -/
theorem fill_w_range (seg : PseudospectralSegment K) (w : List (SX K)) :
    (seg.fill_w w).2 = w ++ (seg.dXc_var_vec ++ seg.dX0_var_vec ++ seg.U_var_vec) ∧
      (seg.fill_w w).1.get_range_idx_decision_variables
        = (w.length + 1, w.length + (seg.dXc_var_vec ++ seg.dX0_var_vec ++ seg.U_var_vec).length) := by
  simp [PseudospectralSegment.fill_w, PseudospectralSegment.get_range_idx_decision_variables,
    List.append_assoc, Nat.add_assoc]

omit [LinearOrderedField K] in
theorem initialize_knot_segments_ok [One K] (seg : PseudospectralSegment K) (x0 : SX K)
    (hx0 : x0.size = (seg.st_m.nx, 1)) :
    ∃ seg1, seg.initialize_knot_segments x0 = Except.ok seg1 ∧
      seg1.dXc_var_vec = (List.range seg.knot_num.toNat).map
        (fun k => SX.sym ("dXc_" ++ toString k) (seg.st_m.ndx * seg.dX_poly.d) 1) ∧
      seg1.dX0_var_vec = (List.range (seg.knot_num + 1).toNat).map
        (fun k => SX.sym ("dX0_" ++ toString k) seg.st_m.ndx 1) ∧
      seg1.U_var_vec = (List.range seg.knot_num.toNat).map
        (fun k => SX.sym ("U_" ++ toString k) (seg.st_m.nu * seg.U_poly.d) 1) := by
  simp only [PseudospectralSegment.initialize_knot_segments, assert, hx0, and_self, if_true,
    bind, Except.bind, pure, Except.pure]
  exact ⟨_, rfl, rfl, rfl, rfl⟩

/-- C10 (failing input): the scenario segment (`d = 3`, `knot_num = 2`) initialised with a
`1 × 1` reference state and flattened onto an empty `w`: seven symbols are appended, the first
of them at index `0`, and the recorded range is `(1, 7)`, of width six. -/
theorem C10_fill_w_range_off_by_one :
    ∃ seg seg1, PseudospectralSegment.new equispaced_points 3 2 (1 / 10 : ℚ) ⟨1, 1, 1⟩
        scalar_Fint = Except.ok seg ∧
      seg.initialize_knot_segments (SX.sym "x0" 1 1) = Except.ok seg1 ∧
      (seg1.fill_w []).2.length = 7 ∧
      (seg1.fill_w []).2[0]? = some (SX.sym "dXc_0" 3 1) ∧
      (seg1.fill_w []).1.get_range_idx_decision_variables = (1, 7) := by
  obtain ⟨seg, hseg, hkn, -, hst, -, -, hpoly, hupoly, -⟩ :=
    new_ok equispaced_points 3 2 (1 / 10 : ℚ) ⟨1, 1, 1⟩ scalar_Fint [1 / 3, 2 / 3, 1]
      [1 / 2, 1] (by decide) (by decide) (by norm_num) rfl rfl
      (by norm_num [equispaced_points, List.range_succ])
      (by norm_num [equispaced_points, List.range_succ])
  obtain ⟨seg1, hseg1, hdXc, hdX0, hU⟩ :=
    initialize_knot_segments_ok seg (SX.sym "x0" 1 1) (by rw [hst]; rfl)
  obtain ⟨hw, hrange⟩ := fill_w_range seg1 []
  have hkn2 : seg.knot_num.toNat = 2 := by rw [hkn]; rfl
  have hkn3 : (seg.knot_num + 1).toNat = 3 := by rw [hkn]; rfl
  rw [hkn2, hst, hpoly] at hdXc
  rw [hkn3, hst] at hdX0
  rw [hkn2, hst, hupoly] at hU
  refine ⟨seg, seg1, by exact_mod_cast hseg, hseg1, ?_, ?_, ?_⟩
  · rw [hw, hdXc, hdX0, hU]
    rfl
  · rw [hw, hdXc, hdX0, hU]
    rfl
  · rw [hrange, hdXc, hdX0, hU]
    rfl

end SegmentClaims

end galileo

namespace galileo

section GraphValues

variable {K X V U : Type} [LinearOrderedField K] [AddCommGroup V] [Module K V]
  [AddCommGroup U] [Module K U]

omit [AddCommGroup U] [Module K U] in
theorem lagrange_interpolation_interpolant (P : LagrangePolynomial K) (t : K) (terms : List V)
    (h0 : 0 ≤ t) (h1 : t ≤ 1) (hlen : P.d ≤ terms.length) :
    P.lagrange_interpolation t terms = Except.ok (P.interpolant t terms) :=
  lagrange_interpolation_eq P t terms h0 h1 hlen

omit [AddCommGroup U] [Module K U] in
theorem foldl_add_smul (c : Nat → K) (v : Nat → V) (init : V) (n : Nat) :
    (List.range n).foldl (fun acc r => acc + c r • v r) init
      = init + ∑ r in Finset.range n, c r • v r := by
  induction n with
  | zero => simp
  | succ n ih => rw [List.range_succ, List.foldl_append, ih, Finset.sum_range_succ]; simp [add_assoc]

omit [AddCommGroup U] [Module K U] in
/-- Closed form of the sum `dxp`: `C(0, j) * dX0` plus the sum over `r < d` of
`C(r + 1, j) * dXc[r]`. -/
theorem dxp_eq (self : PseudospectralSegment K) (dXc : List V) (dX0 : V) (j : Nat) :
    self.dxp dXc dX0 j = self.dX_poly.C_at 0 j • dX0
      + ∑ r in Finset.range self.dX_poly.d, self.dX_poly.C_at (r + 1) j • dXc.getD r 0 := by
  unfold PseudospectralSegment.dxp
  exact foldl_add_smul (fun r => self.dX_poly.C_at (r + 1) j) (fun r => dXc.getD r 0) _ _

/-- The state of the collocation loop after the points `1 .. m`. -/
theorem collocation_loop_upto (self : PseudospectralSegment K) (I : Dynamics K X V U) (X0 : X)
    (dXc : List V) (dX0 : V) (Uc : List U) (m : Nat)
    (ht : ∀ i, i < m → 0 ≤ self.dX_poly.tau_root.getD i 0 ∧ self.dX_poly.tau_root.getD i 0 ≤ 1)
    (hU : self.U_poly.d ≤ Uc.length) :
    (List.range' 1 m).foldlM (self.collocation_point I X0 dXc dX0 Uc)
      { eq := [], dXf := self.dX_poly.D.getD 0 0 • dX0, Qf := 0, x_at_c := [], u_at_c := [] }
      = Except.ok
        { eq := (List.range m).map (fun i =>
            self.h • I.F (I.Fint X0 (dXc.getD i 0) (self.dt (i + 1)))
                (self.U_poly.interpolant (self.dX_poly.tau_root.getD i 0) Uc)
              - self.dxp dXc dX0 (i + 1))
          dXf := self.dX_poly.D.getD 0 0 • dX0
            + ∑ i in Finset.range m, self.dX_poly.D.getD (i + 1) 0 • dXc.getD i 0
          Qf := ∑ i in Finset.range m, self.dX_poly.B.getD (i + 1) 0
            * I.L (I.Fint X0 (dXc.getD i 0) (self.dt (i + 1)))
                (self.U_poly.interpolant (self.dX_poly.tau_root.getD i 0) Uc) * self.h
          x_at_c := (List.range m).map (fun i => I.Fint X0 (dXc.getD i 0) (self.dt (i + 1)))
          u_at_c := (List.range m).map (fun i =>
            self.U_poly.interpolant (self.dX_poly.tau_root.getD i 0) Uc) } := by
  induction m with
  | zero => simp; rfl
  | succ m ih =>
    rw [List.range'_concat, List.foldlM_append, ih (fun i hi => ht i (by omega))]
    have hu := lagrange_interpolation_interpolant self.U_poly
      (self.dX_poly.tau_root.getD m 0) Uc (ht m (by omega)).1 (ht m (by omega)).2 hU
    have h1 : 1 + 1 * m = m + 1 := by omega
    simp only [h1, List.foldlM_cons, List.foldlM_nil, PseudospectralSegment.collocation_point,
      Nat.add_sub_cancel, hu, bind, Except.bind, pure, Except.pure, List.range_succ,
      List.map_append, List.map_cons, List.map_nil, Finset.sum_range_succ, add_assoc, zero_add]

/-- Closed form of the collocation loop of `initialize_expression_graph` on values. -/
theorem collocation_loop_eq (self : PseudospectralSegment K) (I : Dynamics K X V U) (X0 : X)
    (dXc : List V) (dX0 : V) (Uc : List U)
    (ht : ∀ i, i < self.dX_poly.d →
      0 ≤ self.dX_poly.tau_root.getD i 0 ∧ self.dX_poly.tau_root.getD i 0 ≤ 1)
    (hU : self.U_poly.d ≤ Uc.length) :
    self.collocation_loop I X0 dXc dX0 Uc
      = Except.ok
        { eq := (List.range self.dX_poly.d).map (fun i =>
            self.h • I.F (I.Fint X0 (dXc.getD i 0) (self.dt (i + 1)))
                (self.U_poly.interpolant (self.dX_poly.tau_root.getD i 0) Uc)
              - self.dxp dXc dX0 (i + 1))
          dXf := self.dX_poly.D.getD 0 0 • dX0
            + ∑ i in Finset.range self.dX_poly.d,
                self.dX_poly.D.getD (i + 1) 0 • dXc.getD i 0
          Qf := ∑ i in Finset.range self.dX_poly.d, self.dX_poly.B.getD (i + 1) 0
            * I.L (I.Fint X0 (dXc.getD i 0) (self.dt (i + 1)))
                (self.U_poly.interpolant (self.dX_poly.tau_root.getD i 0) Uc) * self.h
          x_at_c := (List.range self.dX_poly.d).map
            (fun i => I.Fint X0 (dXc.getD i 0) (self.dt (i + 1)))
          u_at_c := (List.range self.dX_poly.d).map (fun i =>
            self.U_poly.interpolant (self.dX_poly.tau_root.getD i 0) Uc) } :=
  collocation_loop_upto self I X0 dXc dX0 Uc self.dX_poly.d ht hU

omit [AddCommGroup U] [Module K U] [AddCommGroup V] [Module K V] in
theorem build_C_at (d : Nat) (troot : List K) (r j : Nat) (hr : r ≤ d) (hj : j ≤ d) :
    (LagrangePolynomial.build d troot).C_at r j
      = (LagrangePolynomial.basis_p d (0 :: troot) r).derivative.eval
          ((0 :: troot).getD j 0) := by
  simp [LagrangePolynomial.C_at, LagrangePolynomial.build, List.getElem?_range,
    Nat.lt_succ_of_le hr, Nat.lt_succ_of_le hj]

omit [AddCommGroup U] [Module K U] in
/-- C14 (amended): for every collocation point `j` in `1..d`, the interpolated derivative is
`dxp_j = Σ_{r = 0..d} C[r][j] * dX[r]`, where `dX[0]` is the boundary deviation `dX0`,
`dX[r] = dXc[r-1]` for `r ≥ 1`, and `C[r][j]`, as stored by the basis builder, is the
derivative of basis polynomial `r` evaluated at root `j`. -/
theorem C14_interpolated_derivative (self : PseudospectralSegment K) (d : Nat)
    (troot : List K) (hpoly : self.dX_poly = LagrangePolynomial.build d troot)
    (dXc : List V) (dX0 : V) (j : Nat) (_hj1 : 1 ≤ j) (hj : j ≤ d) :
    self.dxp dXc dX0 j
        = ∑ r in Finset.range (d + 1),
            self.dX_poly.C_at r j • (if r = 0 then dX0 else dXc.getD (r - 1) 0) ∧
      ∀ r, r ≤ d →
        self.dX_poly.C_at r j
          = (LagrangePolynomial.basis_p d (0 :: troot) r).derivative.eval
              ((0 :: troot).getD j 0) := by
  constructor
  · rw [dxp_eq, Finset.sum_range_succ', hpoly, build_d, add_comm]
    simp
  · intro r hr
    rw [hpoly]
    exact build_C_at d troot r j hr hj

theorem collocation_loop_graph (self : PseudospectralSegment K) (I : Dynamics K X V U) (X0 : X)
    (dXc : List V) (dX0 : V) (Uc : List U)
    (ht : ∀ i, i < self.dX_poly.d →
      0 ≤ self.dX_poly.tau_root.getD i 0 ∧ self.dX_poly.tau_root.getD i 0 ≤ 1)
    (hU : self.U_poly.d ≤ Uc.length) :
    self.collocation_loop I X0 dXc dX0 Uc
      = Except.ok (self.collocation_graph I X0 dXc dX0 Uc) :=
  collocation_loop_eq self I X0 dXc dX0 Uc ht hU

omit [LinearOrderedField K] [AddCommGroup V] [Module K V] [AddCommGroup U] [Module K U] in
theorem at_index_ok {α : Type} (vec : List α) (i : Nat) (h : i < vec.length) :
    at_index vec i = Except.ok vec[i] := by
  simp [at_index, List.getElem?_eq_getElem h]

omit [LinearOrderedField K] [AddCommGroup V] [Module K V] [AddCommGroup U] [Module K U] in
theorem map_each_map {ι α β : Type} (f : α → Except Failure β) (a : ι → α) (b : ι → β)
    (l : List ι) (h : ∀ k, k ∈ l → f (a k) = Except.ok (b k)) :
    map_each f (l.map a) = Except.ok (l.map b) := by
  induction l with
  | nil => rfl
  | cons k l ih =>
    simp only [List.map_cons, map_each, h k (List.mem_cons_self k l),
      ih (fun k hk => h k (List.mem_cons_of_mem _ hk))]

omit [AddCommGroup V] [Module K V] [AddCommGroup U] [Module K U] in
/-- The columns that the loop over the knots of `evaluate_expression_graph` has built after
knot `m`. -/
theorem knot_columns_upto (self : PseudospectralSegment K) (I : Dynamics K X V U)
    (val : Valuation X V U) (m : Nat)
    (hX0 : m + 1 < self.X0_var_vec.length) (hdX0 : m + 1 < self.dX0_var_vec.length)
    (hdXc : m < self.dXc_var_vec.length) (hU : m < self.U_var_vec.length) :
    (List.range' 1 m).foldlM (self.knot_column I val)
      { xs_offset := [PseudospectralSegment.X0_value I val 1]
        dxs_offset := [val.dX0 1]
        xs := [PseudospectralSegment.X0_value I val 0]
        dxs := [val.dX0 0]
        dxcs := [self.dXc_value val 0]
        us := [self.U_value val 0] }
      = Except.ok
        { xs_offset := (List.range (m + 1)).map
            (fun k => PseudospectralSegment.X0_value I val (k + 1))
          dxs_offset := (List.range (m + 1)).map (fun k => val.dX0 (k + 1))
          xs := (List.range (m + 1)).map (fun k => PseudospectralSegment.X0_value I val k)
          dxs := (List.range (m + 1)).map (fun k => val.dX0 k)
          dxcs := (List.range (m + 1)).map (fun k => self.dXc_value val k)
          us := (List.range (m + 1)).map (fun k => self.U_value val k) } := by
  induction m with
  | zero => simp; rfl
  | succ m ih =>
    rw [List.range'_concat, List.foldlM_append, ih (by omega) (by omega) (by omega) (by omega)]
    have h1 : 1 + 1 * m = m + 1 := by omega
    simp only [h1, List.foldlM_cons, List.foldlM_nil, PseudospectralSegment.knot_column,
      at_index_ok _ _ hX0, at_index_ok _ _ hdX0, at_index_ok _ _ hdXc, at_index_ok _ _ hU,
      at_index_ok _ _ (Nat.lt_of_succ_lt hX0), at_index_ok _ _ (Nat.lt_of_succ_lt hdX0),
      bind, Except.bind, pure, Except.pure, List.range_succ (m + 1), List.map_append,
      List.map_cons, List.map_nil]

theorem cost_fold_upto (self : PseudospectralSegment K) (I : Dynamics K X V U)
    (val : Valuation X V U) (J0 : K) (n : Nat)
    (ht : ∀ i, i < self.dX_poly.d →
      0 ≤ self.dX_poly.tau_root.getD i 0 ∧ self.dX_poly.tau_root.getD i 0 ≤ 1)
    (hUc : self.U_poly.d ≤ self.Uc.length) :
    ((List.range n).map (fun k => (PseudospectralSegment.X0_value I val k,
        self.dXc_value val k, val.dX0 k, self.U_value val k))).foldlM (self.fxq I) J0
      = Except.ok (J0 + ∑ k in Finset.range n, (self.knot_graph I val k).Qf) := by
  induction n with
  | zero => simp; rfl
  | succ n ih =>
    have hlen : self.U_poly.d ≤ (self.U_value val n).length := by
      rw [PseudospectralSegment.U_value, List.length_map, List.length_range]
      exact hUc
    have hloop := collocation_loop_graph self I (PseudospectralSegment.X0_value I val n)
      (self.dXc_value val n) (val.dX0 n) (self.U_value val n) ht hlen
    rw [List.range_succ, List.map_append, List.foldlM_append, ih]
    simp only [List.map_cons, List.map_nil, List.foldlM_cons, List.foldlM_nil,
      PseudospectralSegment.fxq, bind, Except.bind, pure, Except.pure, hloop,
      Except.map, Finset.sum_range_succ, add_assoc]
    rfl

/-- Closed form of `evaluate_expression_graph` on a segment with `kn ≥ 1` knots whose knot
vectors have the lengths `initialize_knot_segments` gives them, whose three mapped functions
are assigned and which has no general constraint map. -/
theorem evaluate_expression_graph_eq (self : PseudospectralSegment K) (I : Dynamics K X V U)
    (val : Valuation X V U) (J0 : K) (g : List (List V)) (kn : Nat)
    (hkn : self.knot_num = (kn : Int)) (h1 : 1 ≤ kn)
    (hX0 : self.X0_var_vec.length = kn + 1) (hdX0 : self.dX0_var_vec.length = kn + 1)
    (hdXc : self.dXc_var_vec.length = kn) (hU : self.U_var_vec.length = kn)
    (hcol : self.collocation_constraint_map.isSome = true)
    (hxf : self.xf_constraint_map.isSome = true)
    (hq : self.q_cost_fold.isSome = true)
    (hgen : self.general_constraint_maps = [])
    (ht : ∀ i, i < self.dX_poly.d →
      0 ≤ self.dX_poly.tau_root.getD i 0 ∧ self.dX_poly.tau_root.getD i 0 ≤ 1)
    (hUc : self.U_poly.d ≤ self.Uc.length) :
    self.evaluate_expression_graph I val J0 g
      = Except.ok ({ self with g_range := (g.length + 1, g.length + 2) },
          J0 + ∑ k in Finset.range kn, (self.knot_graph I val k).Qf,
          g ++ [((List.range kn).map (fun k => (self.knot_graph I val k).eq)).flatten,
            (List.range kn).map
              (fun k => (self.knot_graph I val k).dXf - val.dX0 (k + 1))]) := by
  obtain ⟨fcol, hfcol⟩ := Option.isSome_iff_exists.mp hcol
  obtain ⟨fxf, hfxf⟩ := Option.isSome_iff_exists.mp hxf
  obtain ⟨fq, hfq⟩ := Option.isSome_iff_exists.mp hq
  have hcols := knot_columns_upto self I val (kn - 1) (by omega) (by omega) (by omega)
    (by omega)
  rw [Nat.sub_add_cancel h1] at hcols
  have htoNat : self.knot_num.toNat = kn := by rw [hkn]; exact Int.toNat_ofNat kn
  have hloop : ∀ k, self.collocation_loop I (PseudospectralSegment.X0_value I val k)
      (self.dXc_value val k) (val.dX0 k) (self.U_value val k)
      = Except.ok (self.knot_graph I val k) := by
    intro k
    have hlen : self.U_poly.d ≤ (self.U_value val k).length := by
      rw [PseudospectralSegment.U_value, List.length_map, List.length_range]
      exact hUc
    exact collocation_loop_graph self I _ _ _ _ ht hlen
  have hfeq := map_each_map (self.feq I)
    (fun k => (PseudospectralSegment.X0_value I val k, self.dXc_value val k, val.dX0 k,
      self.U_value val k))
    (fun k => (self.knot_graph I val k).eq) (List.range kn)
    (fun k _ => by simp only [PseudospectralSegment.feq, hloop k, Except.map])
  have hfxf2 := map_each_map (self.fxf I)
    (fun k => (PseudospectralSegment.X0_value I val k, self.dXc_value val k, val.dX0 k,
      self.U_value val k))
    (fun k => (self.knot_graph I val k).dXf) (List.range kn)
    (fun k _ => by simp only [PseudospectralSegment.fxf, hloop k, Except.map])
  have hcost := cost_fold_upto self I val J0 kn ht hUc
  simp only [PseudospectralSegment.evaluate_expression_graph,
    at_index_ok self.X0_var_vec 1 (by omega), at_index_ok self.dX0_var_vec 1 (by omega),
    at_index_ok self.X0_var_vec 0 (by omega), at_index_ok self.dX0_var_vec 0 (by omega),
    at_index_ok self.U_var_vec 0 (by omega), at_index_ok self.dXc_var_vec 0 (by omega),
    htoNat, hcols, hfcol, hfxf, hfq, hgen, bind, Except.bind, pure, Except.pure,
    List.zip_map', Option.elim, hfeq, hfxf2, hcost, List.foldlM_nil, List.zipWith_map,
    List.zipWith_same, List.length_append, List.length_cons, List.length_nil]

end GraphValues

end galileo

namespace galileo

section GraphShapes

variable {K : Type} [LinearOrderedField K]

omit [LinearOrderedField K] in
theorem binary_size_self (a : Nat × Nat) : binary_size a a = Except.ok a := by
  simp [binary_size]

omit [LinearOrderedField K] in
theorem binary_size_scalar_left (b : Nat × Nat) : binary_size (1, 1) b = Except.ok b := by
  unfold binary_size
  by_cases h : ((1, 1) : Nat × Nat) = b
  · rw [if_pos h, h]
  · rw [if_neg h, if_pos rfl]

omit [LinearOrderedField K] in
theorem vertcat_size_replicate (n r : Nat) :
    vertcat_size (List.replicate n (r, 1)) = Except.ok (n * r, 1) := by
  cases n with
  | zero => simp [vertcat_size]
  | succ n =>
    have hall : (List.replicate n (r, 1)).all (fun x => x.2 == 1) = true := by
      simp [List.all_eq_true, List.mem_replicate]
    simp only [List.replicate_succ, vertcat_size, hall, if_true, List.map_replicate,
      List.sum_replicate, smul_eq_mul]
    congr 2
    ring

omit [LinearOrderedField K] in
theorem filter_lt_range (n m : Nat) (h : m ≤ n) :
    (List.range n).filter (fun j => decide (j < m)) = List.range m := by
  induction n with
  | zero =>
    have : m = 0 := by omega
    subst this
    rfl
  | succ n ih =>
    rw [List.range_succ, List.filter_append]
    by_cases hm : m ≤ n
    · rw [ih hm]
      simp [show ¬ n < m by omega]
    · have hmn : m = n + 1 := by omega
      subst hmn
      have hall : (List.range n).filter (fun j => decide (j < n + 1)) = List.range n := by
        apply List.filter_eq_self.mpr
        intro a ha
        simp [Nat.lt_succ_of_lt (List.mem_range.mp ha)]
      rw [hall, List.range_succ]
      simp

omit [LinearOrderedField K] in
theorem new_dXc_sizes (d : Nat) (st : States) :
    (PseudospectralSegment.new_dXc d st : List (SX K)).map SX.size
      = List.replicate d (st.ndx, 1) := by
  simp [PseudospectralSegment.new_dXc, SX.size, Function.comp_def, List.map_const']

omit [LinearOrderedField K] in
theorem new_Uc_sizes (d : Nat) (st : States) :
    (PseudospectralSegment.new_Uc d st : List (SX K)).map SX.size
      = List.replicate (d - 1) (st.nu, 1) := by
  simp [PseudospectralSegment.new_Uc, filter_lt_range d (d - 1) (Nat.sub_le d 1), SX.size,
    Function.comp_def, List.map_const']

omit [LinearOrderedField K] in
theorem at_index_of_sizes (vec : List (SX K)) (n : Nat) (sz : Nat × Nat)
    (h : vec.map SX.size = List.replicate n sz) (r : Nat) (hr : r < n) :
    ∃ e, at_index vec r = Except.ok e ∧ e.size = sz := by
  have hlen : vec.length = n := by
    have := congrArg List.length h
    simpa using this
  have hr2 : r < vec.length := by omega
  refine ⟨vec[r], at_index_ok vec r hr2, ?_⟩
  have h2 : (vec.map SX.size)[r]? = (List.replicate n sz)[r]? := by rw [h]
  simpa [List.getElem?_map, List.getElem?_eq_getElem hr2, List.getElem?_replicate, hr] using h2

omit [LinearOrderedField K] in
theorem npar_self (a : Nat × Nat) : Function.npar a a = some 1 := by
  simp [Function.npar]

omit [LinearOrderedField K] in
theorem npar_scalar (b : Nat × Nat) : Function.npar (1, 1) b = some 1 := by
  unfold Function.npar
  by_cases h : ((1, 1) : Nat × Nat) = b
  · rw [if_pos h]
  · rw [if_neg h, if_neg (by simp), if_pos rfl]

omit [LinearOrderedField K] in
theorem foldl_max_one (l : List Nat) (h : ∀ n, n ∈ l → n = 1) : l.foldl max 1 = 1 := by
  induction l with
  | nil => rfl
  | cons a l ih =>
    have ha : a = 1 := h a (List.mem_cons_self a l)
    subst ha
    simpa using ih (fun n hn => h n (List.mem_cons_of_mem _ hn))

omit [LinearOrderedField K] in
/-- A call whose arguments all pass the shape test with one evaluation returns the output
shapes of the function. -/
theorem call_ok (f : Function) (args : List (Nat × Nat)) (hlen : args.length = f.n_in)
    (h : ∀ p, p ∈ List.zip args f.size_in → Function.npar p.1 p.2 = some 1) :
    f.call args = Except.ok f.size_out := by
  have hmap := map_each_map
    (fun p : (Nat × Nat) × (Nat × Nat) =>
      match Function.npar p.1 p.2 with
      | some n => (Except.ok n : Except Failure Nat)
      | none => Except.error (Failure.casadi_error "Incorrect matrix shape for input"))
    id (fun _ => 1) (List.zip args f.size_in)
    (fun p hp => by simp only [id, h p hp])
  rw [List.map_id] at hmap
  unfold Function.call
  rw [if_pos hlen, hmap]
  simp only
  rw [foldl_max_one _ (by intro n hn; simp at hn; exact hn.2)]
  simp

omit [LinearOrderedField K] in
theorem foldlM_binary_size_replicate (a : Nat × Nat) (m : Nat) :
    (List.replicate m a).foldlM (fun s z => binary_size s z) a = Except.ok a := by
  induction m with
  | zero => rfl
  | succ m ih =>
    rw [List.replicate_succ, List.foldlM_cons, binary_size_self]
    exact ih

omit [LinearOrderedField K] in
theorem foldlM_binary_size_scalar (a : Nat × Nat) (m : Nat) :
    (List.replicate m a).foldlM (fun s z => binary_size s z) (1, 1)
      = Except.ok (if m = 0 then (1, 1) else a) := by
  cases m with
  | zero => rfl
  | succ m =>
    rw [List.replicate_succ, List.foldlM_cons, binary_size_scalar_left]
    simpa using foldlM_binary_size_replicate a m

omit [LinearOrderedField K] in
theorem foldlM_sizes (vec : List (SX K)) (init : Nat × Nat) :
    vec.foldlM (fun s t => binary_size s t.size) init
      = (vec.map SX.size).foldlM (fun s z => binary_size s z) init := by
  induction vec generalizing init with
  | nil => rfl
  | cons t vec ih =>
    simp only [List.foldlM_cons, List.map_cons]
    cases binary_size init t.size with
    | error e => rfl
    | ok s => exact ih s

omit [LinearOrderedField K] in
theorem dxp_size_upto (seg : PseudospectralSegment K) (d m : Nat) (hm : m ≤ d)
    (hdXc : seg.dXc.map SX.size = List.replicate d (seg.st_m.ndx, 1)) :
    (List.range m).foldlM
      (fun s r => do
        let dXc_r ← at_index seg.dXc r
        binary_size s dXc_r.size)
      (seg.st_m.ndx, 1)
      = Except.ok (seg.st_m.ndx, 1) := by
  induction m with
  | zero => rfl
  | succ m ih =>
    obtain ⟨e, he, hes⟩ := at_index_of_sizes seg.dXc d _ hdXc m (by omega)
    rw [List.range_succ, List.foldlM_append, ih (by omega)]
    simp only [List.foldlM_cons, List.foldlM_nil, he, hes, binary_size_self, bind, Except.bind,
      pure, Except.pure]

/-- One pass of the collocation loop on shapes, for a segment as the constructor leaves it. -/
theorem collocation_point_size_ok (seg : PseudospectralSegment K) (F L : Function)
    (d kn : Nat) (hr : GraphReady seg F L d kn) (acc : GraphSizes) (j : Nat) (hj1 : 1 ≤ j)
    (hj : j ≤ d) (hQf : acc.Qf = (1, 1)) (hdXf : acc.dXf = (seg.st_m.ndx, 1)) :
    seg.collocation_point_size F L acc j
      = Except.ok
        { eq := acc.eq ++ [(seg.st_m.ndx, 1)]
          dXf := (seg.st_m.ndx, 1)
          Qf := (1, 1)
          x_at_c := acc.x_at_c ++ [(seg.st_m.ndx, 1)]
          u_at_c := acc.u_at_c ++ [if d - 1 = 0 then (1, 1) else (seg.st_m.nu, 1)] } := by
  obtain ⟨e, he, hes⟩ := at_index_of_sizes seg.dXc d _ hr.dXc_sizes (j - 1) (by omega)
  have hdxp := dxp_size_upto seg d d le_rfl hr.dXc_sizes
  simp only [bind, Except.bind] at hdxp
  have hFint : seg.Fint.call [(seg.st_m.ndx, 1), (seg.st_m.ndx, 1), (1, 1)]
      = Except.ok [(seg.st_m.ndx, 1)] := by
    have h := call_ok seg.Fint [(seg.st_m.ndx, 1), (seg.st_m.ndx, 1), (1, 1)]
      (by simp [Function.n_in, hr.Fint_in])
      (by
        intro p hp
        rw [hr.Fint_in, hr.nx_eq] at hp
        simp at hp
        rcases hp with rfl | rfl | rfl <;> exact npar_self _)
    rw [h, hr.Fint_out, hr.nx_eq]
  have hinterp : ∃ v, seg.U_poly.lagrange_interpolation
      (seg.dX_poly.tau_root.getD (j - 1) 0) (seg.Uc.map (fun _ => (0 : K))) = Except.ok v :=
    ⟨_, lagrange_interpolation_eq seg.U_poly _ _ (hr.roots (j - 1) (by omega)).1
      (hr.roots (j - 1) (by omega)).2
      (by
        have := congrArg List.length hr.Uc_sizes
        simp only [List.length_map, List.length_replicate] at this
        rw [List.length_map, this, hr.Ud_eq])⟩
  obtain ⟨v, hv⟩ := hinterp
  have hUc : (seg.Uc.take seg.U_poly.d).foldlM (fun s t => binary_size s t.size) (1, 1)
      = Except.ok (if d - 1 = 0 then (1, 1) else (seg.st_m.nu, 1)) := by
    rw [foldlM_sizes, List.map_take, hr.Uc_sizes, hr.Ud_eq, List.take_replicate, min_self]
    exact foldlM_binary_size_scalar _ _
  have hcall : ∀ f : Function, f.size_in = [(seg.st_m.nx, 1), (seg.st_m.nu, 1)] →
      f.call [(seg.st_m.ndx, 1), if d - 1 = 0 then (1, 1) else (seg.st_m.nu, 1)]
        = Except.ok f.size_out := by
    intro f hf
    apply call_ok
    · simp [Function.n_in, hf]
    · intro p hp
      rw [hf, hr.nx_eq] at hp
      simp at hp
      rcases hp with rfl | rfl
      · exact npar_self _
      · by_cases h0 : d - 1 = 0
        · simp only [h0, if_true]; exact npar_scalar _
        · simp only [h0, if_false]; exact npar_self _
  simp only [PseudospectralSegment.collocation_point_size, hr.d_eq, hr.dX0_size, hdxp, he, hes,
    hr.X0_size, hr.nx_eq, hFint, hv, hUc, hcall F hr.F_in, hcall L hr.L_in, hr.F_out, hr.L_out,
    hQf, hdXf, binary_size_self, bind, Except.bind, pure, Except.pure,
    List.getElem?_cons_zero, Option.elim]

theorem collocation_loop_size_upto (seg : PseudospectralSegment K) (F L : Function)
    (d kn : Nat) (hr : GraphReady seg F L d kn) (m : Nat) (hm : m ≤ d) :
    (List.range' 1 m).foldlM (seg.collocation_point_size F L)
      { eq := [], dXf := (seg.st_m.ndx, 1), Qf := (1, 1), x_at_c := [], u_at_c := [] }
      = Except.ok
        { eq := List.replicate m (seg.st_m.ndx, 1)
          dXf := (seg.st_m.ndx, 1)
          Qf := (1, 1)
          x_at_c := List.replicate m (seg.st_m.ndx, 1)
          u_at_c := List.replicate m (if d - 1 = 0 then (1, 1) else (seg.st_m.nu, 1)) } := by
  induction m with
  | zero => rfl
  | succ m ih =>
    have h1 : 1 + 1 * m = m + 1 := by omega
    have hstep := collocation_point_size_ok seg F L d kn hr
      { eq := List.replicate m (seg.st_m.ndx, 1)
        dXf := (seg.st_m.ndx, 1)
        Qf := (1, 1)
        x_at_c := List.replicate m (seg.st_m.ndx, 1)
        u_at_c := List.replicate m (if d - 1 = 0 then (1, 1) else (seg.st_m.nu, 1)) }
      (m + 1) (by omega) hm rfl rfl
    rw [List.range'_concat, List.foldlM_append, ih (by omega), h1]
    simp only [List.foldlM_cons, List.foldlM_nil, bind, Except.bind, pure, Except.pure,
      hstep, List.replicate_succ']

theorem collocation_loop_size_ok (seg : PseudospectralSegment K) (F L : Function)
    (d kn : Nat) (hr : GraphReady seg F L d kn) :
    seg.collocation_loop_size F L
      = Except.ok
        { eq := List.replicate d (seg.st_m.ndx, 1)
          dXf := (seg.st_m.ndx, 1)
          Qf := (1, 1)
          x_at_c := List.replicate d (seg.st_m.ndx, 1)
          u_at_c := List.replicate d (if d - 1 = 0 then (1, 1) else (seg.st_m.nu, 1)) } := by
  unfold PseudospectralSegment.collocation_loop_size
  rw [hr.d_eq, hr.dX0_size]
  exact collocation_loop_size_upto seg F L d kn hr d le_rfl

omit [LinearOrderedField K] in
/-- The first loop over `G` changes nothing when no contribution is global. -/
theorem constraint_maps_none (seg : PseudospectralSegment K) (sizes : GraphSizes)
    (G : List (ConstraintData K))
    (hG : ∀ c, c ∈ G →
      c.global = false ∧ c.G.size_in = [(seg.st_m.nx, 1), (seg.st_m.nu, 1)])
    (acc : List Function × List tuple_size_t × Nat) :
    G.foldlM (seg.constraint_map_step sizes) acc = Except.ok acc := by
  induction G with
  | nil => rfl
  | cons c G ih =>
    obtain ⟨hg, hin⟩ := hG c (List.mem_cons_self c G)
    rw [List.foldlM_cons]
    simp only [PseudospectralSegment.constraint_map_step, assert, Function.n_in,
      Function.assert_size_in, hin, hg, List.length_cons, List.length_nil,
      List.getElem?_cons_zero, List.getElem?_cons_succ, if_true, bind, Except.bind, pure,
      Except.pure, Bool.false_eq_true, if_false]
    exact ih (fun c hc => hG c (List.mem_cons_of_mem _ hc))

omit [LinearOrderedField K] in
/-- The second loop over `G` changes nothing when no contribution is global. -/
theorem constraint_bounds_none (seg : PseudospectralSegment K) (G : List (ConstraintData K))
    (ranges : List tuple_size_t) (hG : ∀ c, c ∈ G → c.global = false) (acc : List K × List K)
    (n : Nat) (hn : n ≤ G.length) :
    (List.range n).foldlM (seg.constraint_bound_step G ranges) acc = Except.ok acc := by
  induction n with
  | zero => rfl
  | succ n ih =>
    have hlt : n < G.length := by omega
    rw [List.range_succ, List.foldlM_append, ih (by omega)]
    simp only [List.foldlM_cons, List.foldlM_nil, PseudospectralSegment.constraint_bound_step,
      at_index_ok G n hlt, hG _ (List.getElem_mem hlt), bind, Except.bind, pure, Except.pure,
      Bool.false_eq_true, if_false]

theorem slice_assign_all (n : Nat) :
    slice_assign (List.replicate n (0 : K)) 0 n (List.replicate n 0)
      = Except.ok (List.replicate n 0) := by
  simp [slice_assign]

/-- On a segment as the constructor and `initialize_knot_segments` leave it, with functions
`F` and `L` of the right shapes and no global constraint contribution,
`initialize_expression_graph` returns the segment with the three mapped functions assigned and
bound vectors of zeros. -/
theorem initialize_expression_graph_ok (seg : PseudospectralSegment K) (F L : Function)
    (G : List (ConstraintData K)) (d kn : Nat) (hr : GraphReady seg F L d kn)
    (hG : ∀ c, c ∈ G →
      c.global = false ∧ c.G.size_in = [(seg.st_m.nx, 1), (seg.st_m.nu, 1)]) :
    seg.initialize_expression_graph F L G
      = Except.ok { seg with
          collocation_constraint_map := some
            { name := "feq"
              size_in := [(seg.st_m.ndx, kn), (d * seg.st_m.ndx, kn), (seg.st_m.ndx, kn),
                ((d - 1) * seg.st_m.nu, kn)]
              size_out := [(d * seg.st_m.ndx, kn)] }
          xf_constraint_map := some
            { name := "fxf"
              size_in := [(seg.st_m.ndx, kn), (d * seg.st_m.ndx, kn), (seg.st_m.ndx, kn),
                ((d - 1) * seg.st_m.nu, kn)]
              size_out := [(seg.st_m.ndx, kn)] }
          q_cost_fold := some
            { name := "fxq"
              size_in := [(1, 1), (seg.st_m.ndx, kn), (d * seg.st_m.ndx, kn),
                (seg.st_m.ndx, kn), ((d - 1) * seg.st_m.nu, kn)]
              size_out := [(1, 1)] }
          general_constraint_maps := []
          general_lbg := List.replicate (d * seg.st_m.ndx * kn + seg.st_m.ndx * kn) 0
          general_ubg := List.replicate (d * seg.st_m.ndx * kn + seg.st_m.ndx * kn) 0 } := by
  have hkn : (0 : Int) < (kn : Int) := by have := hr.kn_pos; omega
  have hbounds := constraint_bounds_none seg G [] (fun c hc => (hG c hc).1)
    (List.replicate (d * seg.st_m.ndx * kn + seg.st_m.ndx * kn) 0,
      List.replicate (d * seg.st_m.ndx * kn + seg.st_m.ndx * kn) 0) G.length le_rfl
  simp only [PseudospectralSegment.initialize_expression_graph, assert, Function.n_in,
    Function.n_out, Function.assert_size_in, Function.assert_size_out, hr.F_in, hr.F_out,
    hr.L_in, hr.L_out, List.length_cons, List.length_nil, List.getElem?_cons_zero,
    List.getElem?_cons_succ, if_true, bind, Except.bind, pure, Except.pure,
    collocation_loop_size_ok seg F L d kn hr, hr.dXc_sizes, hr.Uc_sizes,
    vertcat_size_replicate, Function.map, Function.fold, hr.kn_eq, hkn, Int.toNat_ofNat,
    hr.X0_size, hr.dX0_size, hr.Lc_size, hr.nx_eq, binary_size_self, List.map_cons,
    List.map_nil, List.take, List.drop, List.cons_append, List.nil_append, List.getD_cons_zero,
    one_mul, constraint_maps_none seg _ G hG, hr.no_maps, hr.lbg_nil, hr.ubg_nil,
    List.take_replicate, min_self, slice_assign_all, hbounds]

end GraphShapes

section Assembly

variable {K : Type} [LinearOrderedField K]

/-- On valid arguments the constructor returns this segment. -/
theorem new_eq (collocation_points : Nat → Except Failure (List K)) (d kn : Nat) (h : K)
    (st : States) (Fint : Function) (troot troot2 : List K)
    (hd : 0 < d) (hd10 : d < 10) (hh : 0 < h)
    (hin : Fint.size_in = [(st.nx, 1), (st.ndx, 1), (1, 1)])
    (hout : Fint.size_out = [(st.nx, 1)])
    (hcp : collocation_points d = Except.ok troot)
    (hcp2 : collocation_points (d - 1) = Except.ok troot2) :
    ∃ times, PseudospectralSegment.new collocation_points (d : Int) (kn : Int) h st Fint
      = Except.ok
        { knot_num := (kn : Int)
          Fint := Fint
          h := h
          st_m := st
          T := (((kn : Int) + 1 : Int) : K) * h
          dX_poly := LagrangePolynomial.build d troot
          U_poly := LagrangePolynomial.build (d - 1) troot2
          dXc := PseudospectralSegment.new_dXc d st
          Uc := PseudospectralSegment.new_Uc d st
          dX0 := SX.sym "dX0" st.ndx 1
          X0 := SX.sym "X0" st.nx 1
          Lc := SX.sym "Lc" 1 1
          times := times
          dXc_var_vec := []
          U_var_vec := []
          dX0_var_vec := []
          X0_var_vec := []
          w_range := (0, 0) } := by
  have hd1 : (0 : Int) < (d : Int) ∧ (d : Int) < 10 := by omega
  have hneg : ¬ ((kn : Int) * ((d : Int) + 1) + 1 < 0) := by
    have : (0 : Int) ≤ (kn : Int) * ((d : Int) + 1) := by positivity
    omega
  simp only [PseudospectralSegment.new, assert, Function.n_in, Function.n_out,
    Function.assert_size_in, Function.assert_size_out, hin, hout, hd1, hh,
    LagrangePolynomial.new, hcp, hcp2, Int.toNat_ofNat,
    PseudospectralSegment.initialize_time_vector, build_d, hneg, and_self, if_true,
    List.length_cons, List.length_nil, List.getElem?_cons_zero, List.getElem?_cons_succ,
    bind, Except.bind, Except.map, pure, Except.pure, if_false]
  exact ⟨_, rfl⟩

omit [LinearOrderedField K] in
/-- On a reference state of shape `nx × 1`, `initialize_knot_segments` returns the segment with
the four knot vectors assigned. -/
theorem initialize_knot_segments_eq [One K] (seg : PseudospectralSegment K) (x0 : SX K)
    (hx0 : x0.size = (seg.st_m.nx, 1)) :
    seg.initialize_knot_segments x0 = Except.ok { seg with
      dXc_var_vec := (List.range seg.knot_num.toNat).map
        (fun k => SX.sym ("dXc_" ++ toString k) (seg.st_m.ndx * seg.dX_poly.d) 1)
      U_var_vec := (List.range seg.knot_num.toNat).map
        (fun k => SX.sym ("U_" ++ toString k) (seg.st_m.nu * seg.U_poly.d) 1)
      dX0_var_vec := (List.range (seg.knot_num + 1).toNat).map
        (fun k => SX.sym ("dX0_" ++ toString k) seg.st_m.ndx 1)
      X0_var_vec := (List.range (seg.knot_num + 1).toNat).map
        (fun k => SX.call seg.Fint
          [x0, SX.sym ("dX0_" ++ toString k) seg.st_m.ndx 1, SX.num 1] 0) } := by
  simp only [PseudospectralSegment.initialize_knot_segments, assert, hx0, and_self, if_true,
    bind, Except.bind, pure, Except.pure]

omit [LinearOrderedField K] in
theorem exists_of_eq_ok {α : Type} {a : Except Failure α} {b : α} (h : a = Except.ok b) :
    ∃ c, a = Except.ok c ∧ c = b :=
  ⟨b, h, rfl⟩

omit [LinearOrderedField K] in
theorem toNat_succ_cast (kn : Nat) : ((kn : Int) + 1).toNat = kn + 1 := by
  omega

/-- With collocation points in `[0,1]`, the roots of the basis, `0` prepended, are in
`[0,1]`. -/
theorem roots_unit_interval (troot : List K) (hroots : ∀ t, t ∈ troot → 0 ≤ t ∧ t ≤ 1)
    (i : Nat) : 0 ≤ (0 :: troot).getD i 0 ∧ (0 :: troot).getD i 0 ≤ 1 := by
  cases i with
  | zero => simp
  | succ i =>
    rw [List.getD_cons_succ]
    by_cases hi : i < troot.length
    · rw [List.getD_eq_getElem _ _ hi]
      exact hroots _ (List.getElem_mem hi)
    · rw [List.getD_eq_default _ _ (not_lt.mp hi)]
      simp

/-- On arguments as in `ValidSetup` the constructor, `initialize_knot_segments` and
`initialize_expression_graph` return, and leave the segment as in `Assembled`. -/
theorem assemble_ok (collocation_points : Nat → Except Failure (List K)) (d kn : Nat) (h : K)
    (st : States) (Fint F L : Function) (G : List (ConstraintData K)) (troot troot2 : List K)
    (x0 : SX K)
    (hv : ValidSetup collocation_points d kn h st Fint F L G troot troot2 x0) :
    ∃ seg seg1 seg2,
      PseudospectralSegment.new collocation_points (d : Int) (kn : Int) h st Fint
        = Except.ok seg ∧
      seg.initialize_knot_segments x0 = Except.ok seg1 ∧
      seg1.initialize_expression_graph F L G = Except.ok seg2 ∧
      Assembled seg2 d kn h st Fint troot troot2 x0 := by
  obtain ⟨times, hnew⟩ := new_eq collocation_points d kn h st Fint troot troot2 hv.d_pos
    hv.d_lt hv.h_pos hv.Fint_in hv.Fint_out hv.points hv.points2
  obtain ⟨seg, hseg, hdef⟩ := exists_of_eq_ok hnew
  have hx0 : x0.size = (seg.st_m.nx, 1) := by rw [hdef]; exact hv.x0_size
  obtain ⟨seg1, hseg1, hdef1⟩ := exists_of_eq_ok (initialize_knot_segments_eq seg x0 hx0)
  have hr : GraphReady seg1 F L d kn := by
    rw [hdef1, hdef]
    exact
      { d_eq := rfl
        Ud_eq := rfl
        kn_eq := rfl
        kn_pos := hv.kn_pos
        dXc_sizes := new_dXc_sizes d st
        Uc_sizes := new_Uc_sizes d st
        X0_size := rfl
        dX0_size := rfl
        Lc_size := rfl
        Fint_in := hv.Fint_in
        Fint_out := hv.Fint_out
        F_in := hv.F_in
        F_out := hv.F_out
        L_in := hv.L_in
        L_out := hv.L_out
        nx_eq := hv.nx_eq
        roots := fun i _ => roots_unit_interval troot hv.roots i
        no_maps := rfl
        lbg_nil := rfl
        ubg_nil := rfl }
  have hG : ∀ c, c ∈ G →
      c.global = false ∧ c.G.size_in = [(seg1.st_m.nx, 1), (seg1.st_m.nu, 1)] := by
    rw [hdef1, hdef]
    exact hv.no_global
  obtain ⟨seg2, hseg2, hdef2⟩ :=
    exists_of_eq_ok (initialize_expression_graph_ok seg1 F L G d kn hr hG)
  refine ⟨seg, seg1, seg2, hseg, hseg1, hseg2, ?_⟩
  have hlen1 : (PseudospectralSegment.new_dXc d st : List (SX K)).length = d := by
    simp [PseudospectralSegment.new_dXc]
  have hlen2 : (PseudospectralSegment.new_Uc d st : List (SX K)).length = d - 1 := by
    have := congrArg List.length (new_Uc_sizes (K := K) d st)
    simpa using this
  rw [hdef2, hdef1, hdef]
  exact
    { knot_num_eq := rfl
      kn_pos := hv.kn_pos
      h_eq := rfl
      st_eq := rfl
      dX_poly_eq := rfl
      U_poly_eq := rfl
      dXc_length := hlen1
      Uc_length := hlen2
      roots := fun i _ => roots_unit_interval troot hv.roots i
      X0_var_vec_eq := by simp only [toNat_succ_cast]
      dX0_var_vec_eq := by simp only [toNat_succ_cast]
      dXc_var_vec_eq := by simp only [Int.toNat_ofNat, build_d]
      U_var_vec_eq := by simp only [Int.toNat_ofNat, build_d]
      feq_eq := rfl
      fxf_eq := rfl
      fxq_eq := rfl
      maps_eq := rfl
      lbg_eq := rfl
      ubg_eq := rfl }

end Assembly

section GraphClaims

variable {K X V U : Type} [LinearOrderedField K] [AddCommGroup V] [Module K V]
  [AddCommGroup U] [Module K U]

omit [LinearOrderedField K] [AddCommGroup V] [Module K V] [AddCommGroup U] [Module K U] in
theorem sum_Icc_one {M : Type} [AddCommMonoid M] (f : Nat → M) (d : Nat) :
    ∑ j in Finset.Icc 1 d, f j = ∑ i in Finset.range d, f (i + 1) := by
  rw [Finset.range_eq_Ico, Finset.sum_Ico_add' f 0 d 1, Nat.zero_add, Nat.Ico_succ_right]

omit [LinearOrderedField K] [AddCommGroup V] [Module K V] [AddCommGroup U] [Module K U] in
theorem map_range'_one {α : Type} (f : Nat → α) (d : Nat) :
    (List.range' 1 d).map f = (List.range d).map (fun i => f (i + 1)) := by
  rw [List.range'_eq_map_range, List.map_map]
  apply List.map_congr_left
  intro i _
  simp [Nat.add_comm]

omit [LinearOrderedField K] [AddCommGroup V] [Module K V] [AddCommGroup U] [Module K U] in
theorem getElem?_append_pair {α : Type} (g : List α) (a b : α) :
    (g ++ [a, b])[g.length]? = some a ∧ (g ++ [a, b])[g.length + 1]? = some b := by
  constructor
  · rw [List.getElem?_append_right (le_refl _)]
    simp
  · rw [List.getElem?_append_right (Nat.le_add_right _ _)]
    simp

/-- On an assembled segment `evaluate_expression_graph` returns, with this result. -/
theorem assembled_evaluate (seg : PseudospectralSegment K) (d kn : Nat) (h : K) (st : States)
    (Fint : Function) (troot troot2 : List K) (x0 : SX K)
    (ha : Assembled seg d kn h st Fint troot troot2 x0)
    (I : Dynamics K X V U) (val : Valuation X V U) (J0 : K) (g : List (List V)) :
    seg.evaluate_expression_graph I val J0 g
      = Except.ok ({ seg with g_range := (g.length + 1, g.length + 2) },
          J0 + ∑ k in Finset.range kn, (seg.knot_graph I val k).Qf,
          g ++ [((List.range kn).map (fun k => (seg.knot_graph I val k).eq)).flatten,
            (List.range kn).map
              (fun k => (seg.knot_graph I val k).dXf - val.dX0 (k + 1))]) := by
  have hUc : seg.U_poly.d ≤ seg.Uc.length := by rw [ha.U_poly_eq, build_d, ha.Uc_length]
  exact evaluate_expression_graph_eq seg I val J0 g kn ha.knot_num_eq ha.kn_pos
    (by rw [ha.X0_var_vec_eq]; simp) (by rw [ha.dX0_var_vec_eq]; simp)
    (by rw [ha.dXc_var_vec_eq]; simp) (by rw [ha.U_var_vec_eq]; simp)
    (by rw [ha.feq_eq]; rfl) (by rw [ha.fxf_eq]; rfl) (by rw [ha.fxq_eq]; rfl)
    ha.maps_eq ha.roots hUc

omit [LinearOrderedField K] [Module K V] [AddCommGroup U] [Module K U] in
theorem dXc_value_getD (seg : PseudospectralSegment K) (val : Valuation X V U) (k d i : Nat)
    (hlen : seg.dXc.length = d) (hi : i < d) :
    (seg.dXc_value val k).getD i 0 = val.dXc k i := by
  simp [PseudospectralSegment.dXc_value, hlen, List.getD_eq_getElem?_getD,
    List.getElem?_range, hi]

/-- The estimate `dXf` of knot `k` on an assembled segment. -/
theorem knot_graph_dXf (seg : PseudospectralSegment K) (d kn : Nat) (h : K) (st : States)
    (Fint : Function) (troot troot2 : List K) (x0 : SX K)
    (ha : Assembled seg d kn h st Fint troot troot2 x0)
    (I : Dynamics K X V U) (val : Valuation X V U) (k : Nat) :
    (seg.knot_graph I val k).dXf
      = (LagrangePolynomial.build d troot).D.getD 0 0 • val.dX0 k
        + ∑ j in Finset.Icc 1 d,
            (LagrangePolynomial.build d troot).D.getD j 0 • val.dXc k (j - 1) := by
  rw [sum_Icc_one]
  simp only [PseudospectralSegment.knot_graph, PseudospectralSegment.collocation_graph,
    ha.dX_poly_eq, build_d, Nat.add_sub_cancel]
  congr 1
  apply Finset.sum_congr rfl
  intro i hi
  rw [dXc_value_getD seg val k d i ha.dXc_length (Finset.mem_range.mp hi)]

/-- The arguments of the scenario `d = 3`, `knot_num = 2`, `h = 0.1`, `nx = ndx = nu = 1`
with the sample scheme and no constraint are as in `ValidSetup`. -/
theorem scenario_valid :
    ValidSetup equispaced_points 3 2 (1 / 10 : ℚ) ⟨1, 1, 1⟩ scalar_Fint scalar_F scalar_L []
      [1 / 3, 2 / 3, 1] [1 / 2, 1] (SX.sym "x0" 1 1) :=
  { d_pos := by decide
    d_lt := by decide
    kn_pos := by decide
    h_pos := by norm_num
    nx_eq := rfl
    Fint_in := rfl
    Fint_out := rfl
    F_in := rfl
    F_out := rfl
    L_in := rfl
    L_out := rfl
    points := by norm_num [equispaced_points, List.range_succ]
    points2 := by norm_num [equispaced_points, List.range_succ]
    roots := by
      intro t ht
      simp only [List.mem_cons, List.mem_singleton, List.not_mem_nil, or_false] at ht
      rcases ht with rfl | rfl | rfl <;> norm_num
    x0_size := rfl
    no_global := by simp }

/-- C16: on valid arguments the constructor, `initialize_knot_segments`,
`initialize_expression_graph` and `evaluate_expression_graph` return, and the continuity entry
appended to `g` holds, for the knots `k = 0 .. knot_num - 1` in increasing order, the
expression `(D[0] * dX0_k + Σ_{j = 1..d} D[j] * dXc_k[j-1]) - dX0_{k+1}`: the end-of-interval
estimate accumulated with the continuity weights minus the next knot's boundary deviation. -/
theorem C16_continuity_defect (collocation_points : Nat → Except Failure (List K))
    (d kn : Nat) (h : K) (st : States) (Fint F L : Function) (G : List (ConstraintData K))
    (troot troot2 : List K) (x0 : SX K)
    (hv : ValidSetup collocation_points d kn h st Fint F L G troot troot2 x0)
    (I : Dynamics K X V U) (val : Valuation X V U) (J0 : K) (g : List (List V)) :
    ∃ seg seg1 seg2 res,
      PseudospectralSegment.new collocation_points (d : Int) (kn : Int) h st Fint
        = Except.ok seg ∧
      seg.initialize_knot_segments x0 = Except.ok seg1 ∧
      seg1.initialize_expression_graph F L G = Except.ok seg2 ∧
      seg2.evaluate_expression_graph I val J0 g = Except.ok res ∧
      seg2.dX_poly = LagrangePolynomial.build d troot ∧
      res.2.2[g.length + 1]? = some ((List.range kn).map (fun k =>
        (seg2.dX_poly.D.getD 0 0 • val.dX0 k
          + ∑ j in Finset.Icc 1 d, seg2.dX_poly.D.getD j 0 • val.dXc k (j - 1))
        - val.dX0 (k + 1))) := by
  obtain ⟨seg, seg1, seg2, hseg, hseg1, hseg2, ha⟩ :=
    assemble_ok collocation_points d kn h st Fint F L G troot troot2 x0 hv
  refine ⟨seg, seg1, seg2, _, hseg, hseg1, hseg2,
    assembled_evaluate seg2 d kn h st Fint troot troot2 x0 ha I val J0 g, ha.dX_poly_eq, ?_⟩
  simp only [knot_graph_dXf seg2 d kn h st Fint troot troot2 x0 ha I val, ha.dX_poly_eq]
  exact (getElem?_append_pair g _ _).2

theorem C16_continuity_defect_witness :
    ∃ seg seg1 seg2 res,
      PseudospectralSegment.new equispaced_points ((3 : Nat) : Int) ((2 : Nat) : Int)
        (1 / 10 : ℚ) ⟨1, 1, 1⟩ scalar_Fint = Except.ok seg ∧
      seg.initialize_knot_segments (SX.sym "x0" 1 1) = Except.ok seg1 ∧
      seg1.initialize_expression_graph scalar_F scalar_L [] = Except.ok seg2 ∧
      seg2.evaluate_expression_graph (scenario_dynamics ℚ) sample_valuation 0
        ([] : List (List ℚ)) = Except.ok res ∧
      seg2.dX_poly = LagrangePolynomial.build 3 [1 / 3, 2 / 3, 1] ∧
      res.2.2[([] : List (List ℚ)).length + 1]? = some ((List.range 2).map (fun k =>
        (seg2.dX_poly.D.getD 0 0 • sample_valuation.dX0 k
          + ∑ j in Finset.Icc 1 3, seg2.dX_poly.D.getD j 0 • sample_valuation.dXc k (j - 1))
        - sample_valuation.dX0 (k + 1))) :=
  C16_continuity_defect equispaced_points 3 2 (1 / 10 : ℚ) ⟨1, 1, 1⟩ scalar_Fint scalar_F
    scalar_L [] [1 / 3, 2 / 3, 1] [1 / 2, 1] (SX.sym "x0" 1 1) scenario_valid
    (scenario_dynamics ℚ) sample_valuation 0 []

/-- C17: on valid arguments (in particular `knot_num ≥ 1`) and for every incoming accumulator
`J0`, `evaluate_expression_graph` returns with the cost
`J0 + Σ_{k < knot_num} Σ_{j = 1..d} B[j] * L(x_c(k,j), u_c(k,j)) * h`, where
`x_c(k,j) = Fint(X0_k, dXc_k[j-1], dt_j)` and `u_c(k,j)`, the control that
`lagrange_interpolation` returns for point `j`, are the pairs of the collocation-defect
equations `h * F(x_c(k,j), u_c(k,j)) - dxp_j` of knot `k` in the first entry appended
to `g`. -/
theorem C17_cost_fold (collocation_points : Nat → Except Failure (List K))
    (d kn : Nat) (h : K) (st : States) (Fint F L : Function) (G : List (ConstraintData K))
    (troot troot2 : List K) (x0 : SX K)
    (hv : ValidSetup collocation_points d kn h st Fint F L G troot troot2 x0)
    (I : Dynamics K X V U) (val : Valuation X V U) (J0 : K) (g : List (List V)) :
    ∃ (seg seg1 seg2 : PseudospectralSegment K)
      (res : PseudospectralSegment K × K × List (List V))
      (x_c : Nat → Nat → X) (u_c : Nat → Nat → U),
      PseudospectralSegment.new collocation_points (d : Int) (kn : Int) h st Fint
        = Except.ok seg ∧
      seg.initialize_knot_segments x0 = Except.ok seg1 ∧
      seg1.initialize_expression_graph F L G = Except.ok seg2 ∧
      seg2.evaluate_expression_graph I val J0 g = Except.ok res ∧
      (∀ k j, x_c k j = I.Fint (I.Fint val.x0 (val.dX0 k) 1) (val.dXc k (j - 1)) (seg2.dt j)) ∧
      (∀ k j, 1 ≤ j → j ≤ d →
        seg2.U_poly.lagrange_interpolation (seg2.dX_poly.tau_root.getD (j - 1) 0)
          ((List.range (d - 1)).map (val.U k)) = Except.ok (u_c k j)) ∧
      res.2.1 = J0 + ∑ k in Finset.range kn, ∑ j in Finset.Icc 1 d,
        seg2.dX_poly.B.getD j 0 * I.L (x_c k j) (u_c k j) * h ∧
      res.2.2[g.length]? = some (((List.range kn).map (fun k =>
        (List.range' 1 d).map (fun j => h • I.F (x_c k j) (u_c k j)
          - seg2.dxp ((List.range d).map (val.dXc k)) (val.dX0 k) j))).flatten) := by
  obtain ⟨seg, seg1, seg2, hseg, hseg1, hseg2, ha⟩ :=
    assemble_ok collocation_points d kn h st Fint F L G troot troot2 x0 hv
  have hd : seg2.dX_poly.d = d := by rw [ha.dX_poly_eq, build_d]
  have hUd : seg2.U_poly.d = d - 1 := by rw [ha.U_poly_eq, build_d]
  refine ⟨seg, seg1, seg2, _,
    fun k j => I.Fint (I.Fint val.x0 (val.dX0 k) 1) (val.dXc k (j - 1)) (seg2.dt j),
    fun k j => seg2.U_poly.interpolant (seg2.dX_poly.tau_root.getD (j - 1) 0)
      ((List.range (d - 1)).map (val.U k)),
    hseg, hseg1, hseg2,
    assembled_evaluate seg2 d kn h st Fint troot troot2 x0 ha I val J0 g,
    fun _ _ => rfl, ?_, ?_, ?_⟩
  · intro k j hj1 hj
    have hroot := ha.roots (j - 1) (by omega)
    exact lagrange_interpolation_interpolant seg2.U_poly _ _ hroot.1 hroot.2
      (by simp [hUd])
  · show J0 + ∑ k in Finset.range kn, (seg2.knot_graph I val k).Qf = _
    congr 1
    apply Finset.sum_congr rfl
    intro k _
    rw [sum_Icc_one]
    simp only [PseudospectralSegment.knot_graph, PseudospectralSegment.collocation_graph, hd,
      PseudospectralSegment.X0_value, PseudospectralSegment.U_value, ha.Uc_length, ha.h_eq,
      Nat.add_sub_cancel]
    apply Finset.sum_congr rfl
    intro i hi
    rw [dXc_value_getD seg2 val k d i ha.dXc_length (Finset.mem_range.mp hi)]
  · rw [(getElem?_append_pair g _ _).1]
    congr 2
    apply List.map_congr_left
    intro k _
    rw [map_range'_one]
    simp only [PseudospectralSegment.knot_graph, PseudospectralSegment.collocation_graph, hd,
      PseudospectralSegment.X0_value, PseudospectralSegment.U_value, ha.Uc_length, ha.h_eq,
      Nat.add_sub_cancel]
    apply List.map_congr_left
    intro i hi
    rw [dXc_value_getD seg2 val k d i ha.dXc_length (List.mem_range.mp hi)]
    simp only [PseudospectralSegment.dXc_value, ha.dXc_length]

theorem C17_cost_fold_witness :
    ∃ (seg seg1 seg2 : PseudospectralSegment ℚ)
      (res : PseudospectralSegment ℚ × ℚ × List (List ℚ))
      (x_c : Nat → Nat → ℚ) (u_c : Nat → Nat → ℚ),
      PseudospectralSegment.new equispaced_points ((3 : Nat) : Int) ((2 : Nat) : Int)
        (1 / 10 : ℚ) ⟨1, 1, 1⟩ scalar_Fint = Except.ok seg ∧
      seg.initialize_knot_segments (SX.sym "x0" 1 1) = Except.ok seg1 ∧
      seg1.initialize_expression_graph scalar_F scalar_L [] = Except.ok seg2 ∧
      seg2.evaluate_expression_graph (scenario_dynamics ℚ) sample_valuation 5
        ([] : List (List ℚ)) = Except.ok res ∧
      (∀ k j, x_c k j = (scenario_dynamics ℚ).Fint
        ((scenario_dynamics ℚ).Fint sample_valuation.x0 (sample_valuation.dX0 k) 1)
        (sample_valuation.dXc k (j - 1)) (seg2.dt j)) ∧
      (∀ k j, 1 ≤ j → j ≤ 3 →
        seg2.U_poly.lagrange_interpolation (seg2.dX_poly.tau_root.getD (j - 1) 0)
          ((List.range (3 - 1)).map (sample_valuation.U k)) = Except.ok (u_c k j)) ∧
      res.2.1 = 5 + ∑ k in Finset.range 2, ∑ j in Finset.Icc 1 3,
        seg2.dX_poly.B.getD j 0 * (scenario_dynamics ℚ).L (x_c k j) (u_c k j) * (1 / 10) ∧
      res.2.2[([] : List (List ℚ)).length]? = some (((List.range 2).map (fun k =>
        (List.range' 1 3).map (fun j =>
          (1 / 10 : ℚ) • (scenario_dynamics ℚ).F (x_c k j) (u_c k j)
          - seg2.dxp ((List.range 3).map (sample_valuation.dXc k))
              (sample_valuation.dX0 k) j))).flatten) :=
  C17_cost_fold equispaced_points 3 2 (1 / 10 : ℚ) ⟨1, 1, 1⟩ scalar_Fint scalar_F
    scalar_L [] [1 / 3, 2 / 3, 1] [1 / 2, 1] (SX.sym "x0" 1 1) scenario_valid
    (scenario_dynamics ℚ) sample_valuation 5 []

/-- C18: for a segment of degree `d` with `knot_num ≥ 1` knots and `nx = ndx`, on valid
arguments, the mapped defect function has one output of `d * nx` rows and `knot_num` columns,
the mapped end-state function one output of `ndx` rows and `knot_num` columns, and
`evaluate_expression_graph` appends to `g` exactly `knot_num` collocation-defect blocks of `d`
equations each (every equation of the shape `ndx × 1`) and `knot_num` continuity defects
(every one of the shape `ndx × 1`). -/
theorem C18_constraint_counts (collocation_points : Nat → Except Failure (List K))
    (d kn : Nat) (h : K) (st : States) (Fint F L : Function) (G : List (ConstraintData K))
    (troot troot2 : List K) (x0 : SX K)
    (hv : ValidSetup collocation_points d kn h st Fint F L G troot troot2 x0)
    (I : Dynamics K X V U) (val : Valuation X V U) (J0 : K) (g : List (List V)) :
    ∃ (seg seg1 seg2 : PseudospectralSegment K)
      (res : PseudospectralSegment K × K × List (List V)) (feq fxf : Function)
      (blocks : List (List V)) (cont : List V),
      PseudospectralSegment.new collocation_points (d : Int) (kn : Int) h st Fint
        = Except.ok seg ∧
      seg.initialize_knot_segments x0 = Except.ok seg1 ∧
      seg1.initialize_expression_graph F L G = Except.ok seg2 ∧
      seg2.evaluate_expression_graph I val J0 g = Except.ok res ∧
      seg2.collocation_constraint_map = some feq ∧ feq.size_out = [(d * st.nx, kn)] ∧
      seg2.xf_constraint_map = some fxf ∧ fxf.size_out = [(st.ndx, kn)] ∧
      res.2.2 = g ++ [blocks.flatten, cont] ∧
      blocks.length = kn ∧ (∀ b, b ∈ blocks → b.length = d) ∧ cont.length = kn := by
  obtain ⟨seg, seg1, seg2, hseg, hseg1, hseg2, ha⟩ :=
    assemble_ok collocation_points d kn h st Fint F L G troot troot2 x0 hv
  have hd : seg2.dX_poly.d = d := by rw [ha.dX_poly_eq, build_d]
  refine ⟨seg, seg1, seg2, _, _, _, (List.range kn).map (fun k => (seg2.knot_graph I val k).eq),
    _, hseg, hseg1, hseg2,
    assembled_evaluate seg2 d kn h st Fint troot troot2 x0 ha I val J0 g,
    ha.feq_eq, by rw [hv.nx_eq], ha.fxf_eq, rfl, rfl, by simp, ?_, by simp⟩
  intro b hb
  obtain ⟨k, -, rfl⟩ := List.mem_map.mp hb
  simp [PseudospectralSegment.knot_graph, PseudospectralSegment.collocation_graph, hd]

theorem C18_constraint_counts_witness :
    ∃ (seg seg1 seg2 : PseudospectralSegment ℚ)
      (res : PseudospectralSegment ℚ × ℚ × List (List ℚ)) (feq fxf : Function)
      (blocks : List (List ℚ)) (cont : List ℚ),
      PseudospectralSegment.new equispaced_points ((3 : Nat) : Int) ((2 : Nat) : Int)
        (1 / 10 : ℚ) ⟨1, 1, 1⟩ scalar_Fint = Except.ok seg ∧
      seg.initialize_knot_segments (SX.sym "x0" 1 1) = Except.ok seg1 ∧
      seg1.initialize_expression_graph scalar_F scalar_L [] = Except.ok seg2 ∧
      seg2.evaluate_expression_graph (scenario_dynamics ℚ) sample_valuation 0
        ([] : List (List ℚ)) = Except.ok res ∧
      seg2.collocation_constraint_map = some feq ∧ feq.size_out = [(3, 2)] ∧
      seg2.xf_constraint_map = some fxf ∧ fxf.size_out = [(1, 2)] ∧
      res.2.2 = [] ++ [blocks.flatten, cont] ∧
      blocks.length = 2 ∧ (∀ b, b ∈ blocks → b.length = 3) ∧ cont.length = 2 :=
  C18_constraint_counts equispaced_points 3 2 (1 / 10 : ℚ) ⟨1, 1, 1⟩ scalar_Fint scalar_F
    scalar_L [] [1 / 3, 2 / 3, 1] [1 / 2, 1] (SX.sym "x0" 1 1) scenario_valid
    (scenario_dynamics ℚ) sample_valuation 0 []

/-- C11 (failing input): the scenario segment (`d = 3`, `knot_num = 2`) assembled and then
evaluated on an empty `g`, and its bounds flattened onto empty `lbg`, `ubg`: two expressions
are appended to `g`, at the indices `0` and `1`, and the recorded range is `(1, 2)`; eight
bounds are appended to `lbg`, the first at index `0`, and the recorded range is `(1, 8)`. Both
ranges start one past the length of the vector before the call. -/
theorem C11_ranges_off_by_one :
    ∃ (seg seg1 seg2 : PseudospectralSegment ℚ)
      (res : PseudospectralSegment ℚ × ℚ × List (List ℚ)),
      PseudospectralSegment.new equispaced_points 3 2 (1 / 10 : ℚ) ⟨1, 1, 1⟩ scalar_Fint
        = Except.ok seg ∧
      seg.initialize_knot_segments (SX.sym "x0" 1 1) = Except.ok seg1 ∧
      seg1.initialize_expression_graph scalar_F scalar_L [] = Except.ok seg2 ∧
      seg2.evaluate_expression_graph (scenario_dynamics ℚ) sample_valuation 0
        ([] : List (List ℚ)) = Except.ok res ∧
      res.2.2.length = 2 ∧
      res.1.get_range_idx_constraint_expressions = (1, 2) ∧
      (seg2.fill_lbg_ubg [] []).2.1 = List.replicate 8 0 ∧
      (seg2.fill_lbg_ubg [] []).2.2 = List.replicate 8 0 ∧
      (seg2.fill_lbg_ubg [] []).1.get_range_idx_bg = (1, 8) := by
  obtain ⟨seg, seg1, seg2, hseg, hseg1, hseg2, ha⟩ :=
    assemble_ok equispaced_points 3 2 (1 / 10 : ℚ) ⟨1, 1, 1⟩ scalar_Fint scalar_F
      scalar_L [] [1 / 3, 2 / 3, 1] [1 / 2, 1] (SX.sym "x0" 1 1) scenario_valid
  refine ⟨seg, seg1, seg2, _, by exact_mod_cast hseg, hseg1, hseg2,
    assembled_evaluate seg2 3 2 (1 / 10 : ℚ) ⟨1, 1, 1⟩ scalar_Fint [1 / 3, 2 / 3, 1]
      [1 / 2, 1] (SX.sym "x0" 1 1) ha (scenario_dynamics ℚ) sample_valuation 0 [],
    rfl, rfl, ?_, ?_, ?_⟩
  · simp only [PseudospectralSegment.fill_lbg_ubg, ha.lbg_eq, List.nil_append]
  · simp only [PseudospectralSegment.fill_lbg_ubg, ha.ubg_eq, List.nil_append]
  · simp only [PseudospectralSegment.fill_lbg_ubg,
      PseudospectralSegment.get_range_idx_bg, ha.lbg_eq, List.nil_append,
      List.length_replicate, List.length_nil]

end GraphClaims

section KnotClaims

variable {K : Type} [LinearOrderedField K]

/-- On valid arguments the constructor and `initialize_knot_segments` return, with these knot
vectors. -/
theorem knot_segments_ok (collocation_points : Nat → Except Failure (List K)) (d kn : Nat)
    (h : K) (st : States) (Fint : Function) (troot troot2 : List K) (x0 : SX K)
    (hd : 0 < d) (hd10 : d < 10) (hh : 0 < h)
    (hin : Fint.size_in = [(st.nx, 1), (st.ndx, 1), (1, 1)])
    (hout : Fint.size_out = [(st.nx, 1)])
    (hcp : collocation_points d = Except.ok troot)
    (hcp2 : collocation_points (d - 1) = Except.ok troot2)
    (hx0 : x0.size = (st.nx, 1)) :
    ∃ seg seg1,
      PseudospectralSegment.new collocation_points (d : Int) (kn : Int) h st Fint
        = Except.ok seg ∧
      seg.initialize_knot_segments x0 = Except.ok seg1 ∧
      seg1.dXc_var_vec = (List.range kn).map
        (fun k => SX.sym ("dXc_" ++ toString k) (st.ndx * d) 1) ∧
      seg1.dX0_var_vec = (List.range (kn + 1)).map
        (fun k => SX.sym ("dX0_" ++ toString k) st.ndx 1) ∧
      seg1.U_var_vec = (List.range kn).map
        (fun k => SX.sym ("U_" ++ toString k) (st.nu * (d - 1)) 1) ∧
      seg1.X0_var_vec = (List.range (kn + 1)).map
        (fun k => SX.call Fint [x0, SX.sym ("dX0_" ++ toString k) st.ndx 1, SX.num 1] 0) := by
  obtain ⟨times, hnew⟩ := new_eq collocation_points d kn h st Fint troot troot2 hd hd10 hh
    hin hout hcp hcp2
  obtain ⟨seg, hseg, hdef⟩ := exists_of_eq_ok hnew
  have hx0s : x0.size = (seg.st_m.nx, 1) := by rw [hdef]; exact hx0
  obtain ⟨seg1, hseg1, hdef1⟩ := exists_of_eq_ok (initialize_knot_segments_eq seg x0 hx0s)
  refine ⟨seg, seg1, hseg, hseg1, ?_, ?_, ?_, ?_⟩
  · rw [hdef1, hdef]
    simp only [Int.toNat_ofNat, build_d]
  · rw [hdef1, hdef]
    simp only [toNat_succ_cast]
  · rw [hdef1, hdef]
    simp only [Int.toNat_ofNat, build_d]
  · rw [hdef1, hdef]
    simp only [toNat_succ_cast]

/-- C12: `fill_w` only appends. On a segment constructed and initialised on valid arguments,
for every prior content of `w` the first `|w|` entries after the call are those of `w`, and
the appended suffix consists of `knot_num` symbols `dXc_k` of size `ndx * d`, then
`knot_num + 1` symbols `dX0_k` of size `ndx`, then `knot_num` symbols `U_k` of size
`nu * (d - 1)`, that is `3 * knot_num + 1` blocks; none of the appended entries is one of the
boundary states `X0_k`. -/
theorem C12_fill_w_appends (collocation_points : Nat → Except Failure (List K)) (d kn : Nat)
    (h : K) (st : States) (Fint : Function) (troot troot2 : List K) (x0 : SX K)
    (hd : 0 < d) (hd10 : d < 10) (hh : 0 < h)
    (hin : Fint.size_in = [(st.nx, 1), (st.ndx, 1), (1, 1)])
    (hout : Fint.size_out = [(st.nx, 1)])
    (hcp : collocation_points d = Except.ok troot)
    (hcp2 : collocation_points (d - 1) = Except.ok troot2)
    (hx0 : x0.size = (st.nx, 1)) (w : List (SX K)) :
    ∃ seg seg1,
      PseudospectralSegment.new collocation_points (d : Int) (kn : Int) h st Fint
        = Except.ok seg ∧
      seg.initialize_knot_segments x0 = Except.ok seg1 ∧
      (seg1.fill_w w).2 = w
        ++ ((List.range kn).map (fun k => SX.sym ("dXc_" ++ toString k) (st.ndx * d) 1)
          ++ (List.range (kn + 1)).map (fun k => SX.sym ("dX0_" ++ toString k) st.ndx 1)
          ++ (List.range kn).map (fun k => SX.sym ("U_" ++ toString k) (st.nu * (d - 1)) 1)) ∧
      (seg1.fill_w w).2.take w.length = w ∧
      (seg1.fill_w w).2.length = w.length + (3 * kn + 1) ∧
      ∀ s, s ∈ (seg1.fill_w w).2.drop w.length → s ∉ seg1.X0_var_vec := by
  obtain ⟨seg, seg1, hseg, hseg1, hdXc, hdX0, hU, hX0⟩ :=
    knot_segments_ok collocation_points d kn h st Fint troot troot2 x0 hd hd10 hh hin hout
      hcp hcp2 hx0
  have hw := (fill_w_range seg1 w).1
  rw [hdXc, hdX0, hU] at hw
  refine ⟨seg, seg1, hseg, hseg1, hw, ?_, ?_, ?_⟩
  · rw [hw, List.take_left]
  · rw [hw]
    simp only [List.length_append, List.length_map, List.length_range]
    omega
  · intro s hs hmem
    rw [hw, List.drop_left] at hs
    rw [hX0] at hmem
    obtain ⟨k, -, rfl⟩ := List.mem_map.mp hmem
    simp at hs

theorem C12_fill_w_appends_witness :
    ∃ seg seg1,
      PseudospectralSegment.new equispaced_points ((3 : Nat) : Int) ((2 : Nat) : Int)
        (1 / 10 : ℚ) ⟨1, 1, 1⟩ scalar_Fint = Except.ok seg ∧
      seg.initialize_knot_segments (SX.sym "x0" 1 1) = Except.ok seg1 ∧
      (seg1.fill_w [SX.num 7]).2 = [SX.num 7]
        ++ ((List.range 2).map (fun k => SX.sym ("dXc_" ++ toString k) (1 * 3) 1)
          ++ (List.range (2 + 1)).map (fun k => SX.sym ("dX0_" ++ toString k) 1 1)
          ++ (List.range 2).map (fun k => SX.sym ("U_" ++ toString k) (1 * (3 - 1)) 1)) ∧
      (seg1.fill_w [SX.num 7]).2.take [SX.num (7 : ℚ)].length = [SX.num 7] ∧
      (seg1.fill_w [SX.num 7]).2.length = [SX.num (7 : ℚ)].length + (3 * 2 + 1) ∧
      ∀ s, s ∈ (seg1.fill_w [SX.num 7]).2.drop [SX.num (7 : ℚ)].length →
        s ∉ seg1.X0_var_vec :=
  C12_fill_w_appends equispaced_points 3 2 (1 / 10 : ℚ) ⟨1, 1, 1⟩ scalar_Fint
    [1 / 3, 2 / 3, 1] [1 / 2, 1] (SX.sym "x0" 1 1) (by decide) (by decide) (by norm_num)
    rfl rfl (by norm_num [equispaced_points, List.range_succ])
    (by norm_num [equispaced_points, List.range_succ]) rfl [SX.num 7]

/-- C20: on a segment constructed on valid arguments, after `initialize_knot_segments(x0)`
there are exactly `knot_num + 1` boundary deviations `dX0_k` and `knot_num + 1` boundary
states, the state of knot `k` being `Fint(x0, dX0_k, 1.0)`; `get_initial_state_deviant` and
`get_initial_state` return the pair for `k = 0`, `get_final_state_deviant` and
`get_final_state` the pair for `k = knot_num`. -/
theorem C20_boundary_states (collocation_points : Nat → Except Failure (List K)) (d kn : Nat)
    (h : K) (st : States) (Fint : Function) (troot troot2 : List K) (x0 : SX K)
    (hd : 0 < d) (hd10 : d < 10) (hh : 0 < h)
    (hin : Fint.size_in = [(st.nx, 1), (st.ndx, 1), (1, 1)])
    (hout : Fint.size_out = [(st.nx, 1)])
    (hcp : collocation_points d = Except.ok troot)
    (hcp2 : collocation_points (d - 1) = Except.ok troot2)
    (hx0 : x0.size = (st.nx, 1)) :
    ∃ (seg seg1 : PseudospectralSegment K) (dX0 : Nat → SX K),
      PseudospectralSegment.new collocation_points (d : Int) (kn : Int) h st Fint
        = Except.ok seg ∧
      seg.initialize_knot_segments x0 = Except.ok seg1 ∧
      seg1.dX0_var_vec.length = kn + 1 ∧
      seg1.X0_var_vec.length = kn + 1 ∧
      (∀ k, k ≤ kn → seg1.dX0_var_vec[k]? = some (dX0 k) ∧
        seg1.X0_var_vec[k]? = some (SX.call Fint [x0, dX0 k, SX.num 1] 0)) ∧
      seg1.get_initial_state_deviant = Except.ok (dX0 0) ∧
      seg1.get_initial_state = Except.ok (SX.call Fint [x0, dX0 0, SX.num 1] 0) ∧
      seg1.get_final_state_deviant = Except.ok (dX0 kn) ∧
      seg1.get_final_state = Except.ok (SX.call Fint [x0, dX0 kn, SX.num 1] 0) := by
  obtain ⟨seg, seg1, hseg, hseg1, -, hdX0, -, hX0⟩ :=
    knot_segments_ok collocation_points d kn h st Fint troot troot2 x0 hd hd10 hh hin hout
      hcp hcp2 hx0
  have hk : ∀ k, k ≤ kn → seg1.dX0_var_vec[k]?
        = some (SX.sym ("dX0_" ++ toString k) st.ndx 1) ∧
      seg1.X0_var_vec[k]?
        = some (SX.call Fint [x0, SX.sym ("dX0_" ++ toString k) st.ndx 1, SX.num 1] 0) := by
    intro k hk
    have hlt : k < kn + 1 := by omega
    rw [hdX0, hX0]
    simp [List.getElem?_range, hlt]
  have hl1 : seg1.dX0_var_vec.length = kn + 1 := by rw [hdX0]; simp
  have hl2 : seg1.X0_var_vec.length = kn + 1 := by rw [hX0]; simp
  refine ⟨seg, seg1, fun k => SX.sym ("dX0_" ++ toString k) st.ndx 1, hseg, hseg1, hl1, hl2,
    hk, ?_, ?_, ?_, ?_⟩
  · simp only [PseudospectralSegment.get_initial_state_deviant, at_index,
      (hk 0 (Nat.zero_le _)).1]
  · simp only [PseudospectralSegment.get_initial_state, at_index, (hk 0 (Nat.zero_le _)).2]
  · simp only [PseudospectralSegment.get_final_state_deviant, at_index, hl1,
      Nat.add_sub_cancel, (hk kn le_rfl).1]
  · simp only [PseudospectralSegment.get_final_state, at_index, hl2, Nat.add_sub_cancel,
      (hk kn le_rfl).2]

theorem C20_boundary_states_witness :
    ∃ (seg seg1 : PseudospectralSegment ℚ) (dX0 : Nat → SX ℚ),
      PseudospectralSegment.new equispaced_points ((3 : Nat) : Int) ((2 : Nat) : Int)
        (1 / 10 : ℚ) ⟨1, 1, 1⟩ scalar_Fint = Except.ok seg ∧
      seg.initialize_knot_segments (SX.sym "x0" 1 1) = Except.ok seg1 ∧
      seg1.dX0_var_vec.length = 2 + 1 ∧
      seg1.X0_var_vec.length = 2 + 1 ∧
      (∀ k, k ≤ 2 → seg1.dX0_var_vec[k]? = some (dX0 k) ∧
        seg1.X0_var_vec[k]?
          = some (SX.call scalar_Fint [SX.sym "x0" 1 1, dX0 k, SX.num 1] 0)) ∧
      seg1.get_initial_state_deviant = Except.ok (dX0 0) ∧
      seg1.get_initial_state
        = Except.ok (SX.call scalar_Fint [SX.sym "x0" 1 1, dX0 0, SX.num 1] 0) ∧
      seg1.get_final_state_deviant = Except.ok (dX0 2) ∧
      seg1.get_final_state
        = Except.ok (SX.call scalar_Fint [SX.sym "x0" 1 1, dX0 2, SX.num 1] 0) :=
  C20_boundary_states equispaced_points 3 2 (1 / 10 : ℚ) ⟨1, 1, 1⟩ scalar_Fint
    [1 / 3, 2 / 3, 1] [1 / 2, 1] (SX.sym "x0" 1 1) (by decide) (by decide) (by norm_num)
    rfl rfl (by norm_num [equispaced_points, List.range_succ])
    (by norm_num [equispaced_points, List.range_succ]) rfl

end KnotClaims

section CollocationClaims

/-- The segment that the constructor returns for degree 2 with the sample scheme. -/
theorem degree_two_segment :
    ∃ seg, PseudospectralSegment.new equispaced_points 2 2 (1 / 10 : ℚ) ⟨1, 1, 1⟩ scalar_Fint
        = Except.ok seg ∧
      seg.dX_poly = LagrangePolynomial.build 2 [1 / 2, 1] ∧
      seg.U_poly = LagrangePolynomial.build 1 [1] := by
  obtain ⟨seg, hseg, -, -, -, -, -, hpoly, hupoly, -⟩ :=
    new_ok equispaced_points 2 2 (1 / 10 : ℚ) ⟨1, 1, 1⟩ scalar_Fint [1 / 2, 1] [1]
      (by decide) (by decide) (by norm_num) rfl rfl
      (by norm_num [equispaced_points, List.range_succ])
      (by norm_num [equispaced_points, List.range_succ])
  exact ⟨seg, by exact_mod_cast hseg, hpoly, hupoly⟩

/-- The roots `0, 1/2, 1` are in `[0,1]`. -/
theorem degree_two_roots (i : Nat) :
    0 ≤ (LagrangePolynomial.build 2 [(1 / 2 : ℚ), 1]).tau_root.getD i 0 ∧
      (LagrangePolynomial.build 2 [(1 / 2 : ℚ), 1]).tau_root.getD i 0 ≤ 1 := by
  rw [build_tau_root]
  apply roots_unit_interval
  intro t ht
  simp only [List.mem_cons, List.mem_singleton, List.not_mem_nil, or_false] at ht
  rcases ht with rfl | rfl <;> norm_num

theorem C14_interpolated_derivative_witness :
    ∃ seg, PseudospectralSegment.new equispaced_points 2 2 (1 / 10 : ℚ) ⟨1, 1, 1⟩ scalar_Fint
        = Except.ok seg ∧
      (seg.dxp [(1 : ℚ), 2] 3 1
          = ∑ r in Finset.range (2 + 1),
              seg.dX_poly.C_at r 1 • (if r = 0 then 3 else [(1 : ℚ), 2].getD (r - 1) 0) ∧
        ∀ r, r ≤ 2 →
          seg.dX_poly.C_at r 1
            = (LagrangePolynomial.basis_p 2 (0 :: [(1 / 2 : ℚ), 1]) r).derivative.eval
                ((0 :: [(1 / 2 : ℚ), 1]).getD 1 0)) := by
  obtain ⟨seg, hseg, hpoly, -⟩ := degree_two_segment
  exact ⟨seg, hseg, C14_interpolated_derivative seg 2 [1 / 2, 1] hpoly [1, 2] 3 1
    (by decide) (by decide)⟩

end CollocationClaims

section ScenarioClaims

variable {K : Type} [LinearOrderedField K]

theorem build_B_getD (d : Nat) (troot : List K) (j : Nat) (hj : j ≤ d) :
    (LagrangePolynomial.build d troot).B.getD j 0
      = (LagrangePolynomial.basis_p d (0 :: troot) j).anti_derivative.eval 1 := by
  simp [build_B, List.getD_eq_getElem?_getD, List.getElem?_range, Nat.lt_succ_of_le hj]

/-- The quadrature weight `B[1]` of degree 3 with the roots `0, a, b, c`. -/
theorem cubic_weight_one (a b c : K) :
    (LagrangePolynomial.build 3 [a, b, c]).B.getD 1 0
      = a⁻¹ * (a - b)⁻¹ * (a - c)⁻¹ * (1 / 4 - (b + c) / 3 + b * c / 2) := by
  rw [build_B_getD 3 [a, b, c] 1 (by decide)]
  simp [LagrangePolynomial.basis_p, List.range_succ, casadi.Polynomial.mul,
    casadi.Polynomial.mul_row, casadi.Polynomial.div, casadi.Polynomial.linear,
    casadi.Polynomial.const, casadi.Polynomial.anti_derivative, casadi.Polynomial.eval]
  ring

/-- The quadrature weight `B[2]` of degree 3 with the roots `0, a, b, c`. -/
theorem cubic_weight_two (a b c : K) :
    (LagrangePolynomial.build 3 [a, b, c]).B.getD 2 0
      = b⁻¹ * (b - a)⁻¹ * (b - c)⁻¹ * (1 / 4 - (a + c) / 3 + a * c / 2) := by
  rw [build_B_getD 3 [a, b, c] 2 (by decide)]
  simp [LagrangePolynomial.basis_p, List.range_succ, casadi.Polynomial.mul,
    casadi.Polynomial.mul_row, casadi.Polynomial.div, casadi.Polynomial.linear,
    casadi.Polynomial.const, casadi.Polynomial.anti_derivative, casadi.Polynomial.eval]
  ring

/-- The quadrature weight `B[3]` of degree 3 with the roots `0, a, b, c`. -/
theorem cubic_weight_three (a b c : K) :
    (LagrangePolynomial.build 3 [a, b, c]).B.getD 3 0
      = c⁻¹ * (c - a)⁻¹ * (c - b)⁻¹ * (1 / 4 - (a + b) / 3 + a * b / 2) := by
  rw [build_B_getD 3 [a, b, c] 3 (by decide)]
  simp [LagrangePolynomial.basis_p, List.range_succ, casadi.Polynomial.mul,
    casadi.Polynomial.mul_row, casadi.Polynomial.div, casadi.Polynomial.linear,
    casadi.Polynomial.const, casadi.Polynomial.anti_derivative, casadi.Polynomial.eval]
  ring

/-- With the Legendre points of order 3 the quadrature weights `B[1]`, `B[2]`, `B[3]` are
not negative. -/
theorem legendre_weights_nonneg (i : Nat) (hi : i < 3) :
    0 ≤ (LagrangePolynomial.build 3 [(11270166537925831148 / 10 ^ 20 : K), 1 / 2,
      88729833462074168852 / 10 ^ 20]).B.getD (i + 1) 0 := by
  interval_cases i
  · rw [Nat.zero_add, cubic_weight_one]
    norm_num
  · rw [show 1 + 1 = 2 from rfl, cubic_weight_two]
    norm_num
  · rw [show 2 + 1 = 3 from rfl, cubic_weight_three]
    norm_num

/-- The arguments of the end-to-end scenario with the Legendre points are as in
`ValidSetup`. -/
theorem legendre_scenario_valid :
    ValidSetup (legendre_points K) 3 2 (1 / 10 : K) ⟨1, 1, 1⟩ scalar_Fint scalar_F scalar_L []
      [11270166537925831148 / 10 ^ 20, 1 / 2, 88729833462074168852 / 10 ^ 20]
      [21132486540518711775 / 10 ^ 20, 78867513459481288225 / 10 ^ 20] (SX.sym "x0" 1 1) :=
  { d_pos := by decide
    d_lt := by decide
    kn_pos := by decide
    h_pos := by norm_num
    nx_eq := rfl
    Fint_in := rfl
    Fint_out := rfl
    F_in := rfl
    F_out := rfl
    L_in := rfl
    L_out := rfl
    points := by simp [legendre_points]
    points2 := by simp [legendre_points]
    roots := by
      intro t ht
      simp only [List.mem_cons, List.mem_singleton, List.not_mem_nil, or_false] at ht
      rcases ht with rfl | rfl | rfl <;> norm_num
    x0_size := rfl
    no_global := by simp }

/-- C19: in the end-to-end scenario (one segment, `d = 3` with the Legendre collocation
points, `knot_num = 2`, `h = 0.1`, `nx = ndx = nu = 1`, `F(x,u) = u`, `L(x,u) = u²`,
`Fint(x,dx,dt) = x + dx`) the calls return and the cost that the fold produces from the
accumulator `0` is a scalar `≥ 0`, for every assignment of the control samples and state
deviations. -/
theorem C19_scenario_cost_nonneg (val : Valuation K K K) :
    ∃ (seg seg1 seg2 : PseudospectralSegment K)
      (res : PseudospectralSegment K × K × List (List K)),
      PseudospectralSegment.new (legendre_points K) 3 2 (1 / 10 : K) ⟨1, 1, 1⟩ scalar_Fint
        = Except.ok seg ∧
      seg.initialize_knot_segments (SX.sym "x0" 1 1) = Except.ok seg1 ∧
      seg1.initialize_expression_graph scalar_F scalar_L [] = Except.ok seg2 ∧
      seg2.evaluate_expression_graph (scenario_dynamics K) val 0 [] = Except.ok res ∧
      0 ≤ res.2.1 := by
  obtain ⟨seg, seg1, seg2, hseg, hseg1, hseg2, ha⟩ :=
    assemble_ok (legendre_points K) 3 2 (1 / 10 : K) ⟨1, 1, 1⟩ scalar_Fint scalar_F scalar_L []
      _ _ (SX.sym "x0" 1 1) legendre_scenario_valid
  refine ⟨seg, seg1, seg2, _, by exact_mod_cast hseg, hseg1, hseg2,
    assembled_evaluate seg2 3 2 (1 / 10 : K) ⟨1, 1, 1⟩ scalar_Fint _ _ (SX.sym "x0" 1 1) ha
      (scenario_dynamics K) val 0 [], ?_⟩
  show 0 ≤ 0 + ∑ k in Finset.range 2, (seg2.knot_graph (scenario_dynamics K) val k).Qf
  rw [zero_add]
  apply Finset.sum_nonneg
  intro k _
  simp only [PseudospectralSegment.knot_graph, PseudospectralSegment.collocation_graph,
    ha.dX_poly_eq, build_d, ha.h_eq]
  apply Finset.sum_nonneg
  intro i hi
  exact mul_nonneg (mul_nonneg (legendre_weights_nonneg i (Finset.mem_range.mp hi))
    (sq_nonneg _)) (by norm_num)

/-- The segment that the constructor returns in the end-to-end scenario with the Legendre
points. -/
theorem legendre_segment :
    ∃ seg, PseudospectralSegment.new (legendre_points ℚ) 3 2 (1 / 10 : ℚ) ⟨1, 1, 1⟩
        scalar_Fint = Except.ok seg ∧
      seg.dX_poly = LagrangePolynomial.build 3
        [11270166537925831148 / 10 ^ 20, 1 / 2, 88729833462074168852 / 10 ^ 20] ∧
      seg.U_poly = LagrangePolynomial.build 2
        [21132486540518711775 / 10 ^ 20, 78867513459481288225 / 10 ^ 20] := by
  obtain ⟨seg, hseg, -, -, -, -, -, hpoly, hupoly, -⟩ :=
    new_ok (legendre_points ℚ) 3 2 (1 / 10 : ℚ) ⟨1, 1, 1⟩ scalar_Fint _ _
      (by decide) (by decide) (by norm_num) rfl rfl
      (legendre_scenario_valid (K := ℚ)).points (legendre_scenario_valid (K := ℚ)).points2
  exact ⟨seg, by exact_mod_cast hseg, hpoly, hupoly⟩

/-- The derivative of basis polynomial 0 at root 1, degree 3 with the roots `0, a, b, c`. -/
theorem cubic_C_zero_one (a b c : K) :
    (LagrangePolynomial.build 3 [a, b, c]).C_at 0 1
      = -(a⁻¹ * b⁻¹ * c⁻¹) * ((a - b) * (a - c)) := by
  rw [build_C_at 3 [a, b, c] 0 1 (by decide) (by decide)]
  simp [LagrangePolynomial.basis_p, List.range_succ, casadi.Polynomial.mul,
    casadi.Polynomial.mul_row, casadi.Polynomial.div, casadi.Polynomial.linear,
    casadi.Polynomial.const, casadi.Polynomial.derivative, casadi.Polynomial.eval]
  ring

/-- The derivative of basis polynomial 1 at root 0, degree 3 with the roots `0, a, b, c`. -/
theorem cubic_C_one_zero (a b c : K) :
    (LagrangePolynomial.build 3 [a, b, c]).C_at 1 0
      = a⁻¹ * (a - b)⁻¹ * (a - c)⁻¹ * (b * c) := by
  rw [build_C_at 3 [a, b, c] 1 0 (by decide) (by decide)]
  simp [LagrangePolynomial.basis_p, List.range_succ, casadi.Polynomial.mul,
    casadi.Polynomial.mul_row, casadi.Polynomial.div, casadi.Polynomial.linear,
    casadi.Polynomial.const, casadi.Polynomial.derivative, casadi.Polynomial.eval]
  ring

/-- The interpolation of two samples by the basis of degree 2 with the roots `0, a, b`: the
loop runs over `j = 0, 1`. -/
theorem quadratic_interpolant (a b t u0 u1 : K) :
    (LagrangePolynomial.build 2 [a, b]).interpolant t [u0, u1]
      = ((t - a) / (0 - a) * ((t - b) / (0 - b))) * u0
        + ((t - 0) / (a - 0) * ((t - b) / (a - b))) * u1 := by
  unfold LagrangePolynomial.interpolant
  simp only [build_d, build_tau_root]
  have e0 : (Finset.range (2 + 1)).erase 0 = {1, 2} := by decide
  have e1 : (Finset.range (2 + 1)).erase 1 = {0, 2} := by decide
  rw [Finset.sum_range_succ, Finset.sum_range_one, e0, e1, Finset.prod_pair (by decide),
    Finset.prod_pair (by decide)]
  simp only [List.getD_cons_zero, List.getD_cons_succ, smul_eq_mul]

/-- C14 (as stated) fails: in the end-to-end scenario (`d = 3`, Legendre points
`τ_1 < τ_2 < τ_3`), with the deviations `dX0 = 1`, `dXc = [0, 0, 0]` and the collocation point
`j = 1`, the code's `dxp_1` is `C[0][1]`, the derivative of basis polynomial 0 at root 1, which
is negative, whereas the stated sum `Σ_r C[1][r] * dX[r]` is `C[1][0]`, the derivative of
basis polynomial 1 at root 0, which is positive. -/
theorem C14_transposed_index_counterexample :
    ∃ seg, PseudospectralSegment.new (legendre_points ℚ) 3 2 (1 / 10 : ℚ) ⟨1, 1, 1⟩
        scalar_Fint = Except.ok seg ∧
      seg.dxp [(0 : ℚ), 0, 0] 1 1 = seg.dX_poly.C_at 0 1 ∧
      seg.dxp [(0 : ℚ), 0, 0] 1 1 < 0 ∧
      ∑ r in Finset.range (3 + 1),
          seg.dX_poly.C_at 1 r • (if r = 0 then (1 : ℚ) else [(0 : ℚ), 0, 0].getD (r - 1) 0)
        = seg.dX_poly.C_at 1 0 ∧
      0 < ∑ r in Finset.range (3 + 1),
          seg.dX_poly.C_at 1 r • (if r = 0 then (1 : ℚ) else [(0 : ℚ), 0, 0].getD (r - 1) 0) := by
  obtain ⟨seg, hseg, hpoly, -⟩ := legendre_segment
  have h1 : seg.dxp [(0 : ℚ), 0, 0] 1 1 = seg.dX_poly.C_at 0 1 := by
    rw [dxp_eq, hpoly, build_d]
    simp [Finset.sum_range_succ]
  have h2 : ∑ r in Finset.range (3 + 1),
      seg.dX_poly.C_at 1 r • (if r = 0 then (1 : ℚ) else [(0 : ℚ), 0, 0].getD (r - 1) 0)
        = seg.dX_poly.C_at 1 0 := by
    simp [Finset.sum_range_succ]
  refine ⟨seg, hseg, h1, ?_, h2, ?_⟩
  · rw [h1, hpoly, cubic_C_zero_one]
    norm_num
  · rw [h2, hpoly, cubic_C_one_zero]
    norm_num

/-- C15 (failing input): the collocation loop of the end-to-end scenario (`d = 3`, Legendre
points, control basis of degree 2) on the control samples `Uc = [1, 0]`. The controls that the
loop pairs with the states of the collocation points `j = 1, 2, 3` are `1, v1, v2`, the
interpolation at `tau_0 = 0`, `tau_1`, `tau_2`, where `v1, v2, v3` are the results of the
interpolation at the abscissae `tau_1`, `tau_2`, `tau_3` of these points; the three pairs
differ, `v1 < 1`, `v2 < v1` and `v2 < v3`. -/
theorem C15_control_abscissa_shifted :
    ∃ seg graph v1 v2 v3,
      PseudospectralSegment.new (legendre_points ℚ) 3 2 (1 / 10 : ℚ) ⟨1, 1, 1⟩ scalar_Fint
        = Except.ok seg ∧
      seg.collocation_loop (scenario_dynamics ℚ) 0 [0, 0, 0] 0 [1, 0] = Except.ok graph ∧
      seg.U_poly.lagrange_interpolation (seg.dX_poly.tau_root.getD 1 0) [(1 : ℚ), 0]
        = Except.ok v1 ∧
      seg.U_poly.lagrange_interpolation (seg.dX_poly.tau_root.getD 2 0) [(1 : ℚ), 0]
        = Except.ok v2 ∧
      seg.U_poly.lagrange_interpolation (seg.dX_poly.tau_root.getD 3 0) [(1 : ℚ), 0]
        = Except.ok v3 ∧
      graph.u_at_c = [1, v1, v2] ∧
      v1 < 1 ∧ v2 < v1 ∧ v2 < v3 := by
  obtain ⟨seg, hseg, hpoly, hupoly⟩ := legendre_segment
  have hroots : ∀ i, 0 ≤ seg.dX_poly.tau_root.getD i 0 ∧ seg.dX_poly.tau_root.getD i 0 ≤ 1 := by
    intro i
    rw [hpoly, build_tau_root]
    exact roots_unit_interval _ (legendre_scenario_valid (K := ℚ)).roots i
  have hU : seg.U_poly.d ≤ [(1 : ℚ), 0].length := by rw [hupoly]; exact le_refl 2
  refine ⟨seg, _, _, _, _, hseg,
    collocation_loop_eq seg (scenario_dynamics ℚ) 0 [0, 0, 0] 0 [1, 0] (fun i _ => hroots i) hU,
    lagrange_interpolation_interpolant _ _ _ (hroots 1).1 (hroots 1).2 hU,
    lagrange_interpolation_interpolant _ _ _ (hroots 2).1 (hroots 2).2 hU,
    lagrange_interpolation_interpolant _ _ _ (hroots 3).1 (hroots 3).2 hU, ?_, ?_, ?_, ?_⟩
  · simp only [hpoly, hupoly, build_d, build_tau_root, quadratic_interpolant]
    norm_num [List.range_succ]
  · simp only [hpoly, hupoly, build_tau_root, quadratic_interpolant]
    norm_num
  · simp only [hpoly, hupoly, build_tau_root, quadratic_interpolant]
    norm_num
  · simp only [hpoly, hupoly, build_tau_root, quadratic_interpolant]
    norm_num

theorem C19_scenario_cost_nonneg_witness :
    ∃ (seg seg1 seg2 : PseudospectralSegment ℚ)
      (res : PseudospectralSegment ℚ × ℚ × List (List ℚ)),
      PseudospectralSegment.new (legendre_points ℚ) 3 2 (1 / 10 : ℚ) ⟨1, 1, 1⟩ scalar_Fint
        = Except.ok seg ∧
      seg.initialize_knot_segments (SX.sym "x0" 1 1) = Except.ok seg1 ∧
      seg1.initialize_expression_graph scalar_F scalar_L [] = Except.ok seg2 ∧
      seg2.evaluate_expression_graph (scenario_dynamics ℚ) sample_valuation 0 []
        = Except.ok res ∧
      0 ≤ res.2.1 :=
  C19_scenario_cost_nonneg sample_valuation

end ScenarioClaims

section FiniteDifference

variable {K V : Type} [LinearOrderedField K] [AddCommGroup V] [Module K V]

/-- The sum `dxp` over the deviations `dX[0] = dX0`, `dX[r] = dXc[r-1]`. -/
theorem dxp_sum (self : PseudospectralSegment K) (dXc : List V) (dX0 : V) (j : Nat) :
    self.dxp dXc dX0 j
      = ∑ r in Finset.range (self.dX_poly.d + 1),
          self.dX_poly.C_at r j • (if r = 0 then dX0 else dXc.getD (r - 1) 0) := by
  rw [dxp_eq, Finset.sum_range_succ', add_comm]
  simp

/-- C26 (failing input): the collocation loop of the end-to-end scenario (`d = 3`, Legendre
points `tau_1 < tau_2 < tau_3`, `h = 0.1`) with an integration map that returns its third
argument. The durations passed to `Fint` for the points `j = 1, 2, 3` are
`tau_j - tau_{j-1} * h`: for `j = 2` this is `0.5 - tau_1 * 0.1 > 0.48`, whereas
`(tau_2 - tau_1) * h < 0.04`. -/
theorem C26_duration_precedence :
    ∃ seg graph,
      PseudospectralSegment.new (legendre_points ℚ) 3 2 (1 / 10 : ℚ) ⟨1, 1, 1⟩ scalar_Fint
        = Except.ok seg ∧
      seg.h = 1 / 10 ∧
      seg.dX_poly.tau_root
        = [0, 11270166537925831148 / 10 ^ 20, 1 / 2, 88729833462074168852 / 10 ^ 20] ∧
      seg.collocation_loop
        ({ Fint := fun _ _ dt => dt
           F := fun _ u => u
           L := fun _ _ => 0
           general := fun _ _ _ _ _ => [] } : Dynamics ℚ ℚ ℚ ℚ) 0 [0, 0, 0] 0 [0, 0]
        = Except.ok graph ∧
      graph.x_at_c = [11270166537925831148 / 10 ^ 20 - 0 * (1 / 10),
        1 / 2 - 11270166537925831148 / 10 ^ 20 * (1 / 10),
        88729833462074168852 / 10 ^ 20 - 1 / 2 * (1 / 10)] ∧
      (48 / 100 : ℚ) < 1 / 2 - 11270166537925831148 / 10 ^ 20 * (1 / 10) ∧
      ((1 / 2 - 11270166537925831148 / 10 ^ 20) * (1 / 10) : ℚ) < 4 / 100 := by
  obtain ⟨seg, hseg, -, hh, -, -, -, hpoly, hupoly, -⟩ :=
    new_ok (legendre_points ℚ) 3 2 (1 / 10 : ℚ) ⟨1, 1, 1⟩ scalar_Fint _ _
      (by decide) (by decide) (by norm_num) rfl rfl
      (legendre_scenario_valid (K := ℚ)).points (legendre_scenario_valid (K := ℚ)).points2
  have hroots : ∀ i, 0 ≤ seg.dX_poly.tau_root.getD i 0 ∧ seg.dX_poly.tau_root.getD i 0 ≤ 1 := by
    intro i
    rw [hpoly, build_tau_root]
    exact roots_unit_interval _ (legendre_scenario_valid (K := ℚ)).roots i
  have hU : seg.U_poly.d ≤ [(0 : ℚ), 0].length := by rw [hupoly]; exact le_refl 2
  refine ⟨seg, _, by exact_mod_cast hseg, hh, by rw [hpoly]; rfl,
    collocation_loop_eq seg _ 0 [0, 0, 0] 0 [0, 0] (fun i _ => hroots i) hU, ?_,
    by norm_num, by norm_num⟩
  simp only [PseudospectralSegment.dt, hpoly, hh, build_d, build_tau_root]
  simp [List.range_succ]

end FiniteDifference

section GlobalConstraint

variable {K : Type} [LinearOrderedField K]

omit [LinearOrderedField K] in
/-- The shape test of casadi refuses a stack of `d + 1` states for an input of `d` columns of
one state. -/
theorem npar_stacked (d n : Nat) (hd : 1 ≤ d) (hn : 1 ≤ n) :
    Function.npar ((d + 1) * n, 1) (n, 1 * d) = none := by
  have hm : n < (d + 1) * n := by nlinarith
  have hm2 : n = 1 → (d + 1) * n = d + 1 := by intro h1; rw [h1, Nat.mul_one]
  generalize (d + 1) * n = m at hm hm2
  have c1 : ¬ ((m, 1) = (n, 1 * d)) := by
    intro hc
    have := (Prod.mk.injEq _ _ _ _).mp hc
    omega
  have c2 : ¬ (m = 0 ∨ (1 : Nat) = 0) := by omega
  have c3 : ¬ ((m, (1 : Nat)) = (1, 1)) := by
    intro hc
    have := (Prod.mk.injEq _ _ _ _).mp hc
    omega
  have c4 : ¬ ((m = 1 ∨ (1 : Nat) = 1) ∧ (n, 1 * d) = (1, m)) := by
    rintro ⟨-, hc⟩
    have := (Prod.mk.injEq _ _ _ _).mp hc
    omega
  have c5 : ¬ (m = n ∧ 0 < 1 * d ∧ 1 * d % 1 = 0) := by omega
  have c6 : ¬ (m = n ∧ 0 < 1 * d ∧ 1 % (1 * d) = 0) := by omega
  have c7 : ¬ ((m = 1 ∨ True) ∧ (n, 1 * d) = (1, m)) := fun hc => c4 ⟨Or.inr rfl, hc.2⟩
  simp only [Function.npar, c1, c2, c3, c5, c6, c7, if_false]

omit [LinearOrderedField K] in
/-- One pass of the first loop over `G` for a global contribution: the mapped call of `G` on
`vertcat(tmp_x)`, the stack of the `d` states `x_c` and of `X0`, is refused. -/
theorem constraint_map_step_global (seg : PseudospectralSegment K) (d ru : Nat)
    (sizes : GraphSizes) (acc : List Function × List tuple_size_t × Nat)
    (c : ConstraintData K) (hd : seg.dX_poly.d = d) (hd1 : 1 ≤ d) (hnx : 1 ≤ seg.st_m.ndx)
    (hnxeq : seg.st_m.nx = seg.st_m.ndx) (hX0 : seg.X0.size = (seg.st_m.nx, 1))
    (hx : sizes.x_at_c = List.replicate d (seg.st_m.ndx, 1))
    (hu : sizes.u_at_c = List.replicate d (ru, 1))
    (hg : c.global = true)
    (hin : c.G.size_in = [(seg.st_m.nx, 1), (seg.st_m.nu, 1)]) :
    seg.constraint_map_step sizes acc c
      = Except.error (Failure.casadi_error "Incorrect matrix shape for input") := by
  have hpos : (0 : Int) < (d : Int) := by omega
  simp only [PseudospectralSegment.constraint_map_step, assert, Function.n_in,
    Function.assert_size_in, hin, hg, hx, hu, hX0, hnxeq, hd, List.length_cons,
    List.length_nil, List.getElem?_cons_zero, List.getElem?_cons_succ, if_true, bind,
    Except.bind, pure, Except.pure, ← List.replicate_succ', vertcat_size_replicate,
    Function.map, hpos, Int.toNat_ofNat, Function.call, List.map_cons, List.map_nil,
    List.zip_cons_cons, map_each, npar_stacked d seg.st_m.ndx hd1 hnx]

/-- With a global contribution first in `G`, on a segment with at least one state dimension,
`initialize_expression_graph` ends in the exception of casadi for a call argument of the wrong
shape. -/
theorem global_constraint_refused (seg : PseudospectralSegment K) (F L : Function)
    (c : ConstraintData K) (G : List (ConstraintData K)) (d kn : Nat)
    (hr : GraphReady seg F L d kn) (hd1 : 1 ≤ d) (hnx : 1 ≤ seg.st_m.ndx)
    (hg : c.global = true)
    (hin : c.G.size_in = [(seg.st_m.nx, 1), (seg.st_m.nu, 1)]) :
    seg.initialize_expression_graph F L (c :: G)
      = Except.error (Failure.casadi_error "Incorrect matrix shape for input") := by
  have hkn : (0 : Int) < (kn : Int) := by have := hr.kn_pos; omega
  have hu : List.replicate d (if d - 1 = 0 then ((1 : Nat), (1 : Nat)) else (seg.st_m.nu, 1))
      = List.replicate d ((if d - 1 = 0 then 1 else seg.st_m.nu), 1) := by
    split <;> rfl
  have hstep := fun sizes acc hx hu2 => constraint_map_step_global seg d
    (if d - 1 = 0 then 1 else seg.st_m.nu) sizes acc c hr.d_eq hd1 hnx hr.nx_eq hr.X0_size
    hx hu2 hg hin
  simp only [PseudospectralSegment.initialize_expression_graph, assert, Function.n_in,
    Function.n_out, Function.assert_size_in, Function.assert_size_out, hr.F_in, hr.F_out,
    hr.L_in, hr.L_out, List.length_cons, List.length_nil, List.getElem?_cons_zero,
    List.getElem?_cons_succ, if_true, bind, Except.bind, pure, Except.pure,
    collocation_loop_size_ok seg F L d kn hr, hr.dXc_sizes, hr.Uc_sizes,
    vertcat_size_replicate, Function.map, Function.fold, hr.kn_eq, hkn, Int.toNat_ofNat,
    hr.X0_size, hr.dX0_size, hr.Lc_size, binary_size_self, List.map_cons,
    List.map_nil, List.take, List.drop, List.cons_append, List.nil_append, List.getD_cons_zero,
    one_mul, hr.no_maps, List.foldlM_cons, hu]
  rw [hstep _ _ rfl rfl]

end GlobalConstraint

section BroadcastShapes

variable {K : Type} [LinearOrderedField K]

omit [LinearOrderedField K] in
/-- The shape of `h * F(x_c, u_c) - dxp` when the dimensions agree or one of them is `1`. -/
theorem binary_size_dims (st : States) (h : st.nx = st.ndx ∨ st.nx = 1 ∨ st.ndx = 1) :
    binary_size (st.nx, 1) (st.ndx, 1) = Except.ok (defect_rows st, 1) := by
  unfold binary_size defect_rows
  by_cases h1 : st.nx = st.ndx
  · rw [if_pos (by rw [h1])]
    by_cases h2 : st.nx = 1
    · rw [if_pos h2, ← h1]
    · rw [if_neg h2]
  · have hne : ((st.nx, 1) : Nat × Nat) ≠ (st.ndx, 1) := by
      intro hc
      exact h1 (Prod.mk.inj hc).1
    rw [if_neg hne]
    by_cases h2 : st.nx = 1
    · rw [if_pos (by rw [h2]), if_pos h2]
    · have hne2 : ((st.nx, 1) : Nat × Nat) ≠ (1, 1) := by
        intro hc
        exact h2 (Prod.mk.inj hc).1
      have h3 : st.ndx = 1 := by
        rcases h with h | h | h
        · exact absurd h h1
        · exact absurd h h2
        · exact h
      rw [if_neg hne2, if_pos (by rw [h3]), if_neg h2]

/-- One pass of the collocation loop on shapes, for a segment as the constructor leaves it,
when the state and deviation dimensions need not agree. -/
theorem collocation_point_rows_ok (seg : PseudospectralSegment K) (F L : Function)
    (d kn r : Nat) (hr : BroadcastReady seg F L d kn (Except.ok (r, 1))) (acc : GraphSizes) (j : Nat)
    (hj1 : 1 ≤ j) (hj : j ≤ d) (hQf : acc.Qf = (1, 1)) (hdXf : acc.dXf = (seg.st_m.ndx, 1)) :
    seg.collocation_point_size F L acc j
      = Except.ok
        { eq := acc.eq ++ [(r, 1)]
          dXf := (seg.st_m.ndx, 1)
          Qf := (1, 1)
          x_at_c := acc.x_at_c ++ [(seg.st_m.nx, 1)]
          u_at_c := acc.u_at_c ++ [if d - 1 = 0 then (1, 1) else (seg.st_m.nu, 1)] } := by
  obtain ⟨e, he, hes⟩ := at_index_of_sizes seg.dXc d _ hr.dXc_sizes (j - 1) (by omega)
  have hdxp := dxp_size_upto seg d d le_rfl hr.dXc_sizes
  simp only [bind, Except.bind] at hdxp
  have hFint : seg.Fint.call [(seg.st_m.nx, 1), (seg.st_m.ndx, 1), (1, 1)]
      = Except.ok [(seg.st_m.nx, 1)] := by
    have h := call_ok seg.Fint [(seg.st_m.nx, 1), (seg.st_m.ndx, 1), (1, 1)]
      (by simp [Function.n_in, hr.Fint_in])
      (by
        intro p hp
        rw [hr.Fint_in] at hp
        simp at hp
        rcases hp with rfl | rfl | rfl <;> exact npar_self _)
    rw [h, hr.Fint_out]
  have hinterp : ∃ v, seg.U_poly.lagrange_interpolation
      (seg.dX_poly.tau_root.getD (j - 1) 0) (seg.Uc.map (fun _ => (0 : K))) = Except.ok v :=
    ⟨_, lagrange_interpolation_eq seg.U_poly _ _ (hr.roots (j - 1) (by omega)).1
      (hr.roots (j - 1) (by omega)).2
      (by
        have := congrArg List.length hr.Uc_sizes
        simp only [List.length_map, List.length_replicate] at this
        rw [List.length_map, this, hr.Ud_eq])⟩
  obtain ⟨v, hv⟩ := hinterp
  have hUc : (seg.Uc.take seg.U_poly.d).foldlM (fun s t => binary_size s t.size) (1, 1)
      = Except.ok (if d - 1 = 0 then (1, 1) else (seg.st_m.nu, 1)) := by
    rw [foldlM_sizes, List.map_take, hr.Uc_sizes, hr.Ud_eq, List.take_replicate, min_self]
    exact foldlM_binary_size_scalar _ _
  have hcall : ∀ f : Function, f.size_in = [(seg.st_m.nx, 1), (seg.st_m.nu, 1)] →
      f.call [(seg.st_m.nx, 1), if d - 1 = 0 then (1, 1) else (seg.st_m.nu, 1)]
        = Except.ok f.size_out := by
    intro f hf
    apply call_ok
    · simp [Function.n_in, hf]
    · intro p hp
      rw [hf] at hp
      simp at hp
      rcases hp with rfl | rfl
      · exact npar_self _
      · by_cases h0 : d - 1 = 0
        · simp only [h0, if_true]; exact npar_scalar _
        · simp only [h0, if_false]; exact npar_self _
  simp only [PseudospectralSegment.collocation_point_size, hr.d_eq, hr.dX0_size, hdxp, he, hes,
    hr.X0_size, hFint, hv, hUc, hcall F hr.F_in, hcall L hr.L_in, hr.F_out, hr.L_out,
    hQf, hdXf, hr.rows, binary_size_self, bind, Except.bind, pure, Except.pure,
    List.getElem?_cons_zero, Option.elim]

theorem collocation_loop_rows_upto (seg : PseudospectralSegment K) (F L : Function)
    (d kn r : Nat) (hr : BroadcastReady seg F L d kn (Except.ok (r, 1))) (m : Nat) (hm : m ≤ d) :
    (List.range' 1 m).foldlM (seg.collocation_point_size F L)
      { eq := [], dXf := (seg.st_m.ndx, 1), Qf := (1, 1), x_at_c := [], u_at_c := [] }
      = Except.ok
        { eq := List.replicate m (r, 1)
          dXf := (seg.st_m.ndx, 1)
          Qf := (1, 1)
          x_at_c := List.replicate m (seg.st_m.nx, 1)
          u_at_c := List.replicate m (if d - 1 = 0 then (1, 1) else (seg.st_m.nu, 1)) } := by
  induction m with
  | zero => rfl
  | succ m ih =>
    have h1 : 1 + 1 * m = m + 1 := by omega
    have hstep := collocation_point_rows_ok seg F L d kn r hr
      { eq := List.replicate m (r, 1)
        dXf := (seg.st_m.ndx, 1)
        Qf := (1, 1)
        x_at_c := List.replicate m (seg.st_m.nx, 1)
        u_at_c := List.replicate m (if d - 1 = 0 then (1, 1) else (seg.st_m.nu, 1)) }
      (m + 1) (by omega) hm rfl rfl
    rw [List.range'_concat, List.foldlM_append, ih (by omega), h1]
    simp only [List.foldlM_cons, List.foldlM_nil, bind, Except.bind, pure, Except.pure,
      hstep, List.replicate_succ']

theorem collocation_loop_rows_ok (seg : PseudospectralSegment K) (F L : Function)
    (d kn r : Nat) (hr : BroadcastReady seg F L d kn (Except.ok (r, 1))) :
    seg.collocation_loop_size F L
      = Except.ok
        { eq := List.replicate d (r, 1)
          dXf := (seg.st_m.ndx, 1)
          Qf := (1, 1)
          x_at_c := List.replicate d (seg.st_m.nx, 1)
          u_at_c := List.replicate d (if d - 1 = 0 then (1, 1) else (seg.st_m.nu, 1)) } := by
  unfold PseudospectralSegment.collocation_loop_size
  rw [hr.d_eq, hr.dX0_size]
  exact collocation_loop_rows_upto seg F L d kn r hr d le_rfl

/-- On a segment as the constructor and `initialize_knot_segments` leave it, with functions
`F` and `L` of the right shapes and no external constraint contribution,
`initialize_expression_graph` returns the segment with the three mapped functions assigned and
bound vectors of zeros, one entry per row of the two defect outputs. -/
theorem initialize_expression_graph_rows (seg : PseudospectralSegment K) (F L : Function)
    (d kn r : Nat) (hr : BroadcastReady seg F L d kn (Except.ok (r, 1))) :
    seg.initialize_expression_graph F L []
      = Except.ok { seg with
          collocation_constraint_map := some
            { name := "feq"
              size_in := [(seg.st_m.nx, kn), (d * seg.st_m.ndx, kn), (seg.st_m.ndx, kn),
                ((d - 1) * seg.st_m.nu, kn)]
              size_out := [(d * r, kn)] }
          xf_constraint_map := some
            { name := "fxf"
              size_in := [(seg.st_m.nx, kn), (d * seg.st_m.ndx, kn), (seg.st_m.ndx, kn),
                ((d - 1) * seg.st_m.nu, kn)]
              size_out := [(seg.st_m.ndx, kn)] }
          q_cost_fold := some
            { name := "fxq"
              size_in := [(1, 1), (seg.st_m.nx, kn), (d * seg.st_m.ndx, kn),
                (seg.st_m.ndx, kn), ((d - 1) * seg.st_m.nu, kn)]
              size_out := [(1, 1)] }
          general_constraint_maps := []
          general_lbg := List.replicate (d * r * kn + seg.st_m.ndx * kn) 0
          general_ubg := List.replicate (d * r * kn + seg.st_m.ndx * kn) 0 } := by
  have hkn : (0 : Int) < (kn : Int) := by have := hr.kn_pos; omega
  simp only [PseudospectralSegment.initialize_expression_graph, assert, Function.n_in,
    Function.n_out, Function.assert_size_in, Function.assert_size_out, hr.F_in, hr.F_out,
    hr.L_in, hr.L_out, List.length_cons, List.length_nil, List.getElem?_cons_zero,
    List.getElem?_cons_succ, if_true, bind, Except.bind, pure, Except.pure,
    collocation_loop_rows_ok seg F L d kn r hr, hr.dXc_sizes, hr.Uc_sizes,
    vertcat_size_replicate, Function.map, Function.fold, hr.kn_eq, hkn, Int.toNat_ofNat,
    hr.X0_size, hr.dX0_size, hr.Lc_size, binary_size_self, List.map_cons,
    List.map_nil, List.take, List.drop, List.cons_append, List.nil_append, List.getD_cons_zero,
    one_mul, List.foldlM_nil, hr.no_maps, hr.lbg_nil, hr.ubg_nil,
    List.take_replicate, min_self, slice_assign_all, List.range_zero]



/-- One pass of the collocation loop on shapes when the subtraction `h * F(x_c, u_c) - dxp`
has no result: the pass ends in that exception. -/
theorem collocation_point_rows_error (seg : PseudospectralSegment K) (F L : Function)
    (d kn : Nat) (e : Failure) (hr : BroadcastReady seg F L d kn (Except.error e))
    (acc : GraphSizes) (j : Nat) (hj1 : 1 ≤ j) (hj : j ≤ d) :
    seg.collocation_point_size F L acc j = Except.error e := by
  obtain ⟨e0, he, hes⟩ := at_index_of_sizes seg.dXc d _ hr.dXc_sizes (j - 1) (by omega)
  have hdxp := dxp_size_upto seg d d le_rfl hr.dXc_sizes
  simp only [bind, Except.bind] at hdxp
  have hFint : seg.Fint.call [(seg.st_m.nx, 1), (seg.st_m.ndx, 1), (1, 1)]
      = Except.ok [(seg.st_m.nx, 1)] := by
    have h := call_ok seg.Fint [(seg.st_m.nx, 1), (seg.st_m.ndx, 1), (1, 1)]
      (by simp [Function.n_in, hr.Fint_in])
      (by
        intro p hp
        rw [hr.Fint_in] at hp
        simp at hp
        rcases hp with rfl | rfl | rfl <;> exact npar_self _)
    rw [h, hr.Fint_out]
  have hinterp : ∃ v, seg.U_poly.lagrange_interpolation
      (seg.dX_poly.tau_root.getD (j - 1) 0) (seg.Uc.map (fun _ => (0 : K))) = Except.ok v :=
    ⟨_, lagrange_interpolation_eq seg.U_poly _ _ (hr.roots (j - 1) (by omega)).1
      (hr.roots (j - 1) (by omega)).2
      (by
        have := congrArg List.length hr.Uc_sizes
        simp only [List.length_map, List.length_replicate] at this
        rw [List.length_map, this, hr.Ud_eq])⟩
  obtain ⟨v, hv⟩ := hinterp
  have hUc : (seg.Uc.take seg.U_poly.d).foldlM (fun s t => binary_size s t.size) (1, 1)
      = Except.ok (if d - 1 = 0 then (1, 1) else (seg.st_m.nu, 1)) := by
    rw [foldlM_sizes, List.map_take, hr.Uc_sizes, hr.Ud_eq, List.take_replicate, min_self]
    exact foldlM_binary_size_scalar _ _
  have hcall : ∀ f : Function, f.size_in = [(seg.st_m.nx, 1), (seg.st_m.nu, 1)] →
      f.call [(seg.st_m.nx, 1), if d - 1 = 0 then (1, 1) else (seg.st_m.nu, 1)]
        = Except.ok f.size_out := by
    intro f hf
    apply call_ok
    · simp [Function.n_in, hf]
    · intro p hp
      rw [hf] at hp
      simp at hp
      rcases hp with rfl | rfl
      · exact npar_self _
      · by_cases h0 : d - 1 = 0
        · simp only [h0, if_true]; exact npar_scalar _
        · simp only [h0, if_false]; exact npar_self _
  simp only [PseudospectralSegment.collocation_point_size, hr.d_eq, hr.dX0_size, hdxp, he, hes,
    hr.X0_size, hFint, hv, hUc, hcall F hr.F_in, hr.F_out,
    hr.rows, bind, Except.bind, pure, Except.pure,
    List.getElem?_cons_zero, Option.elim]

/-- When the subtraction `h * F(x_c, u_c) - dxp` has no result, `initialize_expression_graph`
ends in that exception, in the first pass of its loop over the collocation points. -/
theorem initialize_expression_graph_mismatch (seg : PseudospectralSegment K) (F L : Function)
    (G : List (ConstraintData K)) (d kn : Nat) (e : Failure) (hd : 1 ≤ d)
    (hr : BroadcastReady seg F L d kn (Except.error e)) :
    seg.initialize_expression_graph F L G = Except.error e := by
  have hloop : seg.collocation_loop_size F L = Except.error e := by
    unfold PseudospectralSegment.collocation_loop_size
    obtain ⟨m, rfl⟩ : ∃ m, d = m + 1 := ⟨d - 1, by omega⟩
    rw [hr.d_eq, List.range'_succ, List.foldlM_cons,
      collocation_point_rows_error seg F L (m + 1) kn e hr _ 1 le_rfl (by omega)]
    rfl
  simp only [PseudospectralSegment.initialize_expression_graph, assert, Function.n_in,
    Function.n_out, Function.assert_size_in, Function.assert_size_out, hr.F_in, hr.F_out,
    hr.L_in, hr.L_out, List.length_cons, List.length_nil, List.getElem?_cons_zero,
    List.getElem?_cons_succ, if_true, bind, Except.bind, pure, Except.pure, hloop]

omit [LinearOrderedField K] in
/-- The subtraction of an `ndx × 1` operand from an `nx × 1` operand has no result when the
dimensions differ and neither is `1`. -/
theorem binary_size_mismatch (st : States) (h0 : st.nx ≠ st.ndx) (h1 : st.nx ≠ 1)
    (h2 : st.ndx ≠ 1) :
    binary_size (st.nx, 1) (st.ndx, 1)
      = Except.error (Failure.casadi_error "Dimension mismatch") := by
  unfold binary_size
  rw [if_neg (fun hc => h0 (Prod.mk.inj hc).1), if_neg (fun hc => h1 (Prod.mk.inj hc).1),
    if_neg (fun hc => h2 (Prod.mk.inj hc).1)]

/-- On arguments as in `BroadcastSetup` the constructor and `initialize_knot_segments` return
and leave the segment as in `BroadcastReady`. -/
theorem broadcast_ready_ok (collocation_points : Nat → Except Failure (List K))
    (d kn : Nat) (h : K) (st : States) (Fint F L : Function) (troot troot2 : List K)
    (x0 : SX K)
    (hv : BroadcastSetup collocation_points d kn h st Fint F L troot troot2 x0) :
    ∃ seg seg1,
      PseudospectralSegment.new collocation_points (d : Int) (kn : Int) h st Fint
        = Except.ok seg ∧
      seg.initialize_knot_segments x0 = Except.ok seg1 ∧
      BroadcastReady seg1 F L d kn (binary_size (st.nx, 1) (st.ndx, 1)) ∧
      seg1 = { seg with
        dXc_var_vec := (List.range kn).map
          (fun k => SX.sym ("dXc_" ++ toString k) (st.ndx * d) 1)
        U_var_vec := (List.range kn).map
          (fun k => SX.sym ("U_" ++ toString k) (st.nu * (d - 1)) 1)
        dX0_var_vec := (List.range (kn + 1)).map
          (fun k => SX.sym ("dX0_" ++ toString k) st.ndx 1)
        X0_var_vec := (List.range (kn + 1)).map
          (fun k => SX.call Fint [x0, SX.sym ("dX0_" ++ toString k) st.ndx 1, SX.num 1] 0) } ∧
      seg.knot_num = (kn : Int) ∧ seg.st_m = st ∧
      seg.dX_poly = LagrangePolynomial.build d troot ∧
      seg.U_poly.d ≤ seg.Uc.length ∧
      seg.collocation_constraint_map = none := by
  obtain ⟨times, hnew⟩ := new_eq collocation_points d kn h st Fint troot troot2 hv.d_pos
    hv.d_lt hv.h_pos hv.Fint_in hv.Fint_out hv.points hv.points2
  obtain ⟨seg, hseg, hdef⟩ := exists_of_eq_ok hnew
  have hx0 : x0.size = (seg.st_m.nx, 1) := by rw [hdef]; exact hv.x0_size
  obtain ⟨seg1, hseg1, hdef1⟩ := exists_of_eq_ok (initialize_knot_segments_eq seg x0 hx0)
  have hlen2 : (PseudospectralSegment.new_Uc d st : List (SX K)).length = d - 1 := by
    have := congrArg List.length (new_Uc_sizes (K := K) d st)
    simpa using this
  refine ⟨seg, seg1, hseg, hseg1, ?_, ?_, ?_, ?_, ?_, ?_, ?_⟩
  · rw [hdef1, hdef]
    exact
      { d_eq := rfl
        Ud_eq := rfl
        kn_eq := rfl
        kn_pos := hv.kn_pos
        dXc_sizes := new_dXc_sizes d st
        Uc_sizes := new_Uc_sizes d st
        X0_size := rfl
        dX0_size := rfl
        Lc_size := rfl
        Fint_in := hv.Fint_in
        Fint_out := hv.Fint_out
        F_in := hv.F_in
        F_out := hv.F_out
        L_in := hv.L_in
        L_out := hv.L_out
        rows := rfl
        roots := fun i _ => roots_unit_interval troot hv.roots i
        no_maps := rfl
        lbg_nil := rfl
        ubg_nil := rfl }
  · rw [hdef1, hdef]
    simp only [Int.toNat_ofNat, build_d, toNat_succ_cast]
  · rw [hdef]
  · rw [hdef]
  · rw [hdef]
  · rw [hdef]
    simp only [build_d, hlen2, le_refl]
  · rw [hdef]

/-- On arguments as in `BroadcastSetup` whose dimensions `nx` and `ndx` agree or of which one
is `1`, the constructor, `initialize_knot_segments` and `initialize_expression_graph` without
external constraint contributions return, with these mapped functions and bound vectors, and
`evaluate_expression_graph` returns on the result. -/
theorem broadcast_assemble_ok (collocation_points : Nat → Except Failure (List K))
    (d kn : Nat) (h : K) (st : States) (Fint F L : Function) (troot troot2 : List K)
    (x0 : SX K)
    (hv : BroadcastSetup collocation_points d kn h st Fint F L troot troot2 x0)
    (hdims : st.nx = st.ndx ∨ st.nx = 1 ∨ st.ndx = 1) :
    ∃ seg seg1 seg2,
      PseudospectralSegment.new collocation_points (d : Int) (kn : Int) h st Fint
        = Except.ok seg ∧
      seg.initialize_knot_segments x0 = Except.ok seg1 ∧
      seg1.initialize_expression_graph F L [] = Except.ok seg2 ∧
      seg2.collocation_constraint_map = some
        { name := "feq"
          size_in := [(st.nx, kn), (d * st.ndx, kn), (st.ndx, kn), ((d - 1) * st.nu, kn)]
          size_out := [(d * defect_rows st, kn)] } ∧
      seg2.xf_constraint_map = some
        { name := "fxf"
          size_in := [(st.nx, kn), (d * st.ndx, kn), (st.ndx, kn), ((d - 1) * st.nu, kn)]
          size_out := [(st.ndx, kn)] } ∧
      seg2.general_lbg = List.replicate (d * defect_rows st * kn + st.ndx * kn) 0 ∧
      seg2.general_ubg = List.replicate (d * defect_rows st * kn + st.ndx * kn) 0 ∧
      seg2.dX_poly.d = d ∧
      (∀ {X V U : Type} [AddCommGroup V] [Module K V] [AddCommGroup U] [Module K U]
        (I : Dynamics K X V U) (val : Valuation X V U) (J0 : K) (g : List (List V)),
        seg2.evaluate_expression_graph I val J0 g
          = Except.ok ({ seg2 with g_range := (g.length + 1, g.length + 2) },
              J0 + ∑ k in Finset.range kn, (seg2.knot_graph I val k).Qf,
              g ++ [((List.range kn).map (fun k => (seg2.knot_graph I val k).eq)).flatten,
                (List.range kn).map
                  (fun k => (seg2.knot_graph I val k).dXf - val.dX0 (k + 1))])) ∧
      seg2.knot_num = (kn : Int) ∧ seg2.st_m = st := by
  obtain ⟨seg, seg1, hseg, hseg1, hr, hdef1, hk, hst0, hpoly, hUc, -⟩ :=
    broadcast_ready_ok collocation_points d kn h st Fint F L troot troot2 x0 hv
  rw [binary_size_dims st hdims] at hr
  obtain ⟨seg2, hseg2, hdef2⟩ :=
    exists_of_eq_ok (initialize_expression_graph_rows seg1 F L d kn (defect_rows st) hr)
  have hst : seg1.st_m = st := by rw [hdef1]; exact hst0
  refine ⟨seg, seg1, seg2, hseg, hseg1, hseg2, ?_, ?_, ?_, ?_, ?_, ?_, ?_, ?_⟩
  · rw [hdef2, hst]
  · rw [hdef2, hst]
  · rw [hdef2, hst]
  · rw [hdef2, hst]
  · rw [hdef2]; exact hr.d_eq
  rotate_left
  · rw [hdef2]; exact hr.kn_eq
  · rw [hdef2, hst]
  · intro X V U _ _ _ _ I val J0 g
    refine evaluate_expression_graph_eq seg2 I val J0 g kn ?_ hv.kn_pos ?_ ?_ ?_ ?_ ?_ ?_ ?_ ?_
      ?_ ?_
    · rw [hdef2]; exact hr.kn_eq
    · rw [hdef2, hdef1]; simp
    · rw [hdef2, hdef1]; simp
    · rw [hdef2, hdef1]; simp
    · rw [hdef2, hdef1]; simp
    · rw [hdef2]; rfl
    · rw [hdef2]; rfl
    · rw [hdef2]; rfl
    · rw [hdef2]
    · intro i _
      rw [hdef2, hdef1]
      show 0 ≤ seg.dX_poly.tau_root.getD i 0 ∧ seg.dX_poly.tau_root.getD i 0 ≤ 1
      rw [hpoly, build_tau_root]
      exact roots_unit_interval troot hv.roots i
    · rw [hdef2, hdef1]
      exact hUc

/-- On arguments as in `BroadcastSetup` whose dimensions `nx` and `ndx` differ, neither being
`1`, the constructor and `initialize_knot_segments` return and `initialize_expression_graph`
ends in the dimension-mismatch exception of casadi: no such segment is built. -/
theorem dimension_mismatch_refused (collocation_points : Nat → Except Failure (List K))
    (d kn : Nat) (h : K) (st : States) (Fint F L : Function) (G : List (ConstraintData K))
    (troot troot2 : List K) (x0 : SX K)
    (hv : BroadcastSetup collocation_points d kn h st Fint F L troot troot2 x0)
    (h0 : st.nx ≠ st.ndx) (h1 : st.nx ≠ 1) (h2 : st.ndx ≠ 1) :
    ∃ seg seg1,
      PseudospectralSegment.new collocation_points (d : Int) (kn : Int) h st Fint
        = Except.ok seg ∧
      seg.initialize_knot_segments x0 = Except.ok seg1 ∧
      seg1.initialize_expression_graph F L G
        = Except.error (Failure.casadi_error "Dimension mismatch") := by
  obtain ⟨seg, seg1, hseg, hseg1, hr, -⟩ :=
    broadcast_ready_ok collocation_points d kn h st Fint F L troot troot2 x0 hv
  rw [binary_size_mismatch st h0 h1 h2] at hr
  exact ⟨seg, seg1, hseg, hseg1,
    initialize_expression_graph_mismatch seg1 F L G d kn _ hv.d_pos hr⟩

end BroadcastShapes

section BoundClaims

variable {K X V U : Type} [LinearOrderedField K] [AddCommGroup V] [Module K V]
  [AddCommGroup U] [Module K U]

omit [AddCommGroup V] [Module K V] [AddCommGroup U] [Module K U] in
/-- On arguments as in `ValidSetup`, whatever the constraint list, the constructor and
`initialize_knot_segments` return and leave the segment as in `GraphReady`. -/
theorem ready_ok (collocation_points : Nat → Except Failure (List K)) (d kn : Nat) (h : K)
    (st : States) (Fint F L : Function) (G : List (ConstraintData K)) (troot troot2 : List K)
    (x0 : SX K)
    (hv : ValidSetup collocation_points d kn h st Fint F L G troot troot2 x0) :
    ∃ seg seg1,
      PseudospectralSegment.new collocation_points (d : Int) (kn : Int) h st Fint
        = Except.ok seg ∧
      seg.initialize_knot_segments x0 = Except.ok seg1 ∧
      GraphReady seg1 F L d kn ∧ seg1.st_m = st := by
  obtain ⟨times, hnew⟩ := new_eq collocation_points d kn h st Fint troot troot2 hv.d_pos
    hv.d_lt hv.h_pos hv.Fint_in hv.Fint_out hv.points hv.points2
  obtain ⟨seg, hseg, hdef⟩ := exists_of_eq_ok hnew
  have hx0 : x0.size = (seg.st_m.nx, 1) := by rw [hdef]; exact hv.x0_size
  obtain ⟨seg1, hseg1, hdef1⟩ := exists_of_eq_ok (initialize_knot_segments_eq seg x0 hx0)
  refine ⟨seg, seg1, hseg, hseg1, ?_, ?_⟩
  · rw [hdef1, hdef]
    exact
      { d_eq := rfl
        Ud_eq := rfl
        kn_eq := rfl
        kn_pos := hv.kn_pos
        dXc_sizes := new_dXc_sizes d st
        Uc_sizes := new_Uc_sizes d st
        X0_size := rfl
        dX0_size := rfl
        Lc_size := rfl
        Fint_in := hv.Fint_in
        Fint_out := hv.Fint_out
        F_in := hv.F_in
        F_out := hv.F_out
        L_in := hv.L_in
        L_out := hv.L_out
        nx_eq := hv.nx_eq
        roots := fun i _ => roots_unit_interval troot hv.roots i
        no_maps := rfl
        lbg_nil := rfl
        ubg_nil := rfl }
  · rw [hdef1, hdef]

/-- C21 (amended): for a segment built on valid arguments with no external constraint
contribution, whose dimensions `nx` and `ndx` agree or of which one is `1`, the calls return,
the bound vectors that `fill_lbg_ubg` appends to `lbg` and to `ubg` are both all zeros, and
each has `knot_num * (d * r + ndx)` entries, where `r = defect_rows` is the number of rows of
one collocation-defect equation `h * F(x_c, u_c) - dxp_j`: `r = nx` when `nx = ndx` or
`ndx = 1`, and `r = ndx` when `nx = 1` (casadi broadcasts the one row of `F`). This is the
number of scalar rows of the defect blocks that `evaluate_expression_graph` appends:
`knot_num` collocation-defect blocks of `d` equations with `r` rows each (output of shape
`(d * r) × knot_num`) and `knot_num` continuity defects with `ndx` rows each (output of shape
`ndx × knot_num`). -/
theorem C21_equality_bounds (collocation_points : Nat → Except Failure (List K))
    (d kn : Nat) (h : K) (st : States) (Fint F L : Function)
    (troot troot2 : List K) (x0 : SX K)
    (hv : BroadcastSetup collocation_points d kn h st Fint F L troot troot2 x0)
    (hdims : st.nx = st.ndx ∨ st.nx = 1 ∨ st.ndx = 1)
    (I : Dynamics K X V U) (val : Valuation X V U) (J0 : K) (g : List (List V))
    (lbg ubg : List K) :
    ∃ (seg seg1 seg2 : PseudospectralSegment K)
      (res : PseudospectralSegment K × K × List (List V)) (feq fxf : Function)
      (blocks : List (List V)) (cont : List V),
      PseudospectralSegment.new collocation_points (d : Int) (kn : Int) h st Fint
        = Except.ok seg ∧
      seg.initialize_knot_segments x0 = Except.ok seg1 ∧
      seg1.initialize_expression_graph F L [] = Except.ok seg2 ∧
      seg2.evaluate_expression_graph I val J0 g = Except.ok res ∧
      (seg2.fill_lbg_ubg lbg ubg).2.1
        = lbg ++ List.replicate (kn * (d * defect_rows st + st.ndx)) 0 ∧
      (seg2.fill_lbg_ubg lbg ubg).2.2
        = ubg ++ List.replicate (kn * (d * defect_rows st + st.ndx)) 0 ∧
      seg2.collocation_constraint_map = some feq ∧
      feq.size_out = [(d * defect_rows st, kn)] ∧
      seg2.xf_constraint_map = some fxf ∧ fxf.size_out = [(st.ndx, kn)] ∧
      res.2.2 = g ++ [blocks.flatten, cont] ∧
      blocks.length = kn ∧ (∀ b, b ∈ blocks → b.length = d) ∧ cont.length = kn ∧
      (st.nx = st.ndx ∨ st.ndx = 1 → defect_rows st = st.nx) ∧
      (st.nx = 1 → defect_rows st = st.ndx) := by
  obtain ⟨seg, seg1, seg2, hseg, hseg1, hseg2, hfeq, hfxf, hlbg, hubg, hd, heval, -, -⟩ :=
    broadcast_assemble_ok collocation_points d kn h st Fint F L troot troot2 x0 hv hdims
  have hN : d * defect_rows st * kn + st.ndx * kn = kn * (d * defect_rows st + st.ndx) := by
    ring
  refine ⟨seg, seg1, seg2, _, _, _, (List.range kn).map (fun k => (seg2.knot_graph I val k).eq),
    _, hseg, hseg1, hseg2, heval I val J0 g, ?_, ?_, hfeq, rfl, hfxf, rfl, rfl, by simp, ?_,
    by simp, ?_, ?_⟩
  · simp only [PseudospectralSegment.fill_lbg_ubg, hlbg, hN]
  · simp only [PseudospectralSegment.fill_lbg_ubg, hubg, hN]
  · intro b hb
    obtain ⟨k, -, rfl⟩ := List.mem_map.mp hb
    simp [PseudospectralSegment.knot_graph, PseudospectralSegment.collocation_graph, hd]
  · intro hc
    unfold defect_rows
    by_cases h1 : st.nx = 1
    · rw [if_pos h1]
      rcases hc with hc | hc
      · exact hc.symm
      · rw [hc, h1]
    · rw [if_neg h1]
  · intro h1
    unfold defect_rows
    rw [if_pos h1]

theorem C21_equality_bounds_witness :
    ∃ (seg seg1 seg2 : PseudospectralSegment ℚ)
      (res : PseudospectralSegment ℚ × ℚ × List (List (Fin 3 → ℚ))) (feq fxf : Function)
      (blocks : List (List (Fin 3 → ℚ))) (cont : List (Fin 3 → ℚ)),
      PseudospectralSegment.new (legendre_points ℚ) ((3 : Nat) : Int) ((2 : Nat) : Int)
        (1 / 10 : ℚ) ⟨1, 3, 1⟩ wide_Fint = Except.ok seg ∧
      seg.initialize_knot_segments (SX.sym "x0" 1 1) = Except.ok seg1 ∧
      seg1.initialize_expression_graph scalar_F scalar_L [] = Except.ok seg2 ∧
      seg2.evaluate_expression_graph wide_dynamics wide_valuation 0
        ([] : List (List (Fin 3 → ℚ))) = Except.ok res ∧
      (seg2.fill_lbg_ubg [5] [6]).2.1 = [5] ++ List.replicate 24 0 ∧
      (seg2.fill_lbg_ubg [5] [6]).2.2 = [6] ++ List.replicate 24 0 ∧
      seg2.collocation_constraint_map = some feq ∧ feq.size_out = [(9, 2)] ∧
      seg2.xf_constraint_map = some fxf ∧ fxf.size_out = [(3, 2)] ∧
      res.2.2 = [] ++ [blocks.flatten, cont] ∧
      blocks.length = 2 ∧ (∀ b, b ∈ blocks → b.length = 3) ∧ cont.length = 2 ∧
      ((1 : Nat) = 3 ∨ (3 : Nat) = 1 → defect_rows ⟨1, 3, 1⟩ = 1) ∧
      ((1 : Nat) = 1 → defect_rows ⟨1, 3, 1⟩ = 3) :=
  C21_equality_bounds (legendre_points ℚ) 3 2 (1 / 10 : ℚ) ⟨1, 3, 1⟩ wide_Fint scalar_F
    scalar_L [11270166537925831148 / 10 ^ 20, 1 / 2, 88729833462074168852 / 10 ^ 20]
    [21132486540518711775 / 10 ^ 20, 78867513459481288225 / 10 ^ 20] (SX.sym "x0" 1 1)
    { d_pos := by decide
      d_lt := by decide
      kn_pos := by decide
      h_pos := by norm_num
      Fint_in := rfl
      Fint_out := rfl
      F_in := rfl
      F_out := rfl
      L_in := rfl
      L_out := rfl
      points := by simp [legendre_points]
      points2 := by simp [legendre_points]
      roots := (legendre_scenario_valid (K := ℚ)).roots
      x0_size := rfl }
    (Or.inr (Or.inl rfl)) wide_dynamics wide_valuation 0 [] [5] [6]

/-- C21 (as stated) fails: a segment of degree `d = 3` with `knot_num = 2`, `nx = 1`,
`ndx = 3`, `nu = 1` (Legendre points, `Fint` with the inputs `1×1`, `3×1`, `1×1` and the
output `1×1`, `F` and `L` with the inputs `1×1`, `1×1` and the output `1×1`) and no external
constraint contribution. The three calls return; the collocation-defect output has the shape
`9 × 2` and the continuity-defect output the shape `3 × 2`, and `fill_lbg_ubg` appends `24`
zeros to each of `lbg` and `ubg`, where `knot_num * (d * nx + ndx)` is `12`. -/
theorem C21_bound_count_counterexample :
    ∃ seg seg1 seg2 feq fxf,
      PseudospectralSegment.new (legendre_points ℚ) 3 2 (1 / 10 : ℚ) ⟨1, 3, 1⟩ wide_Fint
        = Except.ok seg ∧
      seg.initialize_knot_segments (SX.sym "x0" 1 1) = Except.ok seg1 ∧
      seg1.initialize_expression_graph scalar_F scalar_L [] = Except.ok seg2 ∧
      seg2.collocation_constraint_map = some feq ∧ feq.size_out = [(9, 2)] ∧
      seg2.xf_constraint_map = some fxf ∧ fxf.size_out = [(3, 2)] ∧
      (seg2.fill_lbg_ubg [] []).2.1 = List.replicate 24 0 ∧
      (seg2.fill_lbg_ubg [] []).2.2 = List.replicate 24 0 ∧
      9 * 2 + 3 * 2 = 24 ∧
      seg2.knot_num * ((3 : Int) * seg2.st_m.nx + seg2.st_m.ndx) = 12 := by
  have hv : BroadcastSetup (legendre_points ℚ) 3 2 (1 / 10 : ℚ) ⟨1, 3, 1⟩ wide_Fint scalar_F
      scalar_L [11270166537925831148 / 10 ^ 20, 1 / 2, 88729833462074168852 / 10 ^ 20]
      [21132486540518711775 / 10 ^ 20, 78867513459481288225 / 10 ^ 20] (SX.sym "x0" 1 1) :=
    { d_pos := by decide
      d_lt := by decide
      kn_pos := by decide
      h_pos := by norm_num
      Fint_in := rfl
      Fint_out := rfl
      F_in := rfl
      F_out := rfl
      L_in := rfl
      L_out := rfl
      points := by simp [legendre_points]
      points2 := by simp [legendre_points]
      roots := (legendre_scenario_valid (K := ℚ)).roots
      x0_size := rfl }
  obtain ⟨seg, seg1, seg2, hseg, hseg1, hseg2, hfeq, hfxf, hlbg, hubg, -, -, hk, hst⟩ :=
    broadcast_assemble_ok (legendre_points ℚ) 3 2 (1 / 10 : ℚ) ⟨1, 3, 1⟩ wide_Fint scalar_F
      scalar_L _ _ (SX.sym "x0" 1 1) hv (Or.inr (Or.inl rfl))
  refine ⟨seg, seg1, seg2, _, _, by exact_mod_cast hseg, hseg1, hseg2, hfeq, rfl, hfxf, rfl,
    ?_, ?_, rfl, ?_⟩
  · simp only [PseudospectralSegment.fill_lbg_ubg, hlbg, List.nil_append]
    rfl
  · simp only [PseudospectralSegment.fill_lbg_ubg, hubg, List.nil_append]
    rfl
  · rw [hk, hst]
    rfl

/-- C22 (failing input): the end-to-end scenario (`d = 3`, `knot_num = 2`,
`nx = ndx = nu = 1`) with one constraint contribution marked global whose `G` has the inputs
`1×1`, `1×1` and one residual. The constructor and `initialize_knot_segments` return;
`initialize_expression_graph` ends in the exception that casadi raises for a call argument of
the wrong shape, at the call of `G.map(d)` on `vertcat(tmp_x)`: no constraint row and no bound
entry is contributed. -/
theorem C22_global_constraint_refused :
    ∃ seg seg1,
      PseudospectralSegment.new (legendre_points ℚ) 3 2 (1 / 10 : ℚ) ⟨1, 1, 1⟩ scalar_Fint
        = Except.ok seg ∧
      seg.initialize_knot_segments (SX.sym "x0" 1 1) = Except.ok seg1 ∧
      sample_global_constraint.global = true ∧
      sample_global_constraint.G.size_out = [(1, 1)] ∧
      seg1.initialize_expression_graph scalar_F scalar_L [sample_global_constraint]
        = Except.error (Failure.casadi_error "Incorrect matrix shape for input") := by
  obtain ⟨seg, seg1, hseg, hseg1, hr, hst⟩ :=
    ready_ok (legendre_points ℚ) 3 2 (1 / 10 : ℚ) ⟨1, 1, 1⟩ scalar_Fint scalar_F scalar_L []
      _ _ (SX.sym "x0" 1 1) legendre_scenario_valid
  refine ⟨seg, seg1, by exact_mod_cast hseg, hseg1, rfl, rfl, ?_⟩
  exact global_constraint_refused seg1 scalar_F scalar_L sample_global_constraint [] 3 2 hr
    (by decide) (by rw [hst]) rfl (by rw [hst]; rfl)

end BoundClaims

section IndexClaims

variable {K X V U : Type} [LinearOrderedField K] [AddCommGroup V] [Module K V]
  [AddCommGroup U] [Module K U]

omit [LinearOrderedField K] [AddCommGroup V] [Module K V] [AddCommGroup U] [Module K U] in
theorem at_index_out {α : Type} (vec : List α) (i : Nat) (h : vec.length ≤ i) :
    at_index vec i = Except.error Failure.out_of_range := by
  simp [at_index, List.getElem?_eq_none h]

omit [AddCommGroup V] [Module K V] [AddCommGroup U] [Module K U] in
/-- With a negative number of knots the assertions and shape checks of the constructor pass
and `initialize_time_vector` ends in the exception of casadi for a negative dimension. -/
theorem new_negative_knots (collocation_points : Nat → Except Failure (List K)) (d : Nat)
    (knot_num : Int) (h : K) (st : States) (Fint : Function) (troot troot2 : List K)
    (hd : 0 < d) (hd10 : d < 10) (hh : 0 < h)
    (hin : Fint.size_in = [(st.nx, 1), (st.ndx, 1), (1, 1)])
    (hout : Fint.size_out = [(st.nx, 1)])
    (hcp : collocation_points d = Except.ok troot)
    (hcp2 : collocation_points (d - 1) = Except.ok troot2) (hneg : knot_num < 0) :
    PseudospectralSegment.new collocation_points (d : Int) knot_num h st Fint
      = Except.error (Failure.casadi_error "negative dimension") := by
  have hd1 : (0 : Int) < (d : Int) ∧ (d : Int) < 10 := by omega
  have hlt : knot_num * ((d : Int) + 1) + 1 < 0 := by
    have h1 : knot_num ≤ -1 := by omega
    have h2 : (2 : Int) ≤ (d : Int) + 1 := by omega
    nlinarith
  simp only [PseudospectralSegment.new, assert, Function.n_in, Function.n_out,
    Function.assert_size_in, Function.assert_size_out, hin, hout, hd1, hh,
    LagrangePolynomial.new, hcp, hcp2, Int.toNat_ofNat,
    PseudospectralSegment.initialize_time_vector, build_d, hlt, and_self, if_true,
    List.length_cons, List.length_nil, List.getElem?_cons_zero, List.getElem?_cons_succ,
    bind, Except.bind, Except.map, pure, Except.pure]

omit [AddCommGroup V] [Module K V] [AddCommGroup U] [Module K U] in
/-- On valid arguments the constructor and `initialize_knot_segments` return a segment with
these knot vectors, whose three mapped functions are not assigned and which has no general
constraint map. -/
theorem knot_segments_unassigned (collocation_points : Nat → Except Failure (List K))
    (d kn : Nat) (h : K) (st : States) (Fint : Function) (troot troot2 : List K) (x0 : SX K)
    (hd : 0 < d) (hd10 : d < 10) (hh : 0 < h)
    (hin : Fint.size_in = [(st.nx, 1), (st.ndx, 1), (1, 1)])
    (hout : Fint.size_out = [(st.nx, 1)])
    (hcp : collocation_points d = Except.ok troot)
    (hcp2 : collocation_points (d - 1) = Except.ok troot2)
    (hx0 : x0.size = (st.nx, 1)) :
    ∃ seg seg1,
      PseudospectralSegment.new collocation_points (d : Int) (kn : Int) h st Fint
        = Except.ok seg ∧
      seg.initialize_knot_segments x0 = Except.ok seg1 ∧
      seg1.knot_num = (kn : Int) ∧
      seg1.X0_var_vec.length = kn + 1 ∧ seg1.dX0_var_vec.length = kn + 1 ∧
      seg1.dXc_var_vec.length = kn ∧ seg1.U_var_vec.length = kn ∧
      seg1.collocation_constraint_map = none ∧ seg1.general_constraint_maps = [] ∧
      seg1.dX_poly = LagrangePolynomial.build d troot ∧
      seg1.U_poly.d ≤ seg1.Uc.length := by
  obtain ⟨times, hnew⟩ := new_eq collocation_points d kn h st Fint troot troot2 hd hd10 hh
    hin hout hcp hcp2
  obtain ⟨seg, hseg, hdef⟩ := exists_of_eq_ok hnew
  have hx0s : x0.size = (seg.st_m.nx, 1) := by rw [hdef]; exact hx0
  obtain ⟨seg1, hseg1, hdef1⟩ := exists_of_eq_ok (initialize_knot_segments_eq seg x0 hx0s)
  have hlen2 : (PseudospectralSegment.new_Uc d st : List (SX K)).length = d - 1 := by
    have := congrArg List.length (new_Uc_sizes (K := K) d st)
    simpa using this
  refine ⟨seg, seg1, hseg, hseg1, ?_, ?_, ?_, ?_, ?_, ?_, ?_, ?_, ?_⟩
  · rw [hdef1, hdef]
  · rw [hdef1, hdef]; simp [toNat_succ_cast]
  · rw [hdef1, hdef]; simp [toNat_succ_cast]
  · rw [hdef1, hdef]; simp
  · rw [hdef1, hdef]; simp
  · rw [hdef1, hdef]
  · rw [hdef1, hdef]
  · rw [hdef1, hdef]
  · rw [hdef1, hdef]
    simp only [build_d, hlen2, le_refl]

/-- C29: for a segment constructed on valid arguments with `knot_num ≥ 1` and initialised by
`initialize_knot_segments`, the vectors `X0_var_vec`, `dX0_var_vec` have `knot_num + 1`
entries and `dXc_var_vec`, `U_var_vec` have `knot_num` entries, every read at an index
`0 .. knot_num`, respectively `0 .. knot_num - 1`, is within bounds, and so is every read of
`evaluate_expression_graph`: its loop over the knots returns, with `knot_num` columns; on the
segment as initialised the call ends only after the reads, at the call of the first mapped
function, which `initialize_expression_graph` has not assigned yet; and once the three mapped
functions are assigned (and the collocation points are in `[0,1]`) the call returns. For every
`knot_num ≤ 0` no assertion of the constructor fails, and in every segment that is constructed
and initialised the reads `X0_var_vec[1]`, `dXc_var_vec[0]` and `U_var_vec[0]` are past the
end, so that `evaluate_expression_graph` has no result; with `knot_num = 0` such a segment is
constructed and initialised. -/
theorem C29_knot_vector_bounds (collocation_points : Nat → Except Failure (List K))
    (d kn : Nat) (h : K) (st : States) (Fint : Function) (troot troot2 : List K)
    (x0 : SX K) (hd : 0 < d) (hd10 : d < 10) (hh : 0 < h)
    (hin : Fint.size_in = [(st.nx, 1), (st.ndx, 1), (1, 1)])
    (hout : Fint.size_out = [(st.nx, 1)])
    (hcp : collocation_points d = Except.ok troot)
    (hcp2 : collocation_points (d - 1) = Except.ok troot2)
    (hx0 : x0.size = (st.nx, 1)) (hkn : 1 ≤ kn) :
    (∃ seg seg1,
      PseudospectralSegment.new collocation_points (d : Int) (kn : Int) h st Fint
        = Except.ok seg ∧
      seg.initialize_knot_segments x0 = Except.ok seg1 ∧
      seg1.X0_var_vec.length = kn + 1 ∧ seg1.dX0_var_vec.length = kn + 1 ∧
      seg1.dXc_var_vec.length = kn ∧ seg1.U_var_vec.length = kn ∧
      (∀ i, i ≤ kn → ∃ a b, at_index seg1.X0_var_vec i = Except.ok a ∧
        at_index seg1.dX0_var_vec i = Except.ok b) ∧
      (∀ i, i < kn → ∃ a b, at_index seg1.dXc_var_vec i = Except.ok a ∧
        at_index seg1.U_var_vec i = Except.ok b) ∧
      ∀ (I : Dynamics K X V U) (val : Valuation X V U) (J0 : K) (g : List (List V)),
        (∃ cols, (List.range' 1 (seg1.knot_num.toNat - 1)).foldlM (seg1.knot_column I val)
            { xs_offset := [PseudospectralSegment.X0_value I val 1]
              dxs_offset := [val.dX0 1]
              xs := [PseudospectralSegment.X0_value I val 0]
              dxs := [val.dX0 0]
              dxcs := [seg1.dXc_value val 0]
              us := [seg1.U_value val 0] } = Except.ok cols ∧
          cols.xs_offset.length = kn ∧ cols.xs.length = kn) ∧
        seg1.evaluate_expression_graph I val J0 g
          = Except.error (Failure.casadi_error "call of a null function") ∧
        ((∀ t, t ∈ troot → 0 ≤ t ∧ t ≤ 1) → ∀ feq fxf fxq : Function, ∃ res,
          PseudospectralSegment.evaluate_expression_graph
            { seg1 with
              collocation_constraint_map := some feq
              xf_constraint_map := some fxf
              q_cost_fold := some fxq } I val J0 g = Except.ok res)) ∧
    (∀ knot_num : Int, knot_num ≤ 0 →
      (∀ msg, PseudospectralSegment.new collocation_points (d : Int) knot_num h st Fint
        ≠ Except.error (Failure.assertion msg)) ∧
      ∀ seg seg1,
        PseudospectralSegment.new collocation_points (d : Int) knot_num h st Fint
          = Except.ok seg →
        seg.initialize_knot_segments x0 = Except.ok seg1 →
        at_index seg1.X0_var_vec 1 = Except.error Failure.out_of_range ∧
        at_index seg1.dXc_var_vec 0 = Except.error Failure.out_of_range ∧
        at_index seg1.U_var_vec 0 = Except.error Failure.out_of_range ∧
        ∀ (I : Dynamics K X V U) (val : Valuation X V U) (J0 : K) (g : List (List V)),
          seg1.evaluate_expression_graph I val J0 g
            = Except.error Failure.out_of_range) ∧
    (∃ seg seg1,
      PseudospectralSegment.new collocation_points (d : Int) 0 h st Fint = Except.ok seg ∧
      seg.initialize_knot_segments x0 = Except.ok seg1) := by
  have hzero : ∃ seg seg1,
      PseudospectralSegment.new collocation_points (d : Int) 0 h st Fint = Except.ok seg ∧
      seg.initialize_knot_segments x0 = Except.ok seg1 ∧
      seg1.X0_var_vec.length = 1 ∧ seg1.dXc_var_vec.length = 0 ∧
      seg1.U_var_vec.length = 0 := by
    obtain ⟨seg, seg1, hseg, hseg1, hdXc, -, hU, hX0⟩ :=
      knot_segments_ok collocation_points d 0 h st Fint troot troot2 x0 hd hd10 hh hin hout
        hcp hcp2 hx0
    exact ⟨seg, seg1, by exact_mod_cast hseg, hseg1, by rw [hX0]; rfl, by rw [hdXc]; rfl,
      by rw [hU]; rfl⟩
  refine ⟨?_, ?_, ?_⟩
  · obtain ⟨seg, seg1, hseg, hseg1, hk, l1, l2, l3, l4, hnone, hgen, hpoly, hUc⟩ :=
      knot_segments_unassigned collocation_points d kn h st Fint troot troot2 x0 hd hd10 hh
        hin hout hcp hcp2 hx0
    have htoNat : seg1.knot_num.toNat = kn := by rw [hk]; exact Int.toNat_ofNat kn
    refine ⟨seg, seg1, hseg, hseg1, l1, l2, l3, l4, ?_, ?_, ?_⟩
    · intro i hi
      exact ⟨_, _, at_index_ok _ i (by omega), at_index_ok _ i (by omega)⟩
    · intro i hi
      exact ⟨_, _, at_index_ok _ i (by omega), at_index_ok _ i (by omega)⟩
    · intro I val J0 g
      have hcols := knot_columns_upto seg1 I val (kn - 1) (by omega) (by omega) (by omega)
        (by omega)
      rw [Nat.sub_add_cancel hkn] at hcols
      refine ⟨⟨_, by rw [htoNat]; exact hcols, by simp, by simp⟩, ?_, ?_⟩
      · simp only [PseudospectralSegment.evaluate_expression_graph,
          at_index_ok seg1.X0_var_vec 1 (by omega), at_index_ok seg1.dX0_var_vec 1 (by omega),
          at_index_ok seg1.X0_var_vec 0 (by omega), at_index_ok seg1.dX0_var_vec 0 (by omega),
          at_index_ok seg1.U_var_vec 0 (by omega), at_index_ok seg1.dXc_var_vec 0 (by omega),
          htoNat, hcols, hnone, bind, Except.bind, pure, Except.pure, Option.elim]
      · intro hroots feq fxf fxq
        exact ⟨_, evaluate_expression_graph_eq _ I val J0 g kn hk hkn l1 l2 l3 l4 rfl rfl rfl
          hgen (fun i _ => by
            show 0 ≤ seg1.dX_poly.tau_root.getD i 0 ∧ seg1.dX_poly.tau_root.getD i 0 ≤ 1
            rw [hpoly, build_tau_root]
            exact roots_unit_interval troot hroots i) hUc⟩
  · intro knot_num hle
    rcases lt_or_eq_of_le hle with hneg | hz
    · have hnew := new_negative_knots collocation_points d knot_num h st Fint troot troot2 hd
        hd10 hh hin hout hcp hcp2 hneg
      refine ⟨?_, ?_⟩
      · intro msg hmsg
        rw [hnew] at hmsg
        simp at hmsg
      · intro seg seg1 hseg
        rw [hnew] at hseg
        simp at hseg
    · subst hz
      obtain ⟨seg0, seg01, hseg0, hseg01, l1, l3, l4⟩ := hzero
      refine ⟨?_, ?_⟩
      · intro msg hmsg
        rw [hseg0] at hmsg
        simp at hmsg
      · intro seg seg1 hseg hseg1
        rw [hseg0] at hseg
        obtain rfl := Except.ok.inj hseg
        rw [hseg01] at hseg1
        obtain rfl := Except.ok.inj hseg1
        have r1 := at_index_out seg01.X0_var_vec 1 (by omega)
        refine ⟨r1, at_index_out _ 0 (by omega), at_index_out _ 0 (by omega), ?_⟩
        intro I val J0 g
        simp only [PseudospectralSegment.evaluate_expression_graph, r1, bind, Except.bind]
  · obtain ⟨seg0, seg01, hseg0, hseg01, -⟩ := hzero
    exact ⟨seg0, seg01, hseg0, hseg01⟩

theorem C29_knot_vector_bounds_witness :
    (∃ seg seg1,
      PseudospectralSegment.new equispaced_points ((3 : Nat) : Int) ((2 : Nat) : Int)
        (1 / 10 : ℚ) ⟨1, 1, 1⟩ scalar_Fint = Except.ok seg ∧
      seg.initialize_knot_segments (SX.sym "x0" 1 1) = Except.ok seg1 ∧
      seg1.X0_var_vec.length = 2 + 1 ∧ seg1.dX0_var_vec.length = 2 + 1 ∧
      seg1.dXc_var_vec.length = 2 ∧ seg1.U_var_vec.length = 2 ∧
      (∀ i, i ≤ 2 → ∃ a b, at_index seg1.X0_var_vec i = Except.ok a ∧
        at_index seg1.dX0_var_vec i = Except.ok b) ∧
      (∀ i, i < 2 → ∃ a b, at_index seg1.dXc_var_vec i = Except.ok a ∧
        at_index seg1.U_var_vec i = Except.ok b) ∧
      ∀ (I : Dynamics ℚ ℚ ℚ ℚ) (val : Valuation ℚ ℚ ℚ) (J0 : ℚ) (g : List (List ℚ)),
        (∃ cols, (List.range' 1 (seg1.knot_num.toNat - 1)).foldlM (seg1.knot_column I val)
            { xs_offset := [PseudospectralSegment.X0_value I val 1]
              dxs_offset := [val.dX0 1]
              xs := [PseudospectralSegment.X0_value I val 0]
              dxs := [val.dX0 0]
              dxcs := [seg1.dXc_value val 0]
              us := [seg1.U_value val 0] } = Except.ok cols ∧
          cols.xs_offset.length = 2 ∧ cols.xs.length = 2) ∧
        seg1.evaluate_expression_graph I val J0 g
          = Except.error (Failure.casadi_error "call of a null function") ∧
        ((∀ t, t ∈ [(1 / 3 : ℚ), 2 / 3, 1] → 0 ≤ t ∧ t ≤ 1) →
          ∀ feq fxf fxq : Function, ∃ res,
            PseudospectralSegment.evaluate_expression_graph
              { seg1 with
                collocation_constraint_map := some feq
                xf_constraint_map := some fxf
                q_cost_fold := some fxq } I val J0 g = Except.ok res)) ∧
    (∀ knot_num : Int, knot_num ≤ 0 →
      (∀ msg, PseudospectralSegment.new equispaced_points ((3 : Nat) : Int) knot_num
          (1 / 10 : ℚ) ⟨1, 1, 1⟩ scalar_Fint ≠ Except.error (Failure.assertion msg)) ∧
      ∀ seg seg1,
        PseudospectralSegment.new equispaced_points ((3 : Nat) : Int) knot_num (1 / 10 : ℚ)
          ⟨1, 1, 1⟩ scalar_Fint = Except.ok seg →
        seg.initialize_knot_segments (SX.sym "x0" 1 1) = Except.ok seg1 →
        at_index seg1.X0_var_vec 1 = Except.error Failure.out_of_range ∧
        at_index seg1.dXc_var_vec 0 = Except.error Failure.out_of_range ∧
        at_index seg1.U_var_vec 0 = Except.error Failure.out_of_range ∧
        ∀ (I : Dynamics ℚ ℚ ℚ ℚ) (val : Valuation ℚ ℚ ℚ) (J0 : ℚ) (g : List (List ℚ)),
          seg1.evaluate_expression_graph I val J0 g
            = Except.error Failure.out_of_range) ∧
    (∃ seg seg1,
      PseudospectralSegment.new equispaced_points ((3 : Nat) : Int) 0 (1 / 10 : ℚ)
        ⟨1, 1, 1⟩ scalar_Fint = Except.ok seg ∧
      seg.initialize_knot_segments (SX.sym "x0" 1 1) = Except.ok seg1) :=
  C29_knot_vector_bounds equispaced_points 3 2 (1 / 10 : ℚ) ⟨1, 1, 1⟩ scalar_Fint
    [1 / 3, 2 / 3, 1] [1 / 2, 1] (SX.sym "x0" 1 1) (by decide) (by decide) (by norm_num)
    rfl rfl (by norm_num [equispaced_points, List.range_succ])
    (by norm_num [equispaced_points, List.range_succ]) rfl (by decide)

end IndexClaims

section Exactness

open Polynomial

variable {K : Type} [Field K]

/-- The library method `derivative` on coefficient vectors denotes the derivative of the
polynomial. -/
theorem listPoly_derivative (p : casadi.Polynomial K) :
    listPoly p.derivative.p_ = derivative (listPoly p.p_) := by
  ext k
  rw [coeff_listPoly, coeff_derivative, coeff_listPoly]
  unfold casadi.Polynomial.derivative
  simp only [List.getD_eq_getElem?_getD, List.getElem?_map]
  by_cases hk : k < p.p_.length - 1
  · rw [List.getElem?_range hk]
    simp [mul_comm]
  · have h1 : (List.range (p.p_.length - 1))[k]? = none := by
      rw [List.getElem?_eq_none]
      simpa using hk
    have h2 : p.p_[k + 1]? = none := by
      rw [List.getElem?_eq_none]
      omega
    simp [h1, h2]

/-- The continuity weight `D[j]` is the value at `1` of the Lagrange basis polynomial. -/
theorem build_D_getD (d : Nat) (troot : List K) (j : Nat) (hj : j ≤ d) :
    (LagrangePolynomial.build d troot).D.getD j 0
      = eval 1 (Lagrange.basis (Finset.range (d + 1)) (fun i => (0 :: troot).getD i 0) j) := by
  rw [← listPoly_basis_p, ← eval_eq]
  simp [build_D, List.getD_eq_getElem?_getD, List.getElem?_range, Nat.lt_succ_of_le hj]

/-- The quadrature weight `B[j]` is the integral over `[0,1]` of the Lagrange basis
polynomial. -/
theorem build_B_getD_basis (d : Nat) (troot : List K) (j : Nat) (hj : j ≤ d) :
    (LagrangePolynomial.build d troot).B.getD j 0
      = unitIntegral
          (Lagrange.basis (Finset.range (d + 1)) (fun i => (0 :: troot).getD i 0) j) := by
  rw [← listPoly_basis_p, ← eval_anti_derivative_one]
  simp [build_B, List.getD_eq_getElem?_getD, List.getElem?_range, Nat.lt_succ_of_le hj]

/-- The entry `C(r, j)` is the derivative of the Lagrange basis polynomial `r` at root `j`. -/
theorem build_C_at_basis (d : Nat) (troot : List K) (r j : Nat) (hr : r ≤ d) (hj : j ≤ d) :
    (LagrangePolynomial.build d troot).C_at r j
      = eval ((0 :: troot).getD j 0)
          (derivative
            (Lagrange.basis (Finset.range (d + 1)) (fun i => (0 :: troot).getD i 0) r)) := by
  rw [← listPoly_basis_p, ← listPoly_derivative, ← eval_eq]
  simp [LagrangePolynomial.C_at, LagrangePolynomial.build, List.getElem?_range,
    Nat.lt_succ_of_le hr, Nat.lt_succ_of_le hj]

/-- A polynomial of degree at most `d` is the combination of the `d + 1` Lagrange basis
polynomials with its values at the roots. -/
theorem interpolation_exact (d : Nat) (troot : List K) (hlen : troot.length = d)
    (hnd : (0 :: troot).Nodup) (q : Polynomial K) (hq : q.natDegree ≤ d) :
    q = ∑ i in Finset.range (d + 1), C (eval ((0 :: troot).getD i 0) q)
        * Lagrange.basis (Finset.range (d + 1)) (fun i => (0 :: troot).getD i 0) i := by
  have hinj := injOn_roots (0 :: troot) (d + 1) (by simp [hlen]) hnd
  have hdeg : q.degree < (Finset.range (d + 1)).card := by
    rw [Finset.card_range]
    exact lt_of_le_of_lt (degree_le_of_natDegree_le hq) (by exact_mod_cast Nat.lt_succ_self d)
  have h := Lagrange.eq_interpolate (v := fun i => (0 :: troot).getD i 0) hinj hdeg
  rw [Lagrange.interpolate_apply] at h
  exact h

/-- The deviations of a knot as the values of a polynomial at the roots. -/
theorem deviation_values (d : Nat) (troot : List K) (q : Polynomial K) (dXc : List K)
    (dX0 : K) (hdX0 : dX0 = eval 0 q)
    (hdXc : ∀ r, 1 ≤ r → r ≤ d → dXc.getD (r - 1) 0 = eval ((0 :: troot).getD r 0) q)
    (r : Nat) (hr : r ≤ d) :
    (if r = 0 then dX0 else dXc.getD (r - 1) 0) = eval ((0 :: troot).getD r 0) q := by
  by_cases h0 : r = 0
  · subst h0
    simp [hdX0]
  · rw [if_neg h0]
    exact hdXc r (by omega) hr

end Exactness

section ExactnessClaims

open Polynomial

variable {K X U : Type} [LinearOrderedField K] [AddCommGroup U] [Module K U]

omit [AddCommGroup U] [Module K U] in
/-- The weighted sum of the values of a polynomial of degree at most `d` at the roots, with
the derivatives of the basis polynomials at root `j` as weights, is the derivative of the
polynomial at root `j`. -/
theorem derivative_weights_exact (d : Nat) (troot : List K) (hlen : troot.length = d)
    (hnd : (0 :: troot).Nodup) (q : Polynomial K) (hq : q.natDegree ≤ d) (j : Nat)
    (hj : j ≤ d) :
    ∑ r in Finset.range (d + 1),
        (LagrangePolynomial.build d troot).C_at r j * eval ((0 :: troot).getD r 0) q
      = eval ((0 :: troot).getD j 0) (derivative q) := by
  have hq2 := congrArg (fun p => eval ((0 :: troot).getD j 0) (derivative p))
    (interpolation_exact d troot hlen hnd q hq)
  simp only [derivative_sum, derivative_C_mul, eval_finset_sum, eval_mul, eval_C] at hq2
  rw [hq2]
  apply Finset.sum_congr rfl
  intro r hr
  rw [build_C_at_basis d troot r j (Nat.lt_succ_iff.mp (Finset.mem_range.mp hr)) hj, mul_comm]

omit [AddCommGroup U] [Module K U] in
/-- The weighted sum of the values of a polynomial of degree at most `d` at the roots, with
the continuity weights, is the value of the polynomial at `1`. -/
theorem continuity_weights_exact (d : Nat) (troot : List K) (hlen : troot.length = d)
    (hnd : (0 :: troot).Nodup) (q : Polynomial K) (hq : q.natDegree ≤ d) :
    ∑ r in Finset.range (d + 1),
        (LagrangePolynomial.build d troot).D.getD r 0 * eval ((0 :: troot).getD r 0) q
      = eval 1 q := by
  have hq2 := congrArg (fun p => eval 1 p) (interpolation_exact d troot hlen hnd q hq)
  simp only [eval_finset_sum, eval_mul, eval_C] at hq2
  rw [hq2]
  apply Finset.sum_congr rfl
  intro r hr
  rw [build_D_getD d troot r (Nat.lt_succ_iff.mp (Finset.mem_range.mp hr)), mul_comm]

omit [AddCommGroup U] [Module K U] in
/-- The sum `dxp` on deviations that are the values of a polynomial of degree at most `d`. -/
theorem dxp_exact (self : PseudospectralSegment K) (d : Nat) (troot : List K)
    (hpoly : self.dX_poly = LagrangePolynomial.build d troot) (hlen : troot.length = d)
    (hnd : (0 :: troot).Nodup) (q : Polynomial K) (hq : q.natDegree ≤ d) (dXc : List K)
    (dX0 : K) (hdX0 : dX0 = eval 0 q)
    (hdXc : ∀ r, 1 ≤ r → r ≤ d → dXc.getD (r - 1) 0 = eval ((0 :: troot).getD r 0) q)
    (j : Nat) (hj : j ≤ d) :
    self.dxp dXc dX0 j = eval ((0 :: troot).getD j 0) (derivative q) := by
  rw [dxp_sum, hpoly, build_d, ← derivative_weights_exact d troot hlen hnd q hq j hj]
  apply Finset.sum_congr rfl
  intro r hr
  rw [deviation_values d troot q dXc dX0 hdX0 hdXc r
    (Nat.lt_succ_iff.mp (Finset.mem_range.mp hr)), smul_eq_mul]

omit [AddCommGroup U] [Module K U] in
theorem getD_replicate_pred (d r : Nat) (c : K) (hr1 : 1 ≤ r) (hr : r ≤ d) :
    (List.replicate d c).getD (r - 1) 0 = c := by
  have hlt : r - 1 < d := by omega
  simp [List.getD_eq_getElem?_getD, List.getElem?_replicate, hlt]

/-- C27: for every degree `d ≥ 1`, pairwise distinct roots `0 = tau_0, tau_1, …, tau_d` and
every polynomial `q` of degree at most `d`, if `dX0 = q(tau_0)` and `dXc[r-1] = q(tau_r)` for
`r = 1..d`, then the interpolated derivative `dxp_j` computed in `initialize_expression_graph`
is `q'(tau_j)` for every `j` in `1..d`; in particular `dxp_j = 0` when all the deviations of
the knot are equal. -/
theorem C27_differentiation_exact (self : PseudospectralSegment K) (d : Nat) (troot : List K)
    (hpoly : self.dX_poly = LagrangePolynomial.build d troot) (_hd : 1 ≤ d)
    (hlen : troot.length = d) (hnd : (0 :: troot).Nodup) :
    (∀ (q : Polynomial K) (dXc : List K) (dX0 : K), q.natDegree ≤ d →
      dX0 = eval ((0 :: troot).getD 0 0) q →
      (∀ r, 1 ≤ r → r ≤ d → dXc.getD (r - 1) 0 = eval ((0 :: troot).getD r 0) q) →
      ∀ j, 1 ≤ j → j ≤ d →
        self.dxp dXc dX0 j = eval ((0 :: troot).getD j 0) (derivative q)) ∧
    ∀ (c : K) (j : Nat), 1 ≤ j → j ≤ d → self.dxp (List.replicate d c) c j = 0 := by
  constructor
  · intro q dXc dX0 hq hdX0 hdXc j _ hj
    exact dxp_exact self d troot hpoly hlen hnd q hq dXc dX0 (by simpa using hdX0) hdXc j hj
  · intro c j _ hj
    have h := dxp_exact self d troot hpoly hlen hnd (C c) (by simp) (List.replicate d c) c
      (by simp) (fun r hr1 hr => by rw [getD_replicate_pred d r c hr1 hr, eval_C]) j hj
    rw [h, derivative_C, eval_zero]

theorem C27_differentiation_exact_witness :
    ∃ seg, PseudospectralSegment.new equispaced_points 2 2 (1 / 10 : ℚ) ⟨1, 1, 1⟩ scalar_Fint
        = Except.ok seg ∧
      ((∀ (q : Polynomial ℚ) (dXc : List ℚ) (dX0 : ℚ), q.natDegree ≤ 2 →
        dX0 = eval ((0 :: [(1 / 2 : ℚ), 1]).getD 0 0) q →
        (∀ r, 1 ≤ r → r ≤ 2 →
          dXc.getD (r - 1) 0 = eval ((0 :: [(1 / 2 : ℚ), 1]).getD r 0) q) →
        ∀ j, 1 ≤ j → j ≤ 2 →
          seg.dxp dXc dX0 j = eval ((0 :: [(1 / 2 : ℚ), 1]).getD j 0) (derivative q)) ∧
      ∀ (c : ℚ) (j : Nat), 1 ≤ j → j ≤ 2 → seg.dxp (List.replicate 2 c) c j = 0) := by
  obtain ⟨seg, hseg, hpoly, -⟩ := degree_two_segment
  exact ⟨seg, hseg, C27_differentiation_exact seg 2 [1 / 2, 1] hpoly (by decide) rfl
    (by norm_num)⟩

/-- The estimate `dXf` on deviations that are the values of a polynomial of degree at most
`d`. -/
theorem dXf_exact (d : Nat) (troot : List K) (hlen : troot.length = d)
    (hnd : (0 :: troot).Nodup) (q : Polynomial K) (hq : q.natDegree ≤ d) (dXc : List K)
    (dX0 : K) (hdX0 : dX0 = eval 0 q)
    (hdXc : ∀ r, 1 ≤ r → r ≤ d → dXc.getD (r - 1) 0 = eval ((0 :: troot).getD r 0) q) :
    (LagrangePolynomial.build d troot).D.getD 0 0 • dX0
        + ∑ i in Finset.range d,
            (LagrangePolynomial.build d troot).D.getD (i + 1) 0 • dXc.getD i 0
      = eval 1 q := by
  rw [← continuity_weights_exact d troot hlen hnd q hq, Finset.sum_range_succ', add_comm]
  congr 1
  · apply Finset.sum_congr rfl
    intro i hi
    have h := hdXc (i + 1) (by omega) (Finset.mem_range.mp hi)
    rw [Nat.add_sub_cancel] at h
    rw [h, smul_eq_mul]
  · simp [hdX0]

/-- C28: for every degree `d ≥ 1`, pairwise distinct roots `0 = tau_0, tau_1, …, tau_d` and
every polynomial `q` of degree at most `d`, if `dX0 = q(tau_0)` and `dXc[r-1] = q(tau_r)` for
`r = 1..d`, then the loop of `initialize_expression_graph` returns with the end-of-interval
estimate `dXf = D[0] * dX0 + Σ_{j = 1..d} D[j] * dXc[j-1]` equal to `q(1)`; the weights `D`
sum to `1`, and a knot whose deviations are all equal to `c` has `dXf = c`. -/
theorem C28_continuity_exact (self : PseudospectralSegment K) (d : Nat) (troot : List K)
    (hpoly : self.dX_poly = LagrangePolynomial.build d troot) (_hd : 1 ≤ d)
    (hlen : troot.length = d) (hnd : (0 :: troot).Nodup)
    (I : Dynamics K X K U) (X0 : X) (Uc : List U)
    (ht : ∀ i, i < self.dX_poly.d →
      0 ≤ self.dX_poly.tau_root.getD i 0 ∧ self.dX_poly.tau_root.getD i 0 ≤ 1)
    (hU : self.U_poly.d ≤ Uc.length) :
    (∀ (q : Polynomial K) (dXc : List K) (dX0 : K), q.natDegree ≤ d →
      dX0 = eval ((0 :: troot).getD 0 0) q →
      (∀ r, 1 ≤ r → r ≤ d → dXc.getD (r - 1) 0 = eval ((0 :: troot).getD r 0) q) →
      ∃ graph, self.collocation_loop I X0 dXc dX0 Uc = Except.ok graph ∧
        graph.dXf = self.dX_poly.D.getD 0 0 • dX0
          + ∑ j in Finset.Icc 1 d, self.dX_poly.D.getD j 0 • dXc.getD (j - 1) 0 ∧
        graph.dXf = eval 1 q) ∧
    self.dX_poly.D.sum = 1 ∧
    ∀ c : K, ∃ graph, self.collocation_loop I X0 (List.replicate d c) c Uc = Except.ok graph ∧
      graph.dXf = c := by
  have hd : self.dX_poly.d = d := by rw [hpoly, build_d]
  refine ⟨?_, ?_, ?_⟩
  · intro q dXc dX0 hq hdX0 hdXc
    refine ⟨_, collocation_loop_eq self I X0 dXc dX0 Uc ht hU, ?_, ?_⟩
    · rw [sum_Icc_one]
      simp only [hd, Nat.add_sub_cancel]
    · simp only [hpoly, build_d]
      exact dXf_exact d troot hlen hnd q hq dXc dX0 (by simpa using hdX0) hdXc
  · have h := continuity_weights_exact d troot hlen hnd 1 (by simp)
    simp only [eval_one, mul_one] at h
    have e : ∀ j, j ∈ Finset.range (d + 1) → (LagrangePolynomial.build d troot).D.getD j 0
        = (LagrangePolynomial.basis_p d (0 :: troot) j).eval 1 := by
      intro j hj
      simp [build_D, List.getD_eq_getElem?_getD, List.getElem?_range, Finset.mem_range.mp hj]
    rw [Finset.sum_congr rfl e] at h
    rw [hpoly, build_D, list_sum_map_range]
    exact h
  · intro c
    refine ⟨_, collocation_loop_eq self I X0 (List.replicate d c) c Uc ht hU, ?_⟩
    have h := dXf_exact d troot hlen hnd (C c) (by simp) (List.replicate d c) c
      (by simp) (fun r hr1 hr => by rw [getD_replicate_pred d r c hr1 hr, eval_C])
    simp only [hpoly, build_d]
    rw [h, eval_C]

theorem C28_continuity_exact_witness :
    ∃ seg, PseudospectralSegment.new equispaced_points 2 2 (1 / 10 : ℚ) ⟨1, 1, 1⟩ scalar_Fint
        = Except.ok seg ∧
      ((∀ (q : Polynomial ℚ) (dXc : List ℚ) (dX0 : ℚ), q.natDegree ≤ 2 →
        dX0 = eval ((0 :: [(1 / 2 : ℚ), 1]).getD 0 0) q →
        (∀ r, 1 ≤ r → r ≤ 2 →
          dXc.getD (r - 1) 0 = eval ((0 :: [(1 / 2 : ℚ), 1]).getD r 0) q) →
        ∃ graph, seg.collocation_loop (scenario_dynamics ℚ) 0 dXc dX0 [4]
            = Except.ok graph ∧
          graph.dXf = seg.dX_poly.D.getD 0 0 • dX0
            + ∑ j in Finset.Icc 1 2, seg.dX_poly.D.getD j 0 • dXc.getD (j - 1) 0 ∧
          graph.dXf = eval 1 q) ∧
      seg.dX_poly.D.sum = 1 ∧
      ∀ c : ℚ, ∃ graph,
        seg.collocation_loop (scenario_dynamics ℚ) 0 (List.replicate 2 c) c [4]
          = Except.ok graph ∧
        graph.dXf = c) := by
  obtain ⟨seg, hseg, hpoly, hupoly⟩ := degree_two_segment
  exact ⟨seg, hseg, C28_continuity_exact seg 2 [1 / 2, 1] hpoly (by decide) rfl
    (by norm_num) (scenario_dynamics ℚ) 0 [4]
    (fun i _ => by rw [hpoly]; exact degree_two_roots i)
    (by rw [hupoly]; exact le_refl 1)⟩

end ExactnessClaims

section DefectClaims

open Polynomial

/-- C13 (failing input): the defect block of one knot in the end-to-end scenario (`d = 3`,
Legendre points `tau_1 < tau_2 < tau_3`, `h = 0.1`, `F(x, u) = u`) on the control samples
`Uc = [1, 0]` and the equal deviations `dX0 = 1`, `dXc = [1, 1, 1]`, for which every
interpolated derivative `dxp_j` is `0`. The function `feq` returns the block
`[h * 1 - 0, h * v1 - 0, h * v2 - 0]`, where `v1, v2, v3` are the results of the control
interpolation at the abscissae `tau_1, tau_2, tau_3` of the collocation points `j = 1, 2, 3`
and `1` is its result at `tau_0 = 0`: entry `j` is formed with the control interpolated at
`tau_{j-1}`. The block `[h * v1 - 0, h * v2 - 0, h * v3 - 0]` of the expressions
`h * F(x_c, u_c) - dxp_j` with the control of each point is a different one, in every entry:
`v1 < 1`, `v2 < v1` and `v2 < v3`. -/
theorem C13_defect_control_shifted :
    ∃ seg eq v1 v2 v3,
      PseudospectralSegment.new (legendre_points ℚ) 3 2 (1 / 10 : ℚ) ⟨1, 1, 1⟩ scalar_Fint
        = Except.ok seg ∧
      seg.feq (scenario_dynamics ℚ) (0, [1, 1, 1], 1, [1, 0]) = Except.ok eq ∧
      seg.U_poly.lagrange_interpolation (seg.dX_poly.tau_root.getD 1 0) [(1 : ℚ), 0]
        = Except.ok v1 ∧
      seg.U_poly.lagrange_interpolation (seg.dX_poly.tau_root.getD 2 0) [(1 : ℚ), 0]
        = Except.ok v2 ∧
      seg.U_poly.lagrange_interpolation (seg.dX_poly.tau_root.getD 3 0) [(1 : ℚ), 0]
        = Except.ok v3 ∧
      eq = [1 / 10 * 1 - 0, 1 / 10 * v1 - 0, 1 / 10 * v2 - 0] ∧
      eq ≠ [1 / 10 * v1 - 0, 1 / 10 * v2 - 0, 1 / 10 * v3 - 0] ∧
      v1 < 1 ∧ v2 < v1 ∧ v2 < v3 := by
  obtain ⟨seg, hseg, -, hh, -, -, -, hpoly, hupoly, -⟩ :=
    new_ok (legendre_points ℚ) 3 2 (1 / 10 : ℚ) ⟨1, 1, 1⟩ scalar_Fint _ _
      (by decide) (by decide) (by norm_num) rfl rfl
      (legendre_scenario_valid (K := ℚ)).points (legendre_scenario_valid (K := ℚ)).points2
  have hroots : ∀ i, 0 ≤ seg.dX_poly.tau_root.getD i 0 ∧ seg.dX_poly.tau_root.getD i 0 ≤ 1 := by
    intro i
    rw [hpoly, build_tau_root]
    exact roots_unit_interval _ (legendre_scenario_valid (K := ℚ)).roots i
  have hU : seg.U_poly.d ≤ [(1 : ℚ), 0].length := by rw [hupoly]; exact le_refl 2
  have hdxp : ∀ j, 1 ≤ j → j ≤ 3 → seg.dxp [(1 : ℚ), 1, 1] 1 j = 0 := by
    intro j _ hj
    have h := dxp_exact seg 3 _ hpoly rfl (by norm_num) (C (1 : ℚ)) (by simp) [1, 1, 1] 1
      (by simp) (fun r hr1 hr => by
        rw [show [(1 : ℚ), 1, 1] = List.replicate 3 1 from rfl,
          getD_replicate_pred 3 r 1 hr1 hr, eval_C]) j hj
    rw [h, derivative_C, eval_zero]
  have hloop := collocation_loop_eq seg (scenario_dynamics ℚ) 0 [1, 1, 1] 1 [1, 0]
    (fun i _ => hroots i) hU
  have hv1 : (LagrangePolynomial.build 2
      [(21132486540518711775 / 10 ^ 20 : ℚ), 78867513459481288225 / 10 ^ 20]).interpolant
        (11270166537925831148 / 10 ^ 20) [(1 : ℚ), 0] < 1 := by
    rw [quadratic_interpolant]; norm_num
  have heq : (seg.collocation_graph (scenario_dynamics ℚ) 0 [1, 1, 1] 1 [1, 0]).eq
      = [1 / 10 * 1 - 0,
          1 / 10 * seg.U_poly.interpolant (seg.dX_poly.tau_root.getD 1 0) [(1 : ℚ), 0] - 0,
          1 / 10 * seg.U_poly.interpolant (seg.dX_poly.tau_root.getD 2 0) [(1 : ℚ), 0] - 0] := by
    have e1 := hdxp 1 (by decide) (by decide)
    have e2 := hdxp 2 (by decide) (by decide)
    have e3 := hdxp 3 (by decide) (by decide)
    simp only [PseudospectralSegment.collocation_graph, hpoly, hupoly, build_d, build_tau_root,
      hh, scenario_dynamics, smul_eq_mul]
    simp only [hpoly] at e1 e2 e3
    simp [List.range_succ, e1, e2, e3, quadratic_interpolant]
  refine ⟨seg, (seg.collocation_graph (scenario_dynamics ℚ) 0 [1, 1, 1] 1 [1, 0]).eq, _, _, _,
    by exact_mod_cast hseg, ?_,
    lagrange_interpolation_interpolant _ _ _ (hroots 1).1 (hroots 1).2 hU,
    lagrange_interpolation_interpolant _ _ _ (hroots 2).1 (hroots 2).2 hU,
    lagrange_interpolation_interpolant _ _ _ (hroots 3).1 (hroots 3).2 hU, heq, ?_, ?_, ?_,
    ?_⟩
  · simp only [PseudospectralSegment.feq, hloop, Except.map]
    rfl
  · rw [heq]
    intro hcontra
    have h1 := (List.cons.inj hcontra).1
    simp only [hpoly, hupoly, build_tau_root, List.getD_cons_zero, List.getD_cons_succ] at h1
    have h2 : (LagrangePolynomial.build 2
      [(21132486540518711775 / 10 ^ 20 : ℚ), 78867513459481288225 / 10 ^ 20]).interpolant
        (11270166537925831148 / 10 ^ 20) [(1 : ℚ), 0] = 1 := by linarith
    exact absurd h2 (ne_of_lt hv1)
  · simp only [hpoly, hupoly, build_tau_root, show 3 - 1 = 2 from rfl, quadratic_interpolant]
    norm_num
  · simp only [hpoly, hupoly, build_tau_root, show 3 - 1 = 2 from rfl, quadratic_interpolant]
    norm_num
  · simp only [hpoly, hupoly, build_tau_root, show 3 - 1 = 2 from rfl, quadratic_interpolant]
    norm_num

end DefectClaims

section LegendreScheme

open Polynomial

variable {K : Type} [Field K] [CharZero K]

end LegendreScheme

section QuadratureClaims

open Polynomial

variable {K S V U : Type} [LinearOrderedField K] [AddCommGroup V] [Module K V]
  [AddCommGroup U] [Module K U]

omit [LinearOrderedField K] [AddCommGroup V] [Module K V] [AddCommGroup U] [Module K U] in
theorem range_succ_erase_zero (d : Nat) :
    (Finset.range (d + 1)).erase 0 = (Finset.range d).image Nat.succ := by
  ext x
  simp only [Finset.mem_erase, Finset.mem_range, Finset.mem_image]
  constructor
  · rintro ⟨h0, hx⟩
    exact ⟨x - 1, by omega, by omega⟩
  · rintro ⟨y, hy, rfl⟩
    exact ⟨Nat.succ_ne_zero y, by omega⟩

omit [AddCommGroup V] [Module K V] [AddCommGroup U] [Module K U] in
/-- The quadrature weight `B[0]` of the prepended root `0` is a multiple of the integral over
`[0,1]` of the node polynomial `Π_r (t - tau_r)` of the collocation points. -/
theorem weight_zero_nodal (d : Nat) (troot : List K) :
    (LagrangePolynomial.build d troot).B.getD 0 0
      = (∏ r in Finset.range d, (0 - troot.getD r 0)⁻¹)
          * unitIntegral (∏ r in Finset.range d, (X - C (troot.getD r 0))) := by
  rw [build_B_getD_basis d troot 0 (Nat.zero_le d)]
  unfold Lagrange.basis Lagrange.basisDivisor
  rw [range_succ_erase_zero, Finset.prod_image (fun x _ y _ hxy => Nat.succ.inj hxy)]
  simp only [List.getD_cons_zero, List.getD_cons_succ]
  rw [Finset.prod_mul_distrib, ← map_prod, C_mul', map_smul, smul_eq_mul]

omit [AddCommGroup V] [Module K V] [AddCommGroup U] [Module K U] in
/-- The integral over `[0,1]` of a monic cubic with the roots `a, b, c`. -/
theorem unitIntegral_cubic (a b c : K) :
    unitIntegral (((X : Polynomial K) - C a) * (X - C b) * (X - C c))
      = 1 / 4 - (a + b + c) / 3 + (a * b + b * c + c * a) / 2 - a * b * c := by
  have e : ((X : Polynomial K) - C a) * (X - C b) * (X - C c)
      = monomial 3 (1 : K) - monomial 2 (a + b + c) + monomial 1 (a * b + b * c + c * a)
        - monomial 0 (a * b * c) := by
    simp only [← C_mul_X_pow_eq_monomial, C_add, C_mul, C_1]
    ring
  rw [e, map_sub, map_add, map_sub, unitIntegral_monomial, unitIntegral_monomial,
    unitIntegral_monomial, unitIntegral_monomial]
  push_cast
  ring

omit [AddCommGroup V] [Module K V] [AddCommGroup U] [Module K U] in
/-- With the tabulated Legendre points of order 3, which are symmetric about `1/2`, the
quadrature weight `B[0]` is `0`. -/
theorem legendre_table_weight_zero :
    (LagrangePolynomial.build 3 [(11270166537925831148 / 10 ^ 20 : K), 1 / 2,
      88729833462074168852 / 10 ^ 20]).B.getD 0 0 = 0 := by
  rw [weight_zero_nodal]
  simp only [Finset.prod_range_succ, Finset.prod_range_zero, one_mul, List.getD_cons_zero,
    List.getD_cons_succ]
  rw [unitIntegral_cubic]
  norm_num

omit [AddCommGroup V] [Module K V] [AddCommGroup U] [Module K U] in
/-- The quadrature weight `B[0]` of degree 2 with the roots `0, a, b`. -/
theorem quadratic_weight_zero (a b : K) (ha : a ≠ 0) (hb : b ≠ 0) :
    (LagrangePolynomial.build 2 [a, b]).B.getD 0 0
      = a⁻¹ * b⁻¹ * (1 / 3 - (a + b) / 2 + a * b) := by
  rw [build_B_getD 2 [a, b] 0 (by decide)]
  simp [LagrangePolynomial.basis_p, List.range_succ, casadi.Polynomial.mul,
    casadi.Polynomial.mul_row, casadi.Polynomial.div, casadi.Polynomial.linear,
    casadi.Polynomial.const, casadi.Polynomial.anti_derivative, casadi.Polynomial.eval]
  simp only [inv_neg, div_self ha, div_self hb]
  field_simp
  ring

/-- For collocation points of order 2 that are binary fractions `m / 2^k` and `n / 2^l`, as
every finite `double` is, the quadrature weight `B[0]` is not `0`: the Gauss-Legendre points
of order 2 are irrational. -/
theorem binary_points_weight_ne_zero (m n : Int) (k l : Nat) (hm : m ≠ 0) (hn : n ≠ 0) :
    (LagrangePolynomial.build 2 [(m : ℚ) / 2 ^ k, (n : ℚ) / 2 ^ l]).B.getD 0 0 ≠ 0 := by
  have hk : (2 : ℚ) ^ k ≠ 0 := pow_ne_zero _ (by norm_num)
  have hl : (2 : ℚ) ^ l ≠ 0 := pow_ne_zero _ (by norm_num)
  have hmq : (m : ℚ) ≠ 0 := Int.cast_ne_zero.mpr hm
  have hnq : (n : ℚ) ≠ 0 := Int.cast_ne_zero.mpr hn
  rw [quadratic_weight_zero _ _ (div_ne_zero hmq hk) (div_ne_zero hnq hl)]
  intro h0
  have h1 : (1 / 3 - ((m : ℚ) / 2 ^ k + (n : ℚ) / 2 ^ l) / 2
      + (m : ℚ) / 2 ^ k * ((n : ℚ) / 2 ^ l)) = 0 := by
    rcases mul_eq_zero.mp h0 with h | h
    · rcases mul_eq_zero.mp h with h | h
      · exact absurd (inv_eq_zero.mp h) (div_ne_zero hmq hk)
      · exact absurd (inv_eq_zero.mp h) (div_ne_zero hnq hl)
    · exact h
  have h2 : (2 : ℚ) ^ (k + l + 1)
      = 3 * ((m : ℚ) * 2 ^ l + (n : ℚ) * 2 ^ k - 2 * m * n) := by
    field_simp at h1
    have h6 : (2 : ℚ) ^ k * 2 ^ l
        * (2 ^ k * 2 ^ l * 2 - 3 * ((m : ℚ) * 2 ^ l + (n : ℚ) * 2 ^ k - 2 * m * n)) = 0 := by
      linear_combination h1
    have h7 := (mul_eq_zero.mp h6).resolve_left (mul_ne_zero hk hl)
    rw [pow_succ, pow_add]
    linear_combination h7
  have h3 : (2 : Int) ^ (k + l + 1) = 3 * (m * 2 ^ l + n * 2 ^ k - 2 * m * n) := by
    exact_mod_cast h2
  have h4 : (3 : Int) ∣ 2 ^ (k + l + 1) := ⟨_, h3⟩
  have h5 : (3 : Int) ∣ 2 := Int.Prime.dvd_pow' (by norm_num) h4
  omega

/-- The Gauss-Legendre point of order 1, `1/2`, is the root of the shifted Legendre polynomial
of degree 1. -/
theorem shifted_legendre_one_root : eval (1 / 2 : ℚ) (shifted_legendre ℚ 1) = 0 := by
  simp [shifted_legendre]

end QuadratureClaims

section ContactClaims

/-- The assignments at the end of `CreateFunction` leave `upper_bound` as it was and leave in
`lower_bound` the function `upper_bound_Contact`. -/
theorem CreateFunction_bounds {K : Type} (problem_data : legged.ContactConstraintProblemData K)
    (knot_index : Int) (constraint_data result : opt.ConstraintData K)
    (h : legged.CreateFunction problem_data knot_index constraint_data = Except.ok result) :
    result.upper_bound = constraint_data.upper_bound ∧
      ∃ value, result.lower_bound = some { name := "upper_bound_Contact", value := value } := by
  unfold legged.CreateFunction at h
  simp only [bind, Except.bind, pure, Except.pure] at h
  split at h
  · simp at h
  · split at h
    · simp at h
    · obtain rfl := Except.ok.inj h
      exact ⟨rfl, _, rfl⟩

/-- C25 (failing input): one end effector in contact with a surface with `b = (1, 2)` and
height `0`, and a `constraint_data` whose functions have not been assigned. `CreateFunction`
returns with `constraint_data.lower_bound` equal to the function `upper_bound_Contact`, which
returns `(1, 2, 0)`, and with `constraint_data.upper_bound` still unassigned; the residual of
`G` has `3` rows. -/
theorem C25_upper_bound_unassigned :
    ∃ result,
      legged.CreateFunction legged.sample_contact_problem 0 ({} : opt.ConstraintData ℚ)
        = Except.ok result ∧
      result.G = some { name := "G_Contact", rows := 3 } ∧
      result.lower_bound = some { name := "upper_bound_Contact", value := [1, 2, 0] } ∧
      result.lower_bound
        ≠ some { name := "lower_bound_Contact", value := [⊥, ⊥, 0] } ∧
      result.upper_bound = none := by
  refine ⟨_, rfl, rfl, ?_, ?_, rfl⟩
  · simp [legged.sample_contact_problem]
  · simp

end ContactClaims

end galileo
